import Mathlib

/-! Minassa: aggregation, search and paging of reported phone numbers

A shallow embedding of the list-processing logic of the `minassa` front end
(`src/App.js`, `src/pages/Home.js`, `src/pages/TroubleList.js`) together with
theorems about it.

Modelling conventions.

* A JavaScript string is a Lean `String` (a sequence of Unicode scalar values).
  `String.prototype.toLowerCase` is defined by the Unicode case tables, which are
  not part of the repository: every definition that lower-cases takes the
  function as the argument `toLowerCase`.
* A plain JavaScript object used as a dictionary (`phoneMap = {}`) is the list of
  its own properties in creation order; property reads fall back to
  `Object.prototype`, and `Object.values` enumerates array-index keys first.
* A `forEach` body that raises a `TypeError` makes the step function return
  `none`; the enclosing `try`/`catch` is modelled where the source has one.
-/

namespace Minassa

/-! ## JavaScript strings -/

/-- Code points removed by `String.prototype.trim`: ECMAScript WhiteSpace
(TAB, VT, FF, ZWNBSP and the Unicode category Zs) and LineTerminator. -/
def isWhiteSpace (c : Char) : Bool :=
  c.toNat ∈ [0x09, 0x0A, 0x0B, 0x0C, 0x0D, 0x20, 0xA0, 0x1680, 0x2000, 0x2001, 0x2002,
    0x2003, 0x2004, 0x2005, 0x2006, 0x2007, 0x2008, 0x2009, 0x200A, 0x2028, 0x2029,
    0x202F, 0x205F, 0x3000, 0xFEFF]

/-- The method `s.trim()`: strip white space from both ends. -/
def trim (s : String) : String :=
  ⟨((s.data.dropWhile isWhiteSpace).reverse.dropWhile isWhiteSpace).reverse⟩

/-- Whether the character list `t` starts the character list `s`. -/
def startsWithChars : List Char → List Char → Bool
  | _, [] => true
  | [], _ :: _ => false
  | c :: s, d :: t => c == d && startsWithChars s t

/-- Whether `t` occurs in `s` at some position (character lists). -/
def includesChars : List Char → List Char → Bool
  | [], t => startsWithChars [] t
  | c :: s, t => startsWithChars (c :: s) t || includesChars s t

/-- The method `s.includes(t)`. -/
def includes (s t : String) : Bool := includesChars s.data t.data

/-- JavaScript truthiness of a value that is a string when present:
`undefined`, `null` and the empty string are falsy. -/
def truthy : Option String → Bool
  | some s => s != ""
  | none => false

/-! ## Customer records (`api.getCustomers`) -/

/-- A JavaScript value in the place of a user id (`user.id`, `motif.user_id`): the
field is absent (`undefined`), `null`, a number or a string. The strict equality `===`
on these values is equality of the constructors and their arguments: `undefined` and
`null` differ, and a number never equals a string. -/
inductive JsId where
  | undefined
  | null
  | number (n : Nat)
  | string (s : String)
deriving DecidableEq

/-- A report (`motif`) as delivered inside a customer record. Fields that the code
dereferences without a guard (`description`) are present by type. -/
structure Motif where
  id : Nat
  description : String
  evidence_image : String
  created_at : Option String
  user_id : JsId
deriving DecidableEq

/-- The `motifs` field of a customer record as the code distinguishes it. -/
inductive MotifsField where
  /-- Falsy: `undefined`, `null`, ... -/
  | missing
  /-- Truthy but `Array.isArray` is false. -/
  | nonArray
  /-- An array of reports. -/
  | array (ms : List Motif)
deriving DecidableEq

/-- A customer record; `none` is an absent (`undefined`/`null`) field. -/
structure Customer where
  id : Option Nat
  number : Option String
  nom : Option String
  motifs : MotifsField
deriving DecidableEq

/-- The placeholder name used when `customer.nom` is falsy. -/
def unknownName : String := "غير معروف"

/-- The value of `customer.nom || 'غير معروف'`. -/
def Customer.displayName (c : Customer) : String :=
  match c.nom with
  | some n => if n != "" then n else unknownName
  | none => unknownName

/-- The reports counted for a record:
`customer.motifs && Array.isArray(customer.motifs)` selects arrays only. -/
def Customer.motifList (c : Customer) : List Motif :=
  match c.motifs with
  | .array ms => ms
  | _ => []

/-! ## `Home.fetchCustomers` (App.js) -/

/-- A comment of a group: `{...motif, customerName: customer.nom || 'غير معروف'}`. -/
structure Comment where
  motif : Motif
  customerName : String
deriving DecidableEq

/-- The field `description` of a comment (spread from the motif). -/
def Comment.description (c : Comment) : String := c.motif.description

/-- The `id` of a group: `customer.id || Math.random().toString(36).substr(2, 9)`. -/
inductive GroupId where
  | ofCustomer (id : Nat)
  /-- The random token; its value is not modelled. -/
  | random
deriving DecidableEq

/-- The value of `customer.id || Math.random()...` (`0` is falsy). -/
def Customer.groupId (c : Customer) : GroupId :=
  match c.id with
  | some n => if n != 0 then .ofCustomer n else .random
  | none => .random

/-- A value of `phoneMap` while it is being built; `names` is a `Set`, kept as the
list of its elements in insertion order. -/
structure PhoneEntry where
  number : String
  names : List String
  comments : List Comment
  totalComments : Nat
  id : GroupId
deriving DecidableEq

/-- An element of `phoneGroups`: a `phoneMap` value with `names` joined. -/
structure PhoneGroup where
  number : String
  names : String
  comments : List Comment
  totalComments : Nat
  id : GroupId
deriving DecidableEq

/-- The method `set.add(x)` on an insertion-ordered `Set`. -/
def setAdd (s : List String) (x : String) : List String :=
  if x ∈ s then s else s ++ [x]

/-- The method `set.delete(x)` on an insertion-ordered `Set`. -/
def setDelete (s : List String) (x : String) : List String :=
  s.filter (fun y => y != x)

/-- Own properties of the object `phoneMap`, in creation order. -/
abbrev PhoneMap := List (String × PhoneEntry)

/-- String-keyed properties of `Object.prototype`, which every plain object
inherits (ECMAScript 20.1.3 and Annex B.2.2). All are functions, except
`__proto__`, whose getter returns `Object.prototype` itself. -/
def objectPrototypeKeys : List String :=
  ["constructor", "hasOwnProperty", "isPrototypeOf", "propertyIsEnumerable",
   "toLocaleString", "toString", "valueOf", "__proto__", "__defineGetter__",
   "__defineSetter__", "__lookupGetter__", "__lookupSetter__"]

/-- What the property read `phoneMap[key]` yields. -/
inductive PropertyRead where
  /-- An own property: a group object. -/
  | own (e : PhoneEntry)
  /-- A member of `Object.prototype`: truthy, and it has no property `names`. -/
  | inherited
  | undefined
deriving DecidableEq

/-- The own property `key` of the map, if any. -/
def ownProperty (m : PhoneMap) (key : String) : Option PhoneEntry :=
  (m.find? (fun p => p.1 == key)).map Prod.snd

/-- The property read `phoneMap[key]`. -/
def readProperty (m : PhoneMap) (key : String) : PropertyRead :=
  match ownProperty m key with
  | some e => .own e
  | none => if key ∈ objectPrototypeKeys then .inherited else .undefined

/-- In-place update of the group object stored under `key`. -/
def updateEntry (m : PhoneMap) (key : String) (f : PhoneEntry → PhoneEntry) : PhoneMap :=
  m.map (fun p => if p.1 == key then (p.1, f p.2) else p)

/-- First `forEach` of `fetchCustomers`: collect every truthy number. -/
def collectNumbers (customersData : List Customer) : List String :=
  customersData.foldl
    (fun s customer =>
      match customer.number with
      | some phone => if phone != "" then setAdd s phone else s
      | none => s)
    []

/-- State of the second `forEach`: `phoneMap` and `noComplaintsSet`. -/
structure AggState where
  phoneMap : PhoneMap
  noComplaintsSet : List String
deriving DecidableEq

/-- What the body of the second `forEach` does to a group object for one
customer record: add the name, count and append the reports. -/
def addCustomer (customer : Customer) (e : PhoneEntry) : PhoneEntry :=
  let e1 :=
    if truthy customer.nom then { e with names := setAdd e.names (customer.nom.getD "") }
    else { e with names := setAdd e.names unknownName }
  match customer.motifs with
  | .array ms =>
    { e1 with
      totalComments := e1.totalComments + ms.length
      comments := e1.comments ++ ms.map (fun motif => ⟨motif, customer.displayName⟩) }
  | _ => e1

/-- Body of the second `forEach` of `fetchCustomers`; `none` is the `TypeError`
of `phoneMap[phone].names.add(...)` when `phoneMap[phone]` is inherited from
`Object.prototype`. -/
def groupStep (st : AggState) (customer : Customer) : Option AggState :=
  match customer.number with
  | none => some st
  | some phone =>
    if phone == "" then some st
    else
      let phoneMap :=
        match readProperty st.phoneMap phone with
        | .undefined =>
          st.phoneMap ++ [(phone,
            { number := phone, names := [], comments := [], totalComments := 0,
              id := customer.groupId })]
        | _ => st.phoneMap
      match readProperty phoneMap phone with
      | .own _ =>
        some
          { phoneMap := updateEntry phoneMap phone (addCustomer customer)
            noComplaintsSet :=
              match customer.motifs with
              | .array ms =>
                if ms.length > 0 then setDelete st.noComplaintsSet phone
                else st.noComplaintsSet
              | _ => st.noComplaintsSet }
      | _ => none

/-- The second `forEach` from a given state. -/
def groupLoop (st : AggState) : List Customer → Option AggState
  | [] => some st
  | customer :: rest =>
    match groupStep st customer with
    | some st1 => groupLoop st1 rest
    | none => none

/-- The array index denoted by a property key: the key is the canonical decimal
form of an integer below `2^32 - 1` (ECMAScript 6.1.7). -/
def arrayIndex (key : String) : Option Nat :=
  let cs := key.data
  if cs.all Char.isDigit && !cs.isEmpty && (cs.head? != some '0' || cs.length == 1) then
    let n := cs.foldl (fun acc c => 10 * acc + (c.toNat - 48)) 0
    if n < 2 ^ 32 - 1 then some n else none
  else none

/-- The array `Object.values(phoneMap)`: values of array-index keys in ascending numeric
order, then the values of the other keys in creation order
(OrdinaryOwnPropertyKeys, ECMAScript 10.1.11.1). -/
def objectValues (m : PhoneMap) : List PhoneEntry :=
  (((m.filter (fun p => (arrayIndex p.1).isSome)).insertionSort
      (fun p q => (arrayIndex p.1).getD 0 ≤ (arrayIndex q.1).getD 0)) ++
    m.filter (fun p => (arrayIndex p.1).isNone)).map Prod.snd

/-- The `map` callback: `{...group, names: Array.from(group.names).join(', ')}`. -/
def PhoneEntry.toGroup (e : PhoneEntry) : PhoneGroup :=
  { number := e.number, names := ", ".intercalate e.names, comments := e.comments,
    totalComments := e.totalComments, id := e.id }

/-- The comparator `(a, b) => b.totalComments - a.totalComments`. -/
def compareGroups (a b : PhoneGroup) : Int :=
  (b.totalComments : Int) - (a.totalComments : Int)

/-- The method `Array.prototype.sort(cmp)`: a stable sort (ECMAScript 2019), in which `a`
stays in front of `b` when `cmp(a, b) <= 0`. -/
def jsSort {α : Type} (cmp : α → α → Int) (l : List α) : List α :=
  l.insertionSort (fun a b => cmp a b ≤ 0)

/-- The part of the component state written by `fetchCustomers`. -/
structure HomeData where
  phoneGroups : List PhoneGroup
  filteredGroups : List PhoneGroup
  noComplaintsNumbers : List String
  error : String
deriving DecidableEq

/-- The `try` block of `fetchCustomers` for `customersData.length > 0`:
`groupsArray` and `Array.from(noComplaintsSet)`, or `none` when it raises. -/
def aggregate (customersData : List Customer) : Option (List PhoneGroup × List String) :=
  match groupLoop { phoneMap := [], noComplaintsSet := collectNumbers customersData }
      customersData with
  | some st =>
    some (jsSort compareGroups ((objectValues st.phoneMap).map PhoneEntry.toGroup),
      st.noComplaintsSet)
  | none => none

/-- The function `Home.fetchCustomers` on the customer list extracted from the response. -/
def fetchCustomers (customersData : List Customer) : HomeData :=
  if customersData.length > 0 then
    match aggregate customersData with
    | some (groupsArray, noComplaints) =>
      { phoneGroups := groupsArray, filteredGroups := groupsArray,
        noComplaintsNumbers := noComplaints, error := "" }
    | none =>
      { phoneGroups := [], filteredGroups := [], noComplaintsNumbers := [],
        error := "فشل في جلب البيانات" }
  else
    { phoneGroups := [], filteredGroups := [], noComplaintsNumbers := [], error := "" }

/-- The value `Home.totalReports`: `phoneGroups.reduce((sum, group) => sum + group.totalComments, 0)`. -/
def totalReports (phoneGroups : List PhoneGroup) : Nat :=
  phoneGroups.foldl (fun sum group => sum + group.totalComments) 0

/-! ## Search effect and clean-number banner of `Home` (App.js) -/

/-- The `filter` callback of the search effect: the lower-cased term occurs in the
lower-cased number, in the lower-cased names string, or in the lower-cased
description of some comment. -/
def matchesSearch (toLowerCase : String → String) (searchTerm : String)
    (group : PhoneGroup) : Bool :=
  includes (toLowerCase group.number) (toLowerCase searchTerm) ||
  includes (toLowerCase group.names) (toLowerCase searchTerm) ||
  group.comments.any (fun comment =>
    includes (toLowerCase comment.description) (toLowerCase searchTerm))

/-- The search effect: the value given to `setFilteredGroups`. -/
def searchEffect (toLowerCase : String → String) (searchTerm : String)
    (phoneGroups : List PhoneGroup) : List PhoneGroup :=
  if trim searchTerm == "" then phoneGroups
  else phoneGroups.filter (matchesSearch toLowerCase searchTerm)

/-- The condition under which the clean-number banner is rendered:
`searchTerm && filteredGroups.length === 0 && noComplaintsNumbers.some(...)`. -/
def cleanNumberBanner (toLowerCase : String → String) (searchTerm : String)
    (filteredGroups : List PhoneGroup) (noComplaintsNumbers : List String) : Bool :=
  searchTerm != "" && filteredGroups.length == 0 &&
    noComplaintsNumbers.any (fun num => includes (toLowerCase num) (toLowerCase searchTerm))

/-- The simple case mapping restricted to ASCII: `toLowerCase` as it acts on
strings made of ASCII characters and caseless letters. -/
def asciiToLowerCase (s : String) : String := ⟨s.data.map Char.toLower⟩

/-! ## Pager (pages/Home.js, pages/TroubleList.js) -/

/-- The constant `PER_PAGE`. -/
def PER_PAGE : Nat := 20

/-- The method `Array.prototype.slice(start, end)` for integer arguments (ECMAScript 23.1.3.28):
a negative index counts from the end, and both are clamped to `[0, length]`. -/
def jsSlice {α : Type} (l : List α) (start stop : Int) : List α :=
  let len : Int := l.length
  let k : Int := if start < 0 then max (len + start) 0 else min start len
  let final : Int := if stop < 0 then max (len + stop) 0 else min stop len
  (l.drop k.toNat).take (final - k).toNat

/-- The offset `const start = (page - 1) * PER_PAGE`. -/
def pageStart (page : Int) : Int := (page - 1) * PER_PAGE

/-- The page `const current = filtered.slice(start, start + PER_PAGE)`. -/
def currentItems {α : Type} (filtered : List α) (page : Int) : List α :=
  jsSlice filtered (pageStart page) (pageStart page + PER_PAGE)

/-- The page count `Math.ceil(filtered.length / PER_PAGE)`; the quotient of two array lengths is
far inside the range where the floating-point division cannot cross an integer. -/
def totalPages {α : Type} (filtered : List α) : Nat :=
  if filtered.length % PER_PAGE = 0 then filtered.length / PER_PAGE
  else filtered.length / PER_PAGE + 1

/-- The number shown on the `i`-th page button of pages/Home.js. -/
def pageNum (totalPages page i : Int) : Int :=
  if totalPages ≤ 5 then i + 1
  else if page ≤ 3 then i + 1
  else if page ≥ totalPages - 2 then totalPages - 4 + i
  else page - 2 + i

/-- The page buttons: `Array.from({ length: Math.min(5, totalPages) }, (_, i) => ...)`. -/
def pageButtons (totalPages page : Int) : List Int :=
  (List.range (min 5 totalPages).toNat).map (fun i => pageNum totalPages page i)

/-! ## Rating (pages/Home.js) -/

/-- A user of the demo flow (pages/Register.js): `{ name, email, password }`. -/
structure DemoUser where
  name : String
  email : String
  password : String
deriving DecidableEq

/-- What a handler of pages/Home.js does to its surroundings. -/
inductive HomeEffect where
  | alert (message : String)
  | navigate (path : String)
  /-- A call of the prop `updateRating`. -/
  | updateRating (phone : String) (rating : Nat)
deriving DecidableEq

/-- The handler `Home.handleRate` of pages/Home.js, as the effects it performs in order. -/
def handleRate (currentUser : Option DemoUser) (phone : String) (rating : Nat) :
    List HomeEffect :=
  match currentUser with
  | none => [.alert "يجب تسجيل الدخول لتقييم الرقم", .navigate "/login"]
  | some _ => [.updateRating phone rating]

/-- The parent state after a handler ran: only calls of the prop `updateRating`
(whose implementation belongs to the parent and is a parameter here) act on it. -/
def applyEffects {σ : Type} (updateRating : String → Nat → σ → σ) :
    List HomeEffect → σ → σ
  | [], data => data
  | .updateRating phone rating :: rest, data =>
    applyEffects updateRating rest (updateRating phone rating data)
  | _ :: rest, data => applyEffects updateRating rest data

/-! ## Specification-side definitions -/

/-- The search contract in the words of the specification: the term is empty or
white space only, or the lower-cased term is a substring of the lower-cased number,
of the lower-cased names string, or of the lower-cased description of a comment. -/
def SearchKeeps (toLowerCase : String → String) (T : String) (G : PhoneGroup) : Prop :=
  (∀ c ∈ T.data, isWhiteSpace c = true)
  ∨ (toLowerCase T).data <:+: (toLowerCase G.number).data
  ∨ (toLowerCase T).data <:+: (toLowerCase G.names).data
  ∨ ∃ comment ∈ G.comments, (toLowerCase T).data <:+: (toLowerCase comment.description).data


/-- A record carrying one report, as the scenario of the specification lists them:
a phone number and a description, no reporter name. -/
def scenarioReport (id : Nat) (phone desc : String) : Customer :=
  { id := some id, number := some phone, nom := none,
    motifs := .array [{ id := id, description := desc, evidence_image := "",
                        created_at := none, user_id := .undefined }] }

/-- The three reports of the end-to-end scenario. -/
def scenarioCustomers : List Customer :=
  [scenarioReport 1 "0600" "A", scenarioReport 2 "0600" "B", scenarioReport 3 "0611" "C"]

/-- The same three reports when the API delivers one record per number, the record of
"0600" carrying both of its reports. -/
def scenarioCustomersByNumber : List Customer :=
  [ { id := some 1, number := some "0600", nom := none,
      motifs := .array
        [ { id := 1, description := "A", evidence_image := "", created_at := none,
            user_id := .undefined },
          { id := 2, description := "B", evidence_image := "", created_at := none,
            user_id := .undefined } ] },
    scenarioReport 3 "0611" "C" ]

/-- The number under which a record is grouped: its `number` when that is truthy. -/
def Customer.key (c : Customer) : Option String :=
  match c.number with
  | some phone => if phone == "" then none else some phone
  | none => none

/-- The group object created for a number that is not yet in `phoneMap`. -/
def freshEntry (phone : String) (c : Customer) : PhoneEntry :=
  { number := phone, names := [], comments := [], totalComments := 0, id := c.groupId }

/-- The `noComplaintsSet` after a record with number `phone` has been processed. -/
def noComplaintsStep (s : List String) (phone : String) (c : Customer) : List String :=
  if c.motifList.length > 0 then setDelete s phone else s

/-- The truthy numbers of the records, in input order (with repetitions). -/
def validNumbers (customersData : List Customer) : List String :=
  customersData.filterMap Customer.key

/-- Distinct values in order of first appearance, duplicates collapsed. -/
def firstOccurrences : List String → List String
  | [] => []
  | x :: xs => x :: (firstOccurrences xs).filter (fun y => y != x)

/-- The records grouped under the number `k`, in input order. -/
def recordsOf (k : String) (customersData : List Customer) : List Customer :=
  customersData.filter (fun c => c.key == some k)

/-- The comments a record contributes to its group. -/
def Customer.commentList (c : Customer) : List Comment :=
  c.motifList.map (fun motif => ⟨motif, c.displayName⟩)

/-- The group object of the number `k` once every record has been processed: created
at the first record with that number, then each such record added in turn. -/
def entryOf (k : String) (customersData : List Customer) : PhoneEntry :=
  (recordsOf k customersData).foldl (fun e c => addCustomer c e)
    { number := k, names := [], comments := [], totalComments := 0,
      id := match (recordsOf k customersData).head? with
            | some c => c.groupId
            | none => .random }

/-- The array `groupsArray` when the loop does not raise: the group objects of the
distinct truthy numbers, enumerated by `Object.values`, joined and sorted. -/
def groupsOf (customersData : List Customer) : List PhoneGroup :=
  jsSort compareGroups
    ((objectValues ((firstOccurrences (validNumbers customersData)).map
        (fun k => (k, entryOf k customersData)))).map PhoneEntry.toGroup)

/-- The reporter name a record contributes, in the words of the specification: the
fixed placeholder when `nom` is absent or empty, else `nom`. -/
def reporterName (c : Customer) : String :=
  match c.nom with
  | none => unknownName
  | some n => if n = "" then unknownName else n

/-- The number of reports a record carries (none when `motifs` is not an array). -/
def reportCount (c : Customer) : Nat :=
  match c.motifs with
  | .array ms => ms.length
  | _ => 0

/-- Two records on "0600" by "Ali", one without a name in between. -/
def namedCustomers : List Customer :=
  [ { id := some 1, number := some "0600", nom := some "Ali", motifs := .array [] },
    { id := some 2, number := some "0600", nom := none, motifs := .missing },
    { id := some 3, number := some "0600", nom := some "Ali", motifs := .array [] } ]

/-- The group that `fetchCustomers` builds from `namedCustomers`. -/
def namedGroup : PhoneGroup :=
  { number := "0600", names := "Ali, غير معروف", comments := [], totalComments := 0,
    id := .ofCustomer 1 }

/-- A single record whose number is the string "constructor", with one report. -/
def constructorCustomers : List Customer :=
  [ { id := some 1, number := some "constructor", nom := some "Ali",
      motifs := .array [{ id := 1, description := "A", evidence_image := "",
                          created_at := none, user_id := .number 1 }] } ]

/-- Position of the first record whose `number` is `k`. -/
def firstIndex (customersData : List Customer) (k : String) : Nat :=
  customersData.findIdx (fun c => c.number == some k)

/-- The order in which `Object.values(phoneMap)` lists the groups of two numbers:
array-index numbers in ascending numeric order, before all other numbers; the other
numbers in the order in which they first occur in the input. -/
def objectOrder (customersData : List Customer) (a b : String) : Prop :=
  match arrayIndex a, arrayIndex b with
  | some i, some j => i ≤ j
  | some _, none => True
  | none, some _ => False
  | none, none => firstIndex customersData a < firstIndex customersData b

/-- One report on "0600", then one report on "700". -/
def tieCustomers : List Customer :=
  [scenarioReport 1 "0600" "A", scenarioReport 2 "700" "B"]

/-- A single record on "0700" that carries no report. -/
def cleanCustomers : List Customer :=
  [ { id := some 1, number := some "0700", nom := some "Ali", motifs := .array [] } ]

/-- A record on "0700" without reports, followed by a record whose number is the
string "constructor". -/
def mixedCustomers : List Customer :=
  [ { id := some 1, number := some "0700", nom := some "Ali", motifs := .array [] },
    { id := some 2, number := some "constructor", nom := some "Ali", motifs := .array [] } ]

/-- A record with the given number and nothing else. -/
def bareCustomer (number : String) : Customer :=
  { id := none, number := some number, nom := none, motifs := .missing }

/-- The record with its `motifs` replaced by the array of reports that the loop counts
for it: the empty array when `motifs` is missing or not an array. -/
def Customer.withMotifArray (c : Customer) : Customer :=
  { c with motifs := .array c.motifList }

/-! ## Session user and `PhoneDetails` (App.js) -/

/-- The session user held by `AuthProvider`. -/
structure SessionUser where
  id : JsId
  name : String
  verified : Bool
  isAdmin : Bool
deriving DecidableEq

/-- JavaScript truthiness of an id: `undefined`, `null`, `0` and the empty string are
falsy. -/
def truthyId : JsId → Bool
  | .undefined => false
  | .null => false
  | .number n => n != 0
  | .string s => s != ""

/-- An element of the `comments` state of `PhoneDetails`. -/
structure DetailsComment where
  id : Nat
  description : String
  evidence_image : String
  customerName : String
  createdAt : String
  userName : String
  userId : JsId
deriving DecidableEq

/-- The comments pushed for one record by the `forEach` body of `fetchComments`;
`none` is the `TypeError` of `customer.motifs.forEach` on a truthy value that is not
an array. `now` is `new Date().toISOString()`. -/
def commentsOfCustomer (now : String) (user : Option SessionUser)
    (decodedPhoneNumber : String) (customer : Customer) : Option (List DetailsComment) :=
  if customer.number == some decodedPhoneNumber then
    match customer.motifs with
    | .missing => some []
    | .nonArray => none
    | .array ms =>
      some (ms.map (fun motif =>
        { id := motif.id
          description := motif.description
          evidence_image := motif.evidence_image
          customerName := customer.displayName
          createdAt := if truthy motif.created_at then motif.created_at.getD "" else now
          userName :=
            match user with
            | some u => if u.name != "" then u.name else "مجهول"
            | none => "مجهول"
          userId := motif.user_id }))
  else some []

/-- The loop `allCustomers.forEach(...)` of `fetchComments`: `allComments`, or `none`
when the body raises. -/
def collectComments (now : String) (user : Option SessionUser)
    (decodedPhoneNumber : String) : List Customer → Option (List DetailsComment)
  | [] => some []
  | customer :: rest =>
    match commentsOfCustomer now user decodedPhoneNumber customer with
    | none => none
    | some pushed =>
      match collectComments now user decodedPhoneNumber rest with
      | none => none
      | some more => some (pushed ++ more)

/-- The comparator `(a, b) => new Date(b.createdAt) - new Date(a.createdAt)`. The
function `parseDate` is the time value of `new Date(string)`, `none` for an invalid
date; a `NaN` difference counts as `+0` in `sort`. -/
def compareByDate (parseDate : String → Option Int) (a b : DetailsComment) : Int :=
  match parseDate b.createdAt, parseDate a.createdAt with
  | some tb, some ta => tb - ta
  | _, _ => 0

/-- The state of `PhoneDetails` that `fetchComments` writes. -/
structure DetailsState where
  comments : List DetailsComment
  loading : Bool
  apiError : String
deriving DecidableEq

/-- The state of `PhoneDetails` when it is mounted. -/
def DetailsState.initial : DetailsState :=
  { comments := [], loading := true, apiError := "" }

/-- The function `PhoneDetails.fetchComments`; `response` is the customer list of
`api.getCustomers()`, `none` when the request fails. -/
def fetchComments (parseDate : String → Option Int) (now : String)
    (user : Option SessionUser) (decodedPhoneNumber : String)
    (response : Option (List Customer)) (st : DetailsState) : DetailsState :=
  match response with
  | none => { st with apiError := "فشل في جلب البلاغات", loading := false }
  | some allCustomers =>
    match collectComments now user decodedPhoneNumber allCustomers with
    | none => { st with apiError := "فشل في جلب البلاغات", loading := false }
    | some allComments =>
      { comments := jsSort (compareByDate parseDate) allComments
        apiError := "", loading := false }

/-- The flag `const hasNoComplaints = comments.length === 0`. -/
def hasNoComplaints (st : DetailsState) : Bool := st.comments.length == 0

/-- The function `PhoneDetails.canModifyComment`, as the truthiness of
`user && (user.id === comment.userId || user.isAdmin)`; the strict equality is the
equality of `JsId`, under which a user without an id differs from a `user_id` that is
`null`. -/
def canModifyComment (user : Option SessionUser) (comment : DetailsComment) : Bool :=
  match user with
  | none => false
  | some u => u.id == comment.userId || u.isAdmin

/-- The buttons of a comment card. -/
inductive CommentControl where
  | save
  | cancel
  | edit
  | delete
deriving DecidableEq

/-- The controls rendered for a comment:
`canModifyComment(comment) && (editingId === comment.id ? save/cancel : edit/delete)`. -/
def commentControls (user : Option SessionUser) (editingId : Option Nat)
    (comment : DetailsComment) : List CommentControl :=
  if canModifyComment user comment then
    if editingId == some comment.id then [.save, .cancel] else [.edit, .delete]
  else []

/-- A date parser for examples: every string is an invalid date. -/
def noDate (_ : String) : Option Int := none

/-! ## Report submission: `PhoneDetails.handleAddComment`, `AddComment.handleSubmit` -/

/-- A file chosen in a file input, as far as the code looks at it. -/
structure UploadFile where
  type : String
  size : Nat
deriving DecidableEq

/-- The body of the create-report request. -/
structure ReportPayload where
  number : String
  nom : String
  description : String
  evidence_image : String
  user_id : JsId
deriving DecidableEq

/-- The state `formData` of `AddComment`. -/
structure ReportFormData where
  number : String
  nom : String
  description : String
  evidence_image : String
deriving DecidableEq

/-- What a form handler does, in order: calls of collaborators and of state setters. -/
inductive FormEffect where
  | alert (message : String)
  | navigate (path : String)
  | consoleError (message : String)
  /-- A call of `api.uploadImage(file)`. -/
  | uploadImage (file : UploadFile)
  /-- A call of `api.addCustomer(payload)`. -/
  | addCustomer (payload : ReportPayload)
  /-- The request `POST /customers` sent by `apiRequest`. -/
  | postCustomers (payload : ReportPayload)
  /-- A call of `fetchComments()`. -/
  | fetchComments
  /-- The timer `setTimeout(() => navigate('/phone/' + encodeURIComponent(number)), ms)`. -/
  | navigateToPhoneAfter (ms : Nat) (number : String)
  /-- The timer `setTimeout(() => navigate(path), ms)`. -/
  | navigateAfter (ms : Nat) (path : String)
  /-- The request `POST /reset-password` sent by `apiRequest`. -/
  | postResetPassword (email token password confirmation : String)
  | setSubmitting (value : Bool)
  | setUploadingEvidence (value : Bool)
  | setLoading (value : Bool)
  | setNewComment (value : String)
  | setSelectedEvidenceFile (value : Option UploadFile)
  | setEvidenceImagePreview (value : String)
  | setError (value : String)
  | setSuccess (value : String)
  | setMessage (value : String)
  | setFormData (value : ReportFormData)
deriving DecidableEq

/-- How a request sent by `apiRequest` ends: with a response, or by throwing an error
with the given message. -/
inductive RequestOutcome where
  | ok
  | failed (message : String)
deriving DecidableEq

/-- The function `api.addCustomer`: it throws before sending anything when the payload
has no truthy `user_id`, and otherwise sends the request, whose outcome is `network`. -/
def apiAddCustomer (payload : ReportPayload) (network : RequestOutcome) :
    List FormEffect × RequestOutcome :=
  if truthyId payload.user_id then
    match network with
    | .ok => ([.postCustomers payload], .ok)
    | .failed message =>
      ([.postCustomers payload, .consoleError "خطأ في طلب API:"], .failed message)
  else ([.consoleError "user_id مفقود"], .failed "معرف المستخدم مطلوب")

/-- The value of `error.message || fallback`. -/
def messageOr (message fallback : String) : String :=
  if message != "" then message else fallback

/-- The form state of `PhoneDetails`. -/
structure CommentForm where
  newComment : String
  selectedEvidenceFile : Option UploadFile
  evidenceImagePreview : String
  submitting : Bool
  uploadingEvidence : Bool
deriving DecidableEq

/-- The `try`/`catch`/`finally` block of `handleAddComment`. -/
def createFromDetails (u : SessionUser) (decodedPhoneNumber : String)
    (evidenceImageUrl : String) (network : RequestOutcome) (form : CommentForm) :
    List FormEffect :=
  let payload : ReportPayload :=
    { number := decodedPhoneNumber, nom := u.name, description := form.newComment,
      evidence_image := evidenceImageUrl, user_id := u.id }
  let call := apiAddCustomer payload network
  [.addCustomer payload] ++ call.1 ++
    (match call.2 with
     | .ok =>
       [.setNewComment "", .setSelectedEvidenceFile none, .setEvidenceImagePreview "",
        .fetchComments, .alert "تم إضافة البلاغ بنجاح!"]
     | .failed message =>
       [.consoleError "خطأ:", .alert (messageOr message "فشل إضافة البلاغ")]) ++
    [.setSubmitting false]

/-- The handler `PhoneDetails.handleAddComment`. The value `uploadedUrl` is what
`api.uploadImage` resolves to (it never rejects), `network` the outcome of the create
request if it is sent. -/
def handleAddComment (user : Option SessionUser) (decodedPhoneNumber : String)
    (uploadedUrl : Option String) (network : RequestOutcome) (form : CommentForm) :
    List FormEffect :=
  match user with
  | none => [.alert "يرجى تسجيل الدخول لإضافة بلاغات", .navigate "/login"]
  | some u =>
    if !u.verified then
      [.alert "يرجى توثيق بريدك الإلكتروني قبل إضافة بلاغات", .navigate "/verify-email"]
    else if trim form.newComment == "" then [.alert "يرجى إدخال نص البلاغ"]
    else if !truthyId u.id then
      [.consoleError "معرف المستخدم مفقود",
       .alert "خطأ في بيانات المستخدم. يرجى تسجيل الخروج والمحاولة مرة أخرى."]
    else
      [.setSubmitting true] ++
        (match form.selectedEvidenceFile with
         | some file =>
           [.setUploadingEvidence true, .uploadImage file] ++
             (if truthy uploadedUrl then
                [.setUploadingEvidence false] ++
                  createFromDetails u decodedPhoneNumber (uploadedUrl.getD "") network form
              else
                [.alert "فشل تحميل صورة الإثبات. يمكنك الإضافة بدون صورة.",
                 .setSubmitting false, .setUploadingEvidence false])
         | none => createFromDetails u decodedPhoneNumber "" network form)

/-- A state setter of `PhoneDetails` applied to its form state. -/
def CommentForm.apply (form : CommentForm) : FormEffect → CommentForm
  | .setSubmitting value => { form with submitting := value }
  | .setUploadingEvidence value => { form with uploadingEvidence := value }
  | .setNewComment value => { form with newComment := value }
  | .setSelectedEvidenceFile value => { form with selectedEvidenceFile := value }
  | .setEvidenceImagePreview value => { form with evidenceImagePreview := value }
  | _ => form

/-- The form state of `PhoneDetails` once the handler has finished. -/
def CommentForm.after (form : CommentForm) (effects : List FormEffect) : CommentForm :=
  effects.foldl CommentForm.apply form

/-- The state of `AddComment`. -/
structure AddCommentState where
  formData : ReportFormData
  selectedEvidenceFile : Option UploadFile
  evidenceImagePreview : String
  uploadingEvidence : Bool
  loading : Bool
  error : String
  success : String
deriving DecidableEq

/-- The `try`/`catch`/`finally` block of `AddComment.handleSubmit`. -/
def createFromForm (u : SessionUser) (evidenceImageUrl : String) (network : RequestOutcome)
    (st : AddCommentState) : List FormEffect :=
  let payload : ReportPayload :=
    { number := st.formData.number, nom := st.formData.nom,
      description := st.formData.description, evidence_image := evidenceImageUrl,
      user_id := u.id }
  let call := apiAddCustomer payload network
  [.addCustomer payload] ++ call.1 ++
    (match call.2 with
     | .ok =>
       [.setSuccess "تم إضافة البلاغ بنجاح!",
        .setFormData { number := "", nom := u.name, description := "", evidence_image := "" },
        .setSelectedEvidenceFile none, .setEvidenceImagePreview "",
        .navigateToPhoneAfter 1500 st.formData.number]
     | .failed message =>
       [.consoleError "خطأ:", .setError (messageOr message "فشل إضافة البلاغ")]) ++
    [.setLoading false]

/-- The handler `AddComment.handleSubmit`, with `uploadedUrl` and `network` as for
`handleAddComment`. -/
def AddComment.handleSubmit (user : Option SessionUser) (uploadedUrl : Option String)
    (network : RequestOutcome) (st : AddCommentState) : List FormEffect :=
  match user with
  | none => [.navigate "/login"]
  | some u =>
    if !u.verified then
      [.alert "يرجى توثيق بريدك الإلكتروني قبل إضافة بلاغات", .navigate "/verify-email"]
    else if !truthyId u.id then
      [.consoleError "معرف المستخدم مفقود",
       .alert "خطأ في بيانات المستخدم. يرجى تسجيل الخروج والمحاولة مرة أخرى."]
    else if trim st.formData.number == "" then [.setError "رقم الهاتف مطلوب"]
    else if trim st.formData.description == "" then [.setError "وصف البلاغ مطلوب"]
    else
      [.setError "", .setSuccess "", .setLoading true] ++
        (match st.selectedEvidenceFile with
         | some file =>
           [.setUploadingEvidence true, .uploadImage file] ++
             (if truthy uploadedUrl then
                [.setUploadingEvidence false] ++
                  createFromForm u (uploadedUrl.getD "") network st
              else
                [.setError "فشل تحميل صورة الإثبات. يمكنك الإضافة بدون صورة.",
                 .setLoading false, .setUploadingEvidence false])
         | none => createFromForm u st.formData.evidence_image network st)

/-- A state setter of `AddComment` applied to its state. -/
def AddCommentState.apply (st : AddCommentState) : FormEffect → AddCommentState
  | .setLoading value => { st with loading := value }
  | .setUploadingEvidence value => { st with uploadingEvidence := value }
  | .setError value => { st with error := value }
  | .setSuccess value => { st with success := value }
  | .setFormData value => { st with formData := value }
  | .setSelectedEvidenceFile value => { st with selectedEvidenceFile := value }
  | .setEvidenceImagePreview value => { st with evidenceImagePreview := value }
  | _ => st

/-- The state of `AddComment` once the handler has finished. -/
def AddCommentState.after (st : AddCommentState) (effects : List FormEffect) :
    AddCommentState :=
  effects.foldl AddCommentState.apply st

/-- Whether an effect is a call of `api.addCustomer` or the request it sends. -/
def FormEffect.isCreate : FormEffect → Bool
  | .addCustomer _ => true
  | .postCustomers _ => true
  | _ => false

/-- Whether an effect is a call of `api.uploadImage`. -/
def FormEffect.isUpload : FormEffect → Bool
  | .uploadImage _ => true
  | _ => false

/-- A verified user with an id. -/
def verifiedUser : SessionUser := { id := .number 7, name := "Ali", verified := true, isAdmin := false }

/-- A selected evidence image. -/
def evidenceFile : UploadFile := { type := "image/png", size := 1024 }

/-- A filled comment form of `PhoneDetails` with an evidence file selected. -/
def filledCommentForm : CommentForm :=
  { newComment := "A", selectedEvidenceFile := some evidenceFile,
    evidenceImagePreview := "", submitting := false, uploadingEvidence := false }

/-- A filled `AddComment` form with an evidence file selected. -/
def filledAddComment : AddCommentState :=
  { formData := { number := "0600", nom := "Ali", description := "A", evidence_image := "" },
    selectedEvidenceFile := some evidenceFile, evidenceImagePreview := "",
    uploadingEvidence := false, loading := false, error := "", success := "" }

/-! ## The `Rating` component (components/Rating.js) -/

/-- The props of `Rating`; `onRate` records whether the callback prop is passed. -/
structure RatingProps where
  phone : String
  currentRating : Nat
  onRate : Bool
  readOnly : Bool
deriving DecidableEq

/-- The stars rendered as buttons: `[1, 2, 3, 4, 5].map(...)`. -/
def Rating.stars : List Nat := [1, 2, 3, 4, 5]

/-- The function `handleRate` of `Rating`, as the calls of `onRate` it makes. -/
def Rating.handleRate (props : RatingProps) (rating : Nat) : List (String × Nat) :=
  if !props.readOnly && props.onRate then [(props.phone, rating)] else []

/-- The `onClick` handlers of the rendered star buttons, `() => handleRate(star)`,
as the calls of `onRate` each makes when clicked. -/
def Rating.onClick (props : RatingProps) : List (List (String × Nat)) :=
  Rating.stars.map (fun star => Rating.handleRate props star)

/-- The props that pages/Home.js passes to `Rating` for a card:
`phone={item.phone} currentRating={item.rating || 0} onRate={handleRate}
readOnly={!currentUser}`. -/
def homeRatingProps (currentUser : Option DemoUser) (phone : String) (rating : Nat) :
    RatingProps :=
  { phone := phone, currentRating := rating, onRate := true,
    readOnly := currentUser.isNone }

/-! ## Password forms: `ResetPassword` (App.js), pages/Register.js -/

/-- The value of `s.length`: the number of UTF-16 code units. -/
def jsLength (s : String) : Nat :=
  (s.data.map (fun c => if c.toNat > 0xFFFF then 2 else 1)).sum

/-- The state of `ResetPassword` that `handleSubmit` reads. -/
structure ResetPasswordForm where
  password : String
  confirmPassword : String
  email : String
  token : String
deriving DecidableEq

/-- The handler `ResetPassword.handleSubmit`; `network` is the outcome of the
reset-password request if it is sent. -/
def ResetPassword.handleSubmit (network : RequestOutcome) (form : ResetPasswordForm) :
    List FormEffect :=
  if jsLength form.password < 8 then
    [.setError "كلمة المرور يجب أن تكون 8 أحرف على الأقل"]
  else if form.password != form.confirmPassword then
    [.setError "كلمتا المرور غير متطابقتين"]
  else
    [.setLoading true, .setError "",
     .postResetPassword form.email form.token form.password form.confirmPassword] ++
      (match network with
       | .ok =>
         [.setMessage "تم إعادة تعيين كلمة المرور بنجاح! جاري التحويل...",
          .navigateAfter 3000 "/login"]
       | .failed message =>
         [.consoleError "خطأ في طلب API:",
          .setError (messageOr message "فشل إعادة تعيين كلمة المرور")]) ++
      [.setLoading false]

/-- Whether an effect is the reset-password request. -/
def FormEffect.isResetRequest : FormEffect → Bool
  | .postResetPassword _ _ _ _ => true
  | _ => false

/-- The fields of the form of pages/Register.js. -/
structure RegisterForm where
  name : String
  email : String
  password : String
  confirm : String
deriving DecidableEq

/-- What `handleRegister` leaves behind: the users list given to `setUsers` (or the
old list when it is not called), the error set, and the navigation. -/
structure RegisterResult where
  users : List DemoUser
  error : Option String
  navigate : Option String
deriving DecidableEq

/-- The handler `Register.handleRegister` of pages/Register.js. -/
def handleRegister (users : List DemoUser) (form : RegisterForm) : RegisterResult :=
  if form.name == "" || form.email == "" || form.password == "" || form.confirm == "" then
    { users := users, error := some "عفاك عمّر جميع الحقول", navigate := none }
  else if form.password != form.confirm then
    { users := users, error := some "تأكيد كلمة المرور مختلف", navigate := none }
  else
    { users := users ++ [{ name := form.name, email := form.email, password := form.password }]
      error := none, navigate := some "/login" }

/-- A reset form whose confirmation differs from the password. -/
def mismatchReset : ResetPasswordForm :=
  { password := "12345678", confirmPassword := "1234567x", email := "a@b.c", token := "t" }

/-- A registration form whose confirmation differs from the password. -/
def mismatchRegister : RegisterForm :=
  { name := "Ali", email := "a@b.c", password := "p", confirm := "q" }

/-! ## Demo login (pages/Login.js) -/

/-- What `handleLogin` leaves behind: the current user (unchanged unless
`setCurrentUser` is called), the error set, and the navigation. -/
structure LoginResult where
  currentUser : Option DemoUser
  error : Option String
  navigate : Option String
deriving DecidableEq

/-- The handler `Login.handleLogin` of pages/Login.js. -/
def handleLogin (users : List DemoUser) (email password : String)
    (currentUser : Option DemoUser) : LoginResult :=
  match users.find? (fun u => u.email == email && u.password == password) with
  | none =>
    { currentUser := currentUser, error := some "البريد أو كلمة المرور غير صحيحة",
      navigate := none }
  | some user => { currentUser := some user, error := none, navigate := some "/" }

/-! ## Image validators (App.js) -/

/-- What a file-input handler does, in order. -/
inductive FileEffect where
  | alert (message : String)
  /-- The setter `setSelectedFile` / `setSelectedEvidenceFile`. -/
  | setSelected (file : UploadFile)
  /-- The call `reader.readAsDataURL(file)`. -/
  | readAsDataURL (file : UploadFile)
  /-- The setter `setImagePreview` / `setEvidenceImagePreview`, called from `onloadend`. -/
  | setPreview (dataUrl : String)
deriving DecidableEq

/-- The truthiness of `file.type.match('image.*')`: the pattern is not anchored, so it
matches exactly when "image" occurs in the type. -/
def matchesImagePattern (type : String) : Bool := includes type "image"

/-- The body shared by `Register.handleFileSelect`,
`PhoneDetails.handleEvidenceFileSelect` and `AddComment.handleEvidenceFileSelect`;
`file` is `e.target.files[0]` and `dataUrl` the result of the file reader. -/
def handleFileSelect (file : Option UploadFile) (dataUrl : String) : List FileEffect :=
  match file with
  | none => []
  | some f =>
    if !matchesImagePattern f.type then [.alert "يرجى اختيار صورة (JPG, PNG, GIF)"]
    else if f.size > 5 * 1024 * 1024 then [.alert "يجب أن تكون الصورة أقل من 5 ميجابايت"]
    else [.setSelected f, .readAsDataURL f, .setPreview dataUrl]

/-- The handler `handleEvidenceFileSelect` of `PhoneDetails` and of `AddComment`. -/
def handleEvidenceFileSelect (file : Option UploadFile) (dataUrl : String) :
    List FileEffect :=
  handleFileSelect file dataUrl

/-- The selected file and its preview. -/
structure FilePicker where
  selectedFile : Option UploadFile
  preview : String
deriving DecidableEq

/-- A setter applied to the selected file and preview. -/
def FilePicker.apply (st : FilePicker) : FileEffect → FilePicker
  | .setSelected f => { st with selectedFile := some f }
  | .setPreview url => { st with preview := url }
  | _ => st

/-- The selected file and preview once the handler has finished. -/
def FilePicker.after (st : FilePicker) (effects : List FileEffect) : FilePicker :=
  effects.foldl FilePicker.apply st

/-- An image type, in the words of the rejection message: a MIME type `image/...`. -/
def isImageType (type : String) : Bool := startsWithChars type.data "image/".data

/-- A PNG file of exactly 5 MB. -/
def fiveMegabyteImage : UploadFile := { type := "image/png", size := 5 * 1024 * 1024 }

/-- A file of a type that is not an image type but contains the word "image". -/
def imageMapFile : UploadFile := { type := "application/x-imagemap", size := 10 }

/-! ## Demo pages: pages/Home.js, pages/AddProblem.js, pages/CommentsPage.js -/

/-- An element of the prop `data` of the demo pages; `none` is an absent field. -/
structure DemoItem where
  phone : String
  description : String
  name : String
  status : String
  priority : Option String
  date : Option String
  city : Option String
  rating : Option Nat
  ratingCount : Option Nat
  id : Nat
deriving DecidableEq

/-- A value of the object `phoneGroups` of pages/Home.js. -/
structure DemoGroup where
  phone : String
  count : Nat
  lastDate : String
  status : String
  rating : Nat
  ratingCount : Nat
  city : String
deriving DecidableEq

/-- The array `Object.values(object)` of any plain object given by its own properties
in creation order: array-index keys first, in ascending numeric order. -/
def objectValuesOf {α : Type} (m : List (String × α)) : List α :=
  (((m.filter (fun p => (arrayIndex p.1).isSome)).insertionSort
      (fun p q => (arrayIndex p.1).getD 0 ≤ (arrayIndex q.1).getD 0)) ++
    m.filter (fun p => (arrayIndex p.1).isNone)).map Prod.snd

/-- The group object created for a phone that is not yet in `phoneGroups`. -/
def DemoGroup.fresh (item : DemoItem) : DemoGroup :=
  { phone := item.phone, count := 0, lastDate := "", status := "open",
    rating := item.rating.getD 0, ratingCount := item.ratingCount.getD 0,
    city := if truthy item.city then item.city.getD "" else "غير محدد" }

/-- The body of `data.forEach` in pages/Home.js, on the own properties of
`phoneGroups`. A phone that names a member of `Object.prototype` reads that (truthy)
member: no own property is created, and the two writes land on the inherited object.
The embedding does not follow those writes; they are invisible to `phoneGroups`
except for the phone "__proto__", whose writes create `Object.prototype.count` and
`Object.prototype.lastDate`, so the embedding is exact for data without that phone. -/
def demoGroupStep (m : List (String × DemoGroup)) (item : DemoItem) :
    List (String × DemoGroup) :=
  let m1 :=
    if m.any (fun p => p.1 == item.phone) then m
    else if item.phone ∈ objectPrototypeKeys then m
    else m ++ [(item.phone, DemoGroup.fresh item)]
  m1.map (fun p =>
    if p.1 == item.phone then
      (p.1, { p.2 with
        count := p.2.count + 1
        lastDate := if truthy item.date then item.date.getD "" else "" })
    else p)

/-- The array `uniquePhones = Object.values(phoneGroups)` of pages/Home.js. -/
def uniquePhones (data : List DemoItem) : List DemoGroup :=
  objectValuesOf (data.foldl demoGroupStep [])

/-- The array `filtered` of pages/Home.js. -/
def homeFiltered (data : List DemoItem) (search : String) : List DemoGroup :=
  (uniquePhones data).filter (fun u =>
    includes u.phone search || includes u.city search ||
      (data.filter (fun d => d.phone == u.phone)).any (fun d => includes d.description search))

/-- The state of pages/Home.js. -/
structure HomePage where
  search : String
  page : Int
deriving DecidableEq

/-- What the user can do on pages/Home.js: type in the search box, press previous or
next, or click the `i`-th page button. -/
inductive HomeAction where
  | setSearch (value : String)
  | previous
  | next
  | pageButton (i : Nat)
deriving DecidableEq

/-- One user action on pages/Home.js. The pagination is rendered only when
`totalPages > 1`; a disabled or absent control leaves the state as it is. -/
def homeStep (data : List DemoItem) (st : HomePage) : HomeAction → HomePage
  | .setSearch value => { search := value, page := 1 }
  | .previous =>
    if 1 < totalPages (homeFiltered data st.search) ∧ st.page ≠ 1 then
      { st with page := max 1 (st.page - 1) }
    else st
  | .next =>
    if 1 < totalPages (homeFiltered data st.search) ∧
        st.page ≠ (totalPages (homeFiltered data st.search) : Int) then
      { st with page := min (totalPages (homeFiltered data st.search) : Int) (st.page + 1) }
    else st
  | .pageButton i =>
    if 1 < totalPages (homeFiltered data st.search) ∧
        i < (min 5 (totalPages (homeFiltered data st.search) : Int)).toNat then
      { st with page := pageNum (totalPages (homeFiltered data st.search) : Int) st.page i }
    else st

/-- The state of pages/Home.js when it is mounted. -/
def HomePage.initial : HomePage := { search := "", page := 1 }

/-- What a demo handler that may call `setData` does. -/
inductive DataUpdate where
  /-- A `TypeError`: `currentUser.name` with no current user. -/
  | raised
  /-- The handler returned before `setData`. -/
  | rejected
  | setData (data : List DemoItem)
deriving DecidableEq

/-- The handler `AddProblem.handleSave`; `today` is `new Date().toLocaleDateString()`
and `now` is `Date.now()`. -/
def handleSave (data : List DemoItem) (currentUser : Option DemoUser)
    (phone description priority today : String) (now : Nat) : DataUpdate :=
  if phone == "" || description == "" then .rejected
  else
    match currentUser with
    | none => .raised
    | some user =>
      .setData
        ({ phone := phone, description := description, name := user.name, status := "open",
           priority := some priority, date := some today, city := none, rating := none,
           ratingCount := none, id := now } :: data)

/-- The handler `CommentsPage.addComment`; `nowString` is `new Date().toLocaleString()`
and `now` is `Date.now()`. -/
def addComment (data : List DemoItem) (currentUser : Option DemoUser)
    (phone text commentStatus nowString : String) (now : Nat) : DataUpdate :=
  if trim text == "" then .rejected
  else
    match currentUser with
    | none => .raised
    | some user =>
      .setData
        (data ++ [{ phone := phone, description := text, name := user.name,
                    status := commentStatus, priority := none, date := some nowString,
                    city := none, rating := none, ratingCount := none, id := now }])

/-- A demo user. -/
def demoAli : DemoUser := { name := "Ali", email := "a@b.c", password := "pw" }

/-- One earlier report on "0600", dated 1/1/2024. -/
def olderData : List DemoItem :=
  [ { phone := "0600", description := "A", name := "Ali", status := "open", priority := none,
      date := some "1/1/2024", city := none, rating := none, ratingCount := none, id := 1 } ]

/-! ## pages/TroubleList.js -/

/-- An element of the `data` state of pages/TroubleList.js. -/
structure TroubleItem where
  name : String
  phone : String
  description : String
deriving DecidableEq

/-- The state of pages/TroubleList.js. -/
structure TroubleState where
  data : List TroubleItem
  search : String
  page : Int
  form : TroubleItem
deriving DecidableEq

/-- The constant `initialData` and the initial state of pages/TroubleList.js. -/
def TroubleState.initial : TroubleState :=
  { data := [{ name := "Ahmed", phone := "0600000000",
               description := "رفض الاستلام أكثر من مرة" }],
    search := "", page := 1,
    form := { name := "", phone := "", description := "" } }

/-- The array `filtered` of pages/TroubleList.js. -/
def troubleFiltered (st : TroubleState) : List TroubleItem :=
  st.data.filter (fun u => includes u.phone st.search || includes u.description st.search)

/-- The array `current` of pages/TroubleList.js. -/
def troubleCurrent (st : TroubleState) : List TroubleItem :=
  currentItems (troubleFiltered st) st.page

/-- The count `pages = Math.ceil(filtered.length / PER_PAGE)`. -/
def troublePages (st : TroubleState) : Nat := totalPages (troubleFiltered st)

/-- What the user can do on pages/TroubleList.js. -/
inductive TroubleAction where
  | setSearch (value : String)
  | setName (value : String)
  | setPhone (value : String)
  | setDescription (value : String)
  | handleAdd
  | pageButton (n : Nat)
deriving DecidableEq

/-- One user action on pages/TroubleList.js. The navbar receives the bare state setter
`setSearch`; the page buttons `1..pages` exist only when `pages > 1`. -/
def troubleStep (st : TroubleState) : TroubleAction → TroubleState
  | .setSearch value => { st with search := value }
  | .setName value => { st with form := { st.form with name := value } }
  | .setPhone value => { st with form := { st.form with phone := value } }
  | .setDescription value => { st with form := { st.form with description := value } }
  | .handleAdd =>
    if st.form.name == "" || st.form.phone == "" || st.form.description == "" then st
    else
      { st with
        data := st.form :: st.data
        form := { name := "", phone := "", description := "" }
        page := 1 }
  | .pageButton n =>
    if 1 < troublePages st ∧ 1 ≤ n ∧ n ≤ troublePages st then { st with page := (n : Int) }
    else st

/-- Twenty reports on "0700" are added, page 2 is opened, then the first number is
searched. -/
def troubleTrace : List TroubleAction :=
  (List.replicate 20
      [TroubleAction.setName "B", TroubleAction.setPhone "0700",
       TroubleAction.setDescription "x", TroubleAction.handleAdd]).flatten ++
    [TroubleAction.pageButton 2, TroubleAction.setSearch "0600000000"]

/-- The report that `handleSave` builds for "0600" on 2/2/2024. -/
def newerItem : DemoItem :=
  { phone := "0600", description := "B", name := "Ali", status := "open",
    priority := some "medium", date := some "2/2/2024", city := none, rating := none,
    ratingCount := none, id := 2 }

/-- The group of "0600" in the end-to-end scenario. -/
def scenarioGroup : PhoneGroup := (entryOf "0600" scenarioCustomers).toGroup

/-- Three groups to search in. -/
def searchGroups : List PhoneGroup :=
  [ { number := "0600", names := "Ali", comments := [], totalComments := 0, id := .random },
    { number := "0611", names := "Sara", comments := [], totalComments := 0, id := .random },
    { number := "0700", names := "Ali", comments := [], totalComments := 0, id := .random } ]

/-- The time value of `new Date(s)` on the date strings of the examples below; any
other string counts as an invalid date. -/
def exampleParseDate (s : String) : Option Int :=
  if s = "2024-01-01T00:00:00.000Z" then some 1704067200000
  else if s = "2024-01-02T00:00:00.000Z" then some 1704153600000
  else if s = "2024-01-03T00:00:00.000Z" then some 1704240000000
  else none

/-- A record on "0600" with one report created at `date`. -/
def datedReport (id : Nat) (date : String) : Customer :=
  { id := some id, number := some "0600", nom := none,
    motifs := .array [{ id := id, description := "A", evidence_image := "",
                        created_at := some date, user_id := .undefined }] }

/-- Three reports on "0600": the middle one carries a `created_at` that is no date. -/
def invalidDateCustomers : List Customer :=
  [datedReport 1 "2024-01-01T00:00:00.000Z", datedReport 2 "soon",
   datedReport 3 "2024-01-02T00:00:00.000Z"]

/-- Two records on "0600": one report, and a `motifs` that is truthy but no array. -/
def nonArrayCustomers : List Customer :=
  [datedReport 1 "2024-01-01T00:00:00.000Z",
   { id := some 2, number := some "0600", nom := none, motifs := .nonArray }]

/-- Three reports on "0600" with valid dates, oldest first. -/
def datedCustomers : List Customer :=
  [datedReport 1 "2024-01-01T00:00:00.000Z", datedReport 2 "2024-01-03T00:00:00.000Z",
   datedReport 3 "2024-01-02T00:00:00.000Z"]

/-! ## `AuthProvider` and `ProtectedRoute` (App.js) -/

/-- The state of `AuthProvider` that `ProtectedRoute` reads, together with the item
`user` of `localStorage` and the number of `checkVerificationStatus` calls whose
request has not settled yet. -/
structure AuthState where
  user : Option SessionUser
  loading : Bool
  verificationChecked : Bool
  storedUser : Option SessionUser
  pendingChecks : Nat
deriving DecidableEq

/-- The state of `AuthProvider` before its mount effect runs. -/
def AuthState.initial (storedUser : Option SessionUser) : AuthState :=
  { user := none, loading := true, verificationChecked := false,
    storedUser := storedUser, pendingChecks := 0 }

/-- The mount effect of `AuthProvider`. -/
def mountEffect (st : AuthState) : AuthState :=
  match st.storedUser with
  | some parsedUser => { st with user := some parsedUser, pendingChecks := st.pendingChecks + 1 }
  | none => { st with verificationChecked := true, loading := false }

/-- What happens to `AuthProvider` after the mount effect. -/
inductive AuthEvent where
  /-- The request of `login` settles: `some user` is a response with a `user`. -/
  | loginResponse (user : Option SessionUser)
  /-- The request of a pending `checkVerificationStatus` settles: `some verified` is a
  response with `success`, `none` a failure. -/
  | checkResponse (verified : Option Bool)
  | logout
deriving DecidableEq

/-- One event of `AuthProvider`: the state updates of `login` up to its call of
`checkVerificationStatus`, the rest of `checkVerificationStatus` once its request has
settled, and `logout`. -/
def authStep (st : AuthState) : AuthEvent → AuthState
  | .loginResponse (some userData) =>
    { st with storedUser := some userData, user := some userData,
              pendingChecks := st.pendingChecks + 1 }
  | .loginResponse none => st
  | .checkResponse response =>
    if st.pendingChecks = 0 then st
    else
      let st1 : AuthState :=
        match response, st.storedUser with
        | some verified, some userData =>
          { st with storedUser := some { userData with verified := verified },
                    user := some { userData with verified := verified } }
        | _, _ => st
      { st1 with verificationChecked := true, loading := false,
                 pendingChecks := st.pendingChecks - 1 }
  | .logout => { st with storedUser := none, user := none, verificationChecked := false }

/-- What `ProtectedRoute` returns. -/
inductive RouteView where
  | spinner
  | toLogin
  | toVerifyEmail
  | children
  /-- A `TypeError`: `user.verified` with no user. -/
  | raised
deriving DecidableEq

/-- The component `ProtectedRoute`. -/
def protectedRoute (requireVerification requireLogin : Bool) (st : AuthState) : RouteView :=
  if st.loading || !st.verificationChecked then .spinner
  else if requireLogin && st.user.isNone then .toLogin
  else if requireVerification then
    match st.user with
    | none => .raised
    | some user => if !user.verified then .toVerifyEmail else .children
  else .children

/-- A verified user. -/
def sessionAli : SessionUser := { id := .number 7, name := "Ali", verified := true, isAdmin := false }

/-- A guest opens the application, logs in, the verification check settles, and the
user logs out. -/
def afterLogout : AuthState :=
  [AuthEvent.loginResponse (some sessionAli), AuthEvent.checkResponse (some true),
   AuthEvent.logout].foldl authStep (mountEffect (AuthState.initial none))

/-! ## The route to the details page: `encodeURIComponent`, `useParams`, `decodeURIComponent` -/

/-- The characters that `encodeURIComponent` leaves as they are: ASCII letters, digits
and `- _ . ! ~ * ' ( )` (the apostrophe is code point 39). -/
def isUriUnreserved (c : Char) : Bool :=
  c.isAlphanum || c ∈ ['-', '_', '.', '!', '~', '*', '(', ')'] || c.toNat == 39

/-- The upper-case hexadecimal digit of a value below 16. -/
def hexDigit (n : Nat) : Char :=
  if n < 10 then Char.ofNat (48 + n) else Char.ofNat (55 + n)

/-- The escape `%XX` of one octet. -/
def percentEscape (b : Nat) : List Char :=
  ['%', hexDigit (b / 16), hexDigit (b % 16)]

/-- The UTF-8 octets of a code point. -/
def utf8Octets (c : Char) : List Nat :=
  if c.toNat < 0x80 then [c.toNat]
  else if c.toNat < 0x800 then [0xC0 + c.toNat / 64, 0x80 + c.toNat % 64]
  else if c.toNat < 0x10000 then
    [0xE0 + c.toNat / 4096, 0x80 + c.toNat / 64 % 64, 0x80 + c.toNat % 64]
  else
    [0xF0 + c.toNat / 262144, 0x80 + c.toNat / 4096 % 64, 0x80 + c.toNat / 64 % 64,
     0x80 + c.toNat % 64]

/-- The function `encodeURIComponent` (ECMAScript operation Encode): every character outside
the unreserved set becomes the escapes of its UTF-8 octets. It throws only on a lone
surrogate, which a string of code points does not contain. -/
def encodeURIComponent (s : String) : String :=
  ⟨s.data.flatMap (fun c =>
    if isUriUnreserved c then [c] else (utf8Octets c).flatMap percentEscape)⟩

/-- The value of a hexadecimal digit, in either case. -/
def hexValue (c : Char) : Option Nat :=
  if 48 ≤ c.toNat ∧ c.toNat ≤ 57 then some (c.toNat - 48)
  else if 65 ≤ c.toNat ∧ c.toNat ≤ 70 then some (c.toNat - 55)
  else if 97 ≤ c.toNat ∧ c.toNat ≤ 102 then some (c.toNat - 87)
  else none

/-- A piece of the input of `decodeURIComponent` once its escapes are read. -/
inductive UriItem where
  | literal (c : Char)
  | octet (b : Nat)
deriving DecidableEq

/-- The escapes of the input, read from left to right; `none` is the `URIError` for a
`%` that is not followed by two hexadecimal digits. -/
def readEscapes : List Char → Option (List UriItem)
  | [] => some []
  | c :: rest =>
    if c = '%' then
      match rest with
      | a :: b :: rest2 =>
        match hexValue a, hexValue b, readEscapes rest2 with
        | some x, some y, some items => some (.octet (16 * x + y) :: items)
        | _, _, _ => none
      | _ => none
    else
      match readEscapes rest with
      | some items => some (.literal c :: items)
      | none => none

/-- Whether an octet is a UTF-8 continuation octet `10xxxxxx`. -/
def isContinuation (b : Nat) : Bool := 0x80 ≤ b && b < 0xC0

/-- The character of the code point `n` decoded from a UTF-8 sequence whose length
encodes code points from `least` on; `none` for an overlong form, a surrogate or a
value above U+10FFFF. -/
def codePoint (least n : Nat) : Option Char :=
  if least ≤ n ∧ (n < 0xD800 ∨ (0xDFFF < n ∧ n < 0x110000)) then some (Char.ofNat n) else none

/-- The octets decoded as UTF-8, literal characters kept; `none` is the `URIError`
for octets that are no valid UTF-8 encoding of a code point. -/
def decodeOctets : List UriItem → Option (List Char)
  | [] => some []
  | .literal c :: rest =>
    match decodeOctets rest with
    | some cs => some (c :: cs)
    | none => none
  | .octet b0 :: rest =>
    if b0 < 0x80 then
      match decodeOctets rest with
      | some cs => some (Char.ofNat b0 :: cs)
      | none => none
    else if b0 < 0xC0 then none
    else if b0 < 0xE0 then
      match rest with
      | .octet b1 :: rest1 =>
        if isContinuation b1 then
          match codePoint 0x80 ((b0 - 0xC0) * 64 + (b1 - 0x80)), decodeOctets rest1 with
          | some c, some cs => some (c :: cs)
          | _, _ => none
        else none
      | _ => none
    else if b0 < 0xF0 then
      match rest with
      | .octet b1 :: .octet b2 :: rest2 =>
        if isContinuation b1 && isContinuation b2 then
          match codePoint 0x800 ((b0 - 0xE0) * 4096 + (b1 - 0x80) * 64 + (b2 - 0x80)),
            decodeOctets rest2 with
          | some c, some cs => some (c :: cs)
          | _, _ => none
        else none
      | _ => none
    else if b0 < 0xF8 then
      match rest with
      | .octet b1 :: .octet b2 :: .octet b3 :: rest3 =>
        if isContinuation b1 && isContinuation b2 && isContinuation b3 then
          match codePoint 0x10000
              ((b0 - 0xF0) * 262144 + (b1 - 0x80) * 4096 + (b2 - 0x80) * 64 + (b3 - 0x80)),
            decodeOctets rest3 with
          | some c, some cs => some (c :: cs)
          | _, _ => none
        else none
      | _ => none
    else none

/-- The function `decodeURIComponent` (ECMAScript operation Decode with an empty
reserved set); `none` is its `URIError`. -/
def decodeURIComponent (s : String) : Option String :=
  match readEscapes s.data with
  | none => none
  | some items =>
    match decodeOctets items with
    | some cs => some ⟨cs⟩
    | none => none

/-- The value that `useParams` of react-router gives for a param matched by a path
segment: the segment decoded once, or the segment itself when it cannot be decoded. -/
def routeParam (segment : String) : String :=
  (decodeURIComponent segment).getD segment

/-- The param `phoneNumber` of `PhoneDetails` after the card of `number` has navigated
to the path with the segment `encodeURIComponent(group.number)`. -/
def cardPhoneNumber (number : String) : String :=
  routeParam (encodeURIComponent number)

/-- The state of `PhoneDetails` opened from the card of `number`, once
`fetchComments` has run: `decodedPhoneNumber = decodeURIComponent(phoneNumber)` is
computed while rendering, and `none` is its `URIError`. -/
def detailsFromCard (parseDate : String → Option Int) (now : String)
    (user : Option SessionUser) (number : String) (response : Option (List Customer))
    (st : DetailsState) : Option DetailsState :=
  match decodeURIComponent (cardPhoneNumber number) with
  | none => none
  | some decodedPhoneNumber =>
    some (fetchComments parseDate now user decodedPhoneNumber response st)

/-- One record with one report on the number "%2541". -/
def percentCustomers : List Customer := [scenarioReport 1 "%2541" "A"]

/-- One record with one report on the number "100%". -/
def barePercentCustomers : List Customer := [scenarioReport 1 "100%" "A"]

/-- A user whose record has no `id`. -/
def userWithoutId : SessionUser :=
  { id := .undefined, name := "Ali", verified := true, isAdmin := false }

/-- A comment whose report carries `user_id: null`. -/
def commentOfNull : DetailsComment :=
  { id := 1, description := "A", evidence_image := "", customerName := "Ali",
    createdAt := "", userName := "Ali", userId := .null }

/-! # Theorems -/

/-! ## Pager -/

/-- For a page number `i + 1` the slice is the `i`-th block of `PER_PAGE` items. -/
theorem currentItems_succ {α : Type} (l : List α) (i : Nat) :
    currentItems l ((i : Int) + 1) = (l.drop (PER_PAGE * i)).take PER_PAGE := by
  unfold currentItems jsSlice pageStart PER_PAGE
  simp only [add_sub_cancel_right]
  have h1 : ¬ ((i : Int) * ((20 : Nat) : Int) < 0) := by push_cast; omega
  have h2 : ¬ ((i : Int) * ((20 : Nat) : Int) + ((20 : Nat) : Int) < 0) := by push_cast; omega
  simp only [h1, h2, if_false]
  by_cases h : 20 * i ≤ l.length
  · have e1 : (min ((i : Int) * ((20 : Nat) : Int)) (l.length : Int)).toNat = 20 * i := by
      push_cast; omega
    rw [e1]
    by_cases h' : 20 * i + 20 ≤ l.length
    · have e2 : (min ((i : Int) * ((20 : Nat) : Int) + ((20 : Nat) : Int)) (l.length : Int)
          - min ((i : Int) * ((20 : Nat) : Int)) (l.length : Int)).toNat = 20 := by
        push_cast; omega
      rw [e2]
    · have e2 : (min ((i : Int) * ((20 : Nat) : Int) + ((20 : Nat) : Int)) (l.length : Int)
          - min ((i : Int) * ((20 : Nat) : Int)) (l.length : Int)).toNat = l.length - 20 * i := by
        push_cast; omega
      rw [e2]
      rw [List.take_of_length_le (by simp), List.take_of_length_le (by simp; omega)]
  · have e1 : (min ((i : Int) * ((20 : Nat) : Int)) (l.length : Int)).toNat = l.length := by
      push_cast; omega
    rw [e1, List.drop_of_length_le (le_refl _), List.drop_of_length_le (by omega)]
    simp

/-- The first `n` pages, concatenated, are the first `PER_PAGE * n` items. -/
theorem flatMap_pages_eq_take {α : Type} (l : List α) (n : Nat) :
    (List.range n).flatMap (fun i => currentItems l ((i : Int) + 1)) =
      l.take (PER_PAGE * n) := by
  induction n with
  | zero => simp
  | succ n ih =>
    rw [List.range_succ, List.flatMap_append, ih]
    simp only [List.flatMap_cons, List.flatMap_nil, List.append_nil]
    rw [currentItems_succ, Nat.mul_succ, List.take_add]

/-- The pages cover the whole list. -/
theorem length_le_totalPages {α : Type} (l : List α) :
    l.length ≤ PER_PAGE * totalPages l := by
  unfold totalPages PER_PAGE
  split <;> omega

/-- The page count is the ceiling of the exact quotient `length / 20`. -/
theorem totalPages_eq_ceil {α : Type} (l : List α) :
    totalPages l = ⌈(l.length : ℚ) / 20⌉₊ := by
  have hN : l.length ≤ 20 * totalPages l := length_le_totalPages l
  have hN' : 20 * totalPages l < l.length + 20 := by
    unfold totalPages PER_PAGE; split <;> omega
  apply le_antisymm
  · by_cases h0 : totalPages l = 0
    · omega
    · have : totalPages l - 1 < ⌈(l.length : ℚ) / 20⌉₊ := by
        rw [Nat.lt_ceil, lt_div_iff₀ (by norm_num)]
        have : (totalPages l - 1) * 20 < l.length := by omega
        exact_mod_cast this
      omega
  · rw [Nat.ceil_le, div_le_iff₀ (by norm_num)]
    have : l.length ≤ totalPages l * 20 := by omega
    exact_mod_cast this

/-- The number of items on any page, for every integer page number. -/
theorem length_currentItems {α : Type} (l : List α) (page : Int) :
    ((currentItems l page).length : Int) =
      if page < 0 then min 20 (max ((l.length : Int) + 20 * page) 0)
      else if page = 0 then 0
      else max 0 (min 20 ((l.length : Int) - 20 * (page - 1))) := by
  unfold currentItems jsSlice pageStart PER_PAGE
  simp only [List.length_take, List.length_drop]
  push_cast
  split_ifs <;> omega

/-- C5. Concatenating the slices of pages `1..totalPages` gives back the filtered
sequence; every page before the last has 20 items; the last page has `N mod 20`
items, or 20 when `N` is a positive multiple of 20; `totalPages` is 0 exactly when
`N` is 0; and `totalPages` is the ceiling of `N / 20`. -/
theorem pager_pages_partition {α : Type} (filtered : List α) :
    (List.range (totalPages filtered)).flatMap
        (fun i => currentItems filtered ((i : Int) + 1)) = filtered
    ∧ (∀ page : Nat, 1 ≤ page → page < totalPages filtered →
        (currentItems filtered (page : Int)).length = 20)
    ∧ (1 ≤ totalPages filtered →
        (currentItems filtered (totalPages filtered : Int)).length =
          if filtered.length % 20 = 0 then 20 else filtered.length % 20)
    ∧ (totalPages filtered = 0 ↔ filtered.length = 0)
    ∧ totalPages filtered = ⌈(filtered.length : ℚ) / 20⌉₊ := by
  refine ⟨?_, ?_, ?_, ?_, totalPages_eq_ceil filtered⟩
  · rw [flatMap_pages_eq_take, List.take_of_length_le (length_le_totalPages filtered)]
  · intro page h1 h2
    obtain ⟨i, rfl⟩ : ∃ i, page = i + 1 := ⟨page - 1, by omega⟩
    have := currentItems_succ filtered i
    push_cast
    rw [this]
    unfold totalPages PER_PAGE at h2
    simp only [List.length_take, List.length_drop, PER_PAGE]
    split at h2 <;> omega
  · intro h1
    obtain ⟨i, hi⟩ : ∃ i, totalPages filtered = i + 1 := ⟨totalPages filtered - 1, by omega⟩
    rw [hi]
    have := currentItems_succ filtered i
    push_cast
    rw [this]
    unfold totalPages PER_PAGE at hi
    simp only [List.length_take, List.length_drop, PER_PAGE]
    split at hi <;> split <;> omega
  · unfold totalPages PER_PAGE
    split <;> omega

/-- C5 at a list of 45 items: page 2 of 3 is full and page 3 holds the last 5. -/
theorem pager_pages_partition_witness :
    (currentItems (List.range 45) ((2 : Nat) : Int)).length = 20
    ∧ (currentItems (List.range 45) (totalPages (List.range 45) : Int)).length =
        if (List.range 45).length % 20 = 0 then 20 else (List.range 45).length % 20 :=
  ⟨(pager_pages_partition (List.range 45)).2.1 2 (by decide) (by decide),
   (pager_pages_partition (List.range 45)).2.2.1 (by decide)⟩

/-- C9, as stated, fails: on 25 items the slice of page `-1` is the first five
items, not the empty list. -/
theorem currentItems_negative_page_nonempty :
    ((-1 : Int) < 1 ∨ (totalPages (List.range 25) : Int) < -1)
    ∧ currentItems (List.range 25) (-1) = [0, 1, 2, 3, 4] := by
  decide

/-- C9, amended. The page slice is a total function (it never raises); it is empty
for page 0 and for every page above `totalPages`; for a negative page it is empty
exactly when the list has at most `20 * |page|` items. -/
theorem currentItems_out_of_range {α : Type} (filtered : List α) (page : Int) :
    (page = 0 ∨ (totalPages filtered : Int) < page → currentItems filtered page = [])
    ∧ (page < 0 →
        (currentItems filtered page = [] ↔ (filtered.length : Int) ≤ 20 * (-page))) := by
  have hlen := length_currentItems filtered page
  have hT1 : filtered.length ≤ 20 * totalPages filtered := length_le_totalPages filtered
  constructor
  · intro h
    apply List.eq_nil_of_length_eq_zero
    split_ifs at hlen <;> omega
  · intro h
    rw [← List.length_eq_zero]
    rw [if_pos h] at hlen
    omega

/-- C9 amended, on 25 items: pages 0 and 3 are empty, and so is page `-2`. -/
theorem currentItems_out_of_range_witness :
    currentItems (List.range 25) 0 = [] ∧ currentItems (List.range 25) 3 = []
    ∧ (currentItems (List.range 25) (-2) = [] ↔
        ((List.range 25).length : Int) ≤ 20 * (-(-2))) :=
  ⟨(currentItems_out_of_range (List.range 25) 0).1 (Or.inl rfl),
   (currentItems_out_of_range (List.range 25) 3).1 (Or.inr (by decide)),
   (currentItems_out_of_range (List.range 25) (-2)).2 (by decide)⟩

/-! ## Page-button window -/

/-- C6. For `totalPages >= 1` the page buttons are: all pages when there are at
most five; else `[1..5]` when `page <= 3`; else the last five pages when
`page >= totalPages - 2`; otherwise `[page-2 .. page+2]`. For 12 pages they are
`[1..5]` at page 1, `[8..12]` at page 10 and `[4..8]` at page 6. -/
theorem pageButtons_window (totalPages page : Int) (h : 1 ≤ totalPages) :
    pageButtons totalPages page =
        (if totalPages ≤ 5 then (List.range' 1 totalPages.toNat).map Int.ofNat
         else if page ≤ 3 then [1, 2, 3, 4, 5]
         else if page ≥ totalPages - 2 then
           [totalPages - 4, totalPages - 3, totalPages - 2, totalPages - 1, totalPages]
         else [page - 2, page - 1, page, page + 1, page + 2])
    ∧ pageButtons 12 1 = [1, 2, 3, 4, 5]
    ∧ pageButtons 12 10 = [8, 9, 10, 11, 12]
    ∧ pageButtons 12 6 = [4, 5, 6, 7, 8] := by
  refine ⟨?_, by decide, by decide, by decide⟩
  by_cases h5 : totalPages ≤ 5
  · rw [if_pos h5]
    have hcases : totalPages = 1 ∨ totalPages = 2 ∨ totalPages = 3 ∨ totalPages = 4 ∨
        totalPages = 5 := by omega
    rcases hcases with rfl | rfl | rfl | rfl | rfl <;> rfl
  · rw [if_neg h5]
    have hmin : (min 5 totalPages).toNat = 5 := by
      rw [min_eq_left (by omega)]; rfl
    unfold pageButtons
    rw [hmin]
    simp only [List.range, List.range.loop, List.map, pageNum, if_neg h5]
    have c0 : ((0 : Nat) : Int) = 0 := rfl
    have c1 : ((0 + 1 : Nat) : Int) = 1 := rfl
    have c2 : ((0 + 1 + 1 : Nat) : Int) = 2 := rfl
    have c3 : ((0 + 1 + 1 + 1 : Nat) : Int) = 3 := rfl
    have c4 : ((0 + 1 + 1 + 1 + 1 : Nat) : Int) = 4 := rfl
    by_cases h3 : page ≤ 3
    · simp only [if_pos h3, c0, c1, c2, c3, c4]
      rfl
    · simp only [if_neg h3]
      by_cases hl : page ≥ totalPages - 2
      · simp only [if_pos hl, c0, c1, c2, c3, c4, List.cons.injEq, and_true]
        refine ⟨by omega, by omega, by omega, by omega, by omega⟩
      · simp only [if_neg hl, c0, c1, c2, c3, c4, List.cons.injEq, and_true]
        refine ⟨by omega, by omega, by omega, by omega, by omega⟩

/-- C6 at 12 pages, page 6: the middle window. -/
theorem pageButtons_window_witness :
    (1 : Int) ≤ 12 ∧ pageButtons 12 6 = [6 - 2, 6 - 1, 6, 6 + 1, 6 + 2] :=
  ⟨by decide, by
    have h := (pageButtons_window 12 6 (by decide)).1
    simpa using h⟩

/-! ## Rating -/

/-- C8. Without a current user `handleRate` alerts, navigates to `/login` and makes
no call of `updateRating`, so the parent data (and every rating derived from it) is
unchanged; with a current user it performs exactly the call
`updateRating(phone, rating)`. -/
theorem handleRate_requires_login {σ : Type} (updateRating : String → Nat → σ → σ)
    (currentUser : Option DemoUser) (phone : String) (rating : Nat) (data : σ) :
    (currentUser = none →
        handleRate currentUser phone rating =
          [.alert "يجب تسجيل الدخول لتقييم الرقم", .navigate "/login"]
        ∧ (∀ p r, HomeEffect.updateRating p r ∉ handleRate currentUser phone rating)
        ∧ applyEffects updateRating (handleRate currentUser phone rating) data = data)
    ∧ (currentUser ≠ none →
        handleRate currentUser phone rating = [.updateRating phone rating]
        ∧ applyEffects updateRating (handleRate currentUser phone rating) data =
            updateRating phone rating data)
    ∧ (HomeEffect.updateRating phone rating ∈ handleRate currentUser phone rating ↔
        currentUser ≠ none) := by
  cases currentUser with
  | none => simp [handleRate, applyEffects]
  | some u => simp [handleRate, applyEffects]

/-- C8 for a guest rating "0600" with 5 stars, the parent data being a counter. -/
theorem handleRate_requires_login_witness :
    handleRate none "0600" 5 = [.alert "يجب تسجيل الدخول لتقييم الرقم", .navigate "/login"]
    ∧ (∀ p r, HomeEffect.updateRating p r ∉ handleRate none "0600" 5)
    ∧ applyEffects (fun _ r d => d + r) (handleRate none "0600" 5) (7 : Nat) = 7 :=
  (handleRate_requires_login (fun _ r d => d + r) none "0600" 5 (7 : Nat)).1 rfl

/-! ## Strings and search -/

/-- The function `startsWithChars` decides the list-prefix relation. -/
theorem startsWithChars_iff (s t : List Char) : startsWithChars s t = true ↔ t <+: s := by
  induction t generalizing s with
  | nil => simp [startsWithChars]
  | cons d t ih =>
    cases s with
    | nil => simp [startsWithChars]
    | cons c s =>
      simp only [startsWithChars, Bool.and_eq_true, beq_iff_eq, ih, List.cons_prefix_cons]
      constructor
      · rintro ⟨rfl, h⟩; exact ⟨rfl, h⟩
      · rintro ⟨rfl, h⟩; exact ⟨rfl, h⟩

/-- The function `includesChars` decides the contiguous-sublist relation. -/
theorem includesChars_iff (s t : List Char) : includesChars s t = true ↔ t <:+: s := by
  induction s with
  | nil =>
    simp only [includesChars, startsWithChars_iff, List.prefix_nil, List.infix_nil]
  | cons c s ih =>
    simp only [includesChars, Bool.or_eq_true, startsWithChars_iff, ih, List.infix_cons_iff]

/-- The test `s.includes(t)` holds exactly when `t` is a substring of `s`. -/
theorem includes_iff (s t : String) : includes s t = true ↔ t.data <:+: s.data :=
  includesChars_iff s.data t.data

/-- Every string includes itself. -/
theorem includes_self (s : String) : includes s s = true :=
  (includes_iff s s).2 List.infix_rfl

/-- Dropping a prefix that satisfies `p` does not change whether all items do. -/
theorem forall_mem_dropWhile {α : Type} (p : α → Bool) (l : List α) :
    (∀ x ∈ l.dropWhile p, p x = true) ↔ ∀ x ∈ l, p x = true := by
  induction l with
  | nil => simp
  | cons a l ih =>
    by_cases ha : p a = true
    · simp [List.dropWhile_cons, ha, ih]
    · simp [List.dropWhile_cons, ha]

/-- The test `s.trim() === ""` holds exactly when `s` consists of white space. -/
theorem trim_eq_empty_iff (s : String) :
    (trim s == "") = true ↔ ∀ c ∈ s.data, isWhiteSpace c = true := by
  have h : trim s = "" ↔ ((s.data.dropWhile isWhiteSpace).reverse.dropWhile isWhiteSpace) = [] := by
    unfold trim
    constructor
    · intro h
      have := congrArg String.data h
      simpa using this
    · intro h
      rw [h]; rfl
  rw [beq_iff_eq, h, List.dropWhile_eq_nil_iff]
  simp only [List.mem_reverse]
  exact forall_mem_dropWhile isWhiteSpace s.data

/-- The filter callback in terms of the substring relation. -/
theorem matchesSearch_iff (toLowerCase : String → String) (T : String) (G : PhoneGroup) :
    matchesSearch toLowerCase T G = true ↔
      ((toLowerCase T).data <:+: (toLowerCase G.number).data
      ∨ (toLowerCase T).data <:+: (toLowerCase G.names).data
      ∨ ∃ comment ∈ G.comments,
          (toLowerCase T).data <:+: (toLowerCase comment.description).data) := by
  simp only [matchesSearch, Bool.or_eq_true, includes_iff, List.any_eq_true, or_assoc]

/-- C3. The search effect keeps exactly the groups that satisfy the search contract
(the term is blank, or its lower-cased form is a substring of the lower-cased number,
names string, or some comment description), in their original relative order: it is
the filter of the group list by that condition. -/
theorem searchEffect_spec (toLowerCase : String → String) (T : String)
    (phoneGroups : List PhoneGroup) :
    (searchEffect toLowerCase T phoneGroups).Sublist phoneGroups
    ∧ (∀ G, G ∈ searchEffect toLowerCase T phoneGroups ↔
        G ∈ phoneGroups ∧ SearchKeeps toLowerCase T G)
    ∧ ∃ keep : PhoneGroup → Bool,
        (∀ G, keep G = true ↔ SearchKeeps toLowerCase T G)
        ∧ searchEffect toLowerCase T phoneGroups = phoneGroups.filter keep := by
  have key : ∃ keep : PhoneGroup → Bool,
      (∀ G, keep G = true ↔ SearchKeeps toLowerCase T G)
      ∧ searchEffect toLowerCase T phoneGroups = phoneGroups.filter keep := by
    by_cases hblank : (trim T == "") = true
    · refine ⟨fun _ => true, ?_, ?_⟩
      · intro G
        simp only [true_iff]
        exact Or.inl ((trim_eq_empty_iff T).1 hblank)
      · simp [searchEffect, hblank]
    · refine ⟨matchesSearch toLowerCase T, ?_, ?_⟩
      · intro G
        rw [matchesSearch_iff]
        unfold SearchKeeps
        constructor
        · exact Or.inr
        · rintro (h | h)
          · exact absurd ((trim_eq_empty_iff T).2 h) hblank
          · exact h
      · simp [searchEffect, hblank]
  obtain ⟨keep, hkeep, heq⟩ := key
  refine ⟨?_, ?_, keep, hkeep, heq⟩
  · rw [heq]; exact List.filter_sublist phoneGroups
  · intro G
    rw [heq, List.mem_filter, hkeep]

/-- C7. On the three reports (two on "0600" with descriptions "A" and "B", one on
"0611" with description "C"), delivered one record per report or one record per
number, the aggregation yields the groups "0600" (2 comments) and "0611" (1 comment)
in this order; searching "0611" yields exactly the "0611" group; searching "zz"
yields no group and the clean-number banner condition is false. -/
theorem scenario_end_to_end :
    ((fetchCustomers scenarioCustomers).phoneGroups.map
        (fun g => (g.number, g.totalComments, g.comments.map Comment.description))
      = [("0600", 2, ["A", "B"]), ("0611", 1, ["C"])])
    ∧ ((searchEffect asciiToLowerCase "0611" (fetchCustomers scenarioCustomers).phoneGroups).map
        (fun g => (g.number, g.totalComments)) = [("0611", 1)])
    ∧ searchEffect asciiToLowerCase "zz" (fetchCustomers scenarioCustomers).phoneGroups = []
    ∧ cleanNumberBanner asciiToLowerCase "zz"
        (searchEffect asciiToLowerCase "zz" (fetchCustomers scenarioCustomers).phoneGroups)
        (fetchCustomers scenarioCustomers).noComplaintsNumbers = false
    ∧ ((fetchCustomers scenarioCustomersByNumber).phoneGroups.map
        (fun g => (g.number, g.totalComments, g.comments.map Comment.description))
      = [("0600", 2, ["A", "B"]), ("0611", 1, ["C"])])
    ∧ ((searchEffect asciiToLowerCase "0611" (fetchCustomers scenarioCustomersByNumber).phoneGroups).map
        (fun g => (g.number, g.totalComments)) = [("0611", 1)])
    ∧ searchEffect asciiToLowerCase "zz" (fetchCustomers scenarioCustomersByNumber).phoneGroups = []
    ∧ cleanNumberBanner asciiToLowerCase "zz"
        (searchEffect asciiToLowerCase "zz" (fetchCustomers scenarioCustomersByNumber).phoneGroups)
        (fetchCustomers scenarioCustomersByNumber).noComplaintsNumbers = false := by
  decide

/-! ## Insertion-ordered sets -/

/-- Membership in the distinct values. -/
theorem mem_firstOccurrences (l : List String) (x : String) :
    x ∈ firstOccurrences l ↔ x ∈ l := by
  induction l with
  | nil => simp [firstOccurrences]
  | cons a l ih =>
    simp only [firstOccurrences, List.mem_cons, List.mem_filter, ih, bne_iff_ne, ne_eq,
      decide_eq_true_eq]
    by_cases h : x = a <;> simp [h]

/-- The distinct values have no repetition. -/
theorem nodup_firstOccurrences (l : List String) : (firstOccurrences l).Nodup := by
  induction l with
  | nil => simp [firstOccurrences]
  | cons a l ih =>
    simp only [firstOccurrences, List.nodup_cons, List.mem_filter, bne_self_eq_false,
      Bool.false_eq_true, and_false, not_false_eq_true, true_and]
    exact ih.filter _

/-- Adding the items of `l` to the set `acc` appends the new distinct items. -/
theorem foldl_setAdd (l acc : List String) :
    l.foldl setAdd acc = acc ++ (firstOccurrences l).filter (fun y => decide (y ∉ acc)) := by
  induction l generalizing acc with
  | nil => simp [firstOccurrences]
  | cons x xs ih =>
    rw [List.foldl_cons, ih]
    by_cases hx : x ∈ acc
    · have hs : setAdd acc x = acc := by simp [setAdd, hx]
      rw [hs]
      simp only [firstOccurrences, List.filter_cons, hx, not_true_eq_false,
        decide_False, Bool.false_eq_true, if_false, List.filter_filter]
      congr 1
      apply List.filter_congr
      intro y _
      by_cases hy : y = x
      · subst hy; simp [hx]
      · simp [hy]
    · have hs : setAdd acc x = acc ++ [x] := by simp [setAdd, hx]
      rw [hs]
      simp only [firstOccurrences, List.filter_cons, hx, not_false_eq_true,
        decide_True, if_true, List.filter_filter, List.append_assoc, List.singleton_append]
      congr 2
      apply List.filter_congr
      intro y _
      by_cases hy : y = x
      · subst hy; simp
      · simp [hy]

/-- A `Set` filled from a list holds its distinct items in order of first appearance. -/
theorem foldl_setAdd_nil (l : List String) : l.foldl setAdd [] = firstOccurrences l := by
  rw [foldl_setAdd]; simp

/-! ## The object `phoneMap` -/

/-- A key has no own property exactly when it is not among the keys. -/
theorem ownProperty_eq_none_iff (m : PhoneMap) (k : String) :
    ownProperty m k = none ↔ k ∉ m.map Prod.fst := by
  unfold ownProperty
  simp only [Option.map_eq_none', List.find?_eq_none, beq_iff_eq, List.mem_map, not_exists,
    not_and, Prod.forall]

/-- A key has an own property exactly when it is among the keys. -/
theorem ownProperty_isSome_iff (m : PhoneMap) (k : String) :
    (∃ e, ownProperty m k = some e) ↔ k ∈ m.map Prod.fst := by
  rw [← not_iff_not, ← ownProperty_eq_none_iff]
  cases ownProperty m k <;> simp

/-- Updating an absent key changes nothing. -/
theorem updateEntry_of_not_mem (m : PhoneMap) (k : String) (f : PhoneEntry → PhoneEntry)
    (h : k ∉ m.map Prod.fst) : updateEntry m k f = m := by
  unfold updateEntry
  conv_rhs => rw [← List.map_id m]
  apply List.map_congr_left
  intro p hp
  have : p.1 ≠ k := fun heq => h (heq ▸ List.mem_map_of_mem Prod.fst hp)
  simp [this]

/-- Updating the property that was just created. -/
theorem updateEntry_append_single (m : PhoneMap) (k : String) (e : PhoneEntry)
    (f : PhoneEntry → PhoneEntry) (h : k ∉ m.map Prod.fst) :
    updateEntry (m ++ [(k, e)]) k f = m ++ [(k, f e)] := by
  have := updateEntry_of_not_mem m k f h
  unfold updateEntry at this ⊢
  rw [List.map_append, this]
  simp

/-- Reading the property that was just created. -/
theorem ownProperty_append_single (m : PhoneMap) (k : String) (e : PhoneEntry)
    (h : k ∉ m.map Prod.fst) : ownProperty (m ++ [(k, e)]) k = some e := by
  have hn := (ownProperty_eq_none_iff m k).2 h
  unfold ownProperty at hn ⊢
  rw [List.find?_append]
  simp only [Option.map_eq_none'] at hn
  rw [hn]
  simp

/-- An update keeps the keys and their order. -/
theorem keys_updateEntry (m : PhoneMap) (k : String) (f : PhoneEntry → PhoneEntry) :
    (updateEntry m k f).map Prod.fst = m.map Prod.fst := by
  unfold updateEntry
  rw [List.map_map]
  apply List.map_congr_left
  intro p _
  by_cases h : p.1 = k <;> simp [h]

/-! ## The grouping loop -/

/-- A record without a truthy number is skipped. -/
theorem groupStep_of_key_none (st : AggState) (c : Customer) (h : c.key = none) :
    groupStep st c = some st := by
  unfold Customer.key at h
  unfold groupStep
  cases hn : c.number with
  | none => rfl
  | some phone =>
    rw [hn] at h
    by_cases hp : (phone == "") = true
    · simp [hp]
    · simp [hp] at h

/-- The loop body for a record with a truthy number: update the group of a known
number, raise on a number that names a member of `Object.prototype`, and create the
group of any other new number. -/
theorem groupStep_of_key_some (st : AggState) (c : Customer) (phone : String)
    (h : c.key = some phone) :
    groupStep st c =
      if phone ∈ st.phoneMap.map Prod.fst then
        some { phoneMap := updateEntry st.phoneMap phone (addCustomer c)
               noComplaintsSet := noComplaintsStep st.noComplaintsSet phone c }
      else if phone ∈ objectPrototypeKeys then none
      else
        some { phoneMap := st.phoneMap ++ [(phone, addCustomer c (freshEntry phone c))]
               noComplaintsSet := noComplaintsStep st.noComplaintsSet phone c } := by
  unfold Customer.key at h
  have hnoC : (match c.motifs with
      | .array ms => if ms.length > 0 then setDelete st.noComplaintsSet phone
                     else st.noComplaintsSet
      | _ => st.noComplaintsSet) = noComplaintsStep st.noComplaintsSet phone c := by
    unfold noComplaintsStep Customer.motifList
    cases c.motifs <;> simp
  cases hn : c.number with
  | none => rw [hn] at h; simp at h
  | some p =>
    rw [hn] at h
    by_cases hp : (p == "") = true
    · simp [hp] at h
    · simp only [hp, if_false, Option.some.injEq, Bool.false_eq_true] at h
      subst h
      unfold groupStep
      simp only [hn, hp, if_false, Bool.false_eq_true]
      by_cases hmem : p ∈ st.phoneMap.map Prod.fst
      · obtain ⟨e, he⟩ := (ownProperty_isSome_iff _ _).2 hmem
        simp only [readProperty, he, if_pos hmem, hnoC]
      · have hnone := (ownProperty_eq_none_iff _ _).2 hmem
        rw [if_neg hmem]
        by_cases hproto : p ∈ objectPrototypeKeys
        · simp only [readProperty, hnone, if_pos hproto]
        · simp only [readProperty, hnone, if_neg hproto,
            ownProperty_append_single _ _ _ hmem, updateEntry_append_single _ _ _ _ hmem, hnoC]
          rfl

/-- The keys of `phoneMap` after one record. -/
theorem keys_groupStep (st st1 : AggState) (c : Customer) (h : groupStep st c = some st1) :
    st1.phoneMap.map Prod.fst =
      (match c.key with
       | some phone => setAdd (st.phoneMap.map Prod.fst) phone
       | none => st.phoneMap.map Prod.fst) := by
  cases hk : c.key with
  | none =>
    rw [groupStep_of_key_none st c hk] at h
    simp only [Option.some.injEq] at h
    subst h; rfl
  | some phone =>
    rw [groupStep_of_key_some st c phone hk] at h
    by_cases hmem : phone ∈ st.phoneMap.map Prod.fst
    · rw [if_pos hmem] at h
      simp only [Option.some.injEq] at h
      subst h
      simp only [keys_updateEntry, setAdd, if_pos hmem]
    · rw [if_neg hmem] at h
      by_cases hproto : phone ∈ objectPrototypeKeys
      · rw [if_pos hproto] at h; exact absurd h (by simp)
      · rw [if_neg hproto] at h
        simp only [Option.some.injEq] at h
        subst h
        simp only [setAdd, if_neg hmem, List.map_append, List.map_cons, List.map_nil]

/-- The keys of `phoneMap` after the loop: the old keys, then the new numbers in
order of first appearance. -/
theorem keys_groupLoop (cs : List Customer) (st st1 : AggState)
    (h : groupLoop st cs = some st1) :
    st1.phoneMap.map Prod.fst = (validNumbers cs).foldl setAdd (st.phoneMap.map Prod.fst) := by
  induction cs generalizing st with
  | nil =>
    simp only [groupLoop, Option.some.injEq] at h
    subst h; rfl
  | cons c cs ih =>
    simp only [groupLoop] at h
    cases hs : groupStep st c with
    | none => rw [hs] at h; exact absurd h (by simp)
    | some st2 =>
      rw [hs] at h
      rw [ih st2 h, keys_groupStep st st2 c hs]
      unfold validNumbers
      cases hk : c.key with
      | none => simp [List.filterMap_cons, hk]
      | some phone => simp [List.filterMap_cons, hk]

/-! ## Group objects -/

/-- The name added for a record is `customer.nom || 'غير معروف'`. -/
theorem names_addCustomer (c : Customer) (e : PhoneEntry) :
    (addCustomer c e).names = setAdd e.names c.displayName := by
  unfold addCustomer Customer.displayName truthy
  cases hn : c.nom with
  | none => cases c.motifs <;> simp
  | some n =>
    by_cases h : (n != "") = true
    · cases c.motifs <;> simp [h]
    · cases c.motifs <;> simp [h]

/-- The count grows by the number of reports of the record. -/
theorem totalComments_addCustomer (c : Customer) (e : PhoneEntry) :
    (addCustomer c e).totalComments = e.totalComments + c.motifList.length := by
  unfold addCustomer Customer.motifList
  cases c.motifs <;> by_cases h : truthy c.nom = true <;> simp [h]

/-- The reports of the record are appended. -/
theorem comments_addCustomer (c : Customer) (e : PhoneEntry) :
    (addCustomer c e).comments = e.comments ++ c.commentList := by
  unfold addCustomer Customer.commentList Customer.motifList
  cases c.motifs <;> by_cases h : truthy c.nom = true <;> simp [h]

/-- The number of a group object never changes. -/
theorem number_addCustomer (c : Customer) (e : PhoneEntry) :
    (addCustomer c e).number = e.number := by
  unfold addCustomer
  cases c.motifs <;> by_cases h : truthy c.nom = true <;> simp [h]

/-- The id of a group object never changes. -/
theorem id_addCustomer (c : Customer) (e : PhoneEntry) :
    (addCustomer c e).id = e.id := by
  unfold addCustomer
  cases c.motifs <;> by_cases h : truthy c.nom = true <;> simp [h]

/-- Names after a sequence of records. -/
theorem names_foldl_addCustomer (l : List Customer) (e : PhoneEntry) :
    (l.foldl (fun e c => addCustomer c e) e).names =
      (l.map Customer.displayName).foldl setAdd e.names := by
  induction l generalizing e with
  | nil => rfl
  | cons c l ih => simp only [List.foldl_cons, List.map_cons, ih, names_addCustomer]

/-- Count after a sequence of records. -/
theorem totalComments_foldl_addCustomer (l : List Customer) (e : PhoneEntry) :
    (l.foldl (fun e c => addCustomer c e) e).totalComments =
      e.totalComments + (l.map (fun c => c.motifList.length)).sum := by
  induction l generalizing e with
  | nil => simp
  | cons c l ih =>
    simp only [List.foldl_cons, List.map_cons, List.sum_cons, ih, totalComments_addCustomer]
    omega

/-- Comments after a sequence of records. -/
theorem comments_foldl_addCustomer (l : List Customer) (e : PhoneEntry) :
    (l.foldl (fun e c => addCustomer c e) e).comments =
      e.comments ++ l.flatMap Customer.commentList := by
  induction l generalizing e with
  | nil => simp
  | cons c l ih =>
    simp only [List.foldl_cons, List.flatMap_cons, ih, comments_addCustomer,
      List.append_assoc]

/-- Number after a sequence of records. -/
theorem number_foldl_addCustomer (l : List Customer) (e : PhoneEntry) :
    (l.foldl (fun e c => addCustomer c e) e).number = e.number := by
  induction l generalizing e with
  | nil => rfl
  | cons c l ih => simp only [List.foldl_cons, ih, number_addCustomer]

/-- The names of the final group object: distinct reporter names in order. -/
theorem names_entryOf (k : String) (cs : List Customer) :
    (entryOf k cs).names = firstOccurrences ((recordsOf k cs).map Customer.displayName) := by
  unfold entryOf
  rw [names_foldl_addCustomer, foldl_setAdd_nil]

/-- The count of the final group object: all reports of its records. -/
theorem totalComments_entryOf (k : String) (cs : List Customer) :
    (entryOf k cs).totalComments = ((recordsOf k cs).map (fun c => c.motifList.length)).sum := by
  unfold entryOf
  rw [totalComments_foldl_addCustomer]
  simp

/-- The comments of the final group object: the reports of its records, in order. -/
theorem comments_entryOf (k : String) (cs : List Customer) :
    (entryOf k cs).comments = (recordsOf k cs).flatMap Customer.commentList := by
  unfold entryOf
  rw [comments_foldl_addCustomer]
  simp

/-- The number of the final group object is its key. -/
theorem number_entryOf (k : String) (cs : List Customer) : (entryOf k cs).number = k := by
  unfold entryOf
  rw [number_foldl_addCustomer]

/-! ## Own properties through the loop -/

/-- Reading a map by its first property. -/
theorem ownProperty_cons (a : String) (b : PhoneEntry) (m : PhoneMap) (k : String) :
    ownProperty ((a, b) :: m) k = if a = k then some b else ownProperty m k := by
  unfold ownProperty
  by_cases h : a = k <;> simp [List.find?_cons, h]

/-- Updating a map by its first property. -/
theorem updateEntry_cons (a : String) (b : PhoneEntry) (m : PhoneMap) (k : String)
    (f : PhoneEntry → PhoneEntry) :
    updateEntry ((a, b) :: m) k f =
      (if a = k then (a, f b) else (a, b)) :: updateEntry m k f := by
  unfold updateEntry
  by_cases h : a = k <;> simp [h]

/-- Reading after an in-place update. -/
theorem ownProperty_updateEntry (m : PhoneMap) (k k' : String) (f : PhoneEntry → PhoneEntry) :
    ownProperty (updateEntry m k f) k' =
      if k' = k then (ownProperty m k').map f else ownProperty m k' := by
  induction m with
  | nil => simp [ownProperty, updateEntry]
  | cons p m ih =>
    obtain ⟨a, b⟩ := p
    rw [updateEntry_cons, ownProperty_cons]
    by_cases hak : a = k
    · rw [if_pos hak, ownProperty_cons, ih]
      by_cases hak' : a = k'
      · have : k' = k := hak' ▸ hak
        simp [hak', this]
      · simp [hak']
    · rw [if_neg hak, ownProperty_cons, ih]
      by_cases hak' : a = k'
      · have : ¬ k' = k := fun h => hak (hak' ▸ h)
        simp [hak', this]
      · simp [hak']

/-- Reading another key after a property was created. -/
theorem ownProperty_append_single_ne (m : PhoneMap) (k k' : String) (e : PhoneEntry)
    (h : k' ≠ k) : ownProperty (m ++ [(k, e)]) k' = ownProperty m k' := by
  unfold ownProperty
  rw [List.find?_append]
  have : List.find? (fun p => p.1 == k') [(k, e)] = none := by
    simp [List.find?_cons, Ne.symm h]
  rw [this]
  simp

/-- The own properties after one record. -/
theorem ownProperty_groupStep (st st1 : AggState) (c : Customer)
    (h : groupStep st c = some st1) (k : String) :
    ownProperty st1.phoneMap k =
      if c.key = some k then
        some (addCustomer c ((ownProperty st.phoneMap k).getD (freshEntry k c)))
      else ownProperty st.phoneMap k := by
  cases hk : c.key with
  | none =>
    rw [groupStep_of_key_none st c hk] at h
    simp only [Option.some.injEq] at h
    subst h; simp
  | some phone =>
    rw [groupStep_of_key_some st c phone hk] at h
    by_cases hmem : phone ∈ st.phoneMap.map Prod.fst
    · rw [if_pos hmem] at h
      simp only [Option.some.injEq] at h
      subst h
      obtain ⟨e, he⟩ := (ownProperty_isSome_iff _ _).2 hmem
      simp only [ownProperty_updateEntry, Option.some.injEq]
      by_cases hkk : k = phone
      · subst hkk; simp [he]
      · have : ¬ (phone = k) := fun h => hkk h.symm
        simp [hkk, this]
    · rw [if_neg hmem] at h
      by_cases hproto : phone ∈ objectPrototypeKeys
      · rw [if_pos hproto] at h; exact absurd h (by simp)
      · rw [if_neg hproto] at h
        simp only [Option.some.injEq] at h
        subst h
        have hnone := (ownProperty_eq_none_iff _ _).2 hmem
        by_cases hkk : k = phone
        · subst hkk
          simp [ownProperty_append_single _ _ _ hmem, hnone]
        · have : ¬ (phone = k) := fun h => hkk h.symm
          simp [ownProperty_append_single_ne _ _ _ _ hkk, this]

/-- The own properties after the loop. -/
theorem ownProperty_groupLoop (cs : List Customer) (st st1 : AggState)
    (h : groupLoop st cs = some st1) (k : String) :
    ownProperty st1.phoneMap k =
      match ownProperty st.phoneMap k with
      | some e => some ((recordsOf k cs).foldl (fun e c => addCustomer c e) e)
      | none => if recordsOf k cs = [] then none else some (entryOf k cs) := by
  induction cs generalizing st with
  | nil =>
    simp only [groupLoop, Option.some.injEq] at h
    subst h
    cases ownProperty st.phoneMap k <;> simp [recordsOf]
  | cons c cs ih =>
    simp only [groupLoop] at h
    cases hs : groupStep st c with
    | none => rw [hs] at h; exact absurd h (by simp)
    | some st2 =>
      rw [hs] at h
      rw [ih st2 h, ownProperty_groupStep st st2 c hs k]
      by_cases hk : c.key = some k
      · have hrec : recordsOf k (c :: cs) = c :: recordsOf k cs := by
          simp [recordsOf, List.filter_cons, hk]
        rw [if_pos hk]
        cases ho : ownProperty st.phoneMap k with
        | some e => simp [hrec]
        | none =>
          simp only [Option.getD_none, hrec]
          simp [entryOf, hrec, freshEntry]
      · have hrec : recordsOf k (c :: cs) = recordsOf k cs := by
          simp [recordsOf, List.filter_cons, hk]
        rw [if_neg hk]
        cases ho : ownProperty st.phoneMap k with
        | some e => simp [hrec]
        | none => simp [hrec, entryOf]

/-! ## The finished `phoneMap` -/

/-- In a map with distinct keys every stored pair is what reading its key yields. -/
theorem ownProperty_of_mem (m : PhoneMap) (hnd : (m.map Prod.fst).Nodup)
    (k : String) (e : PhoneEntry) (h : (k, e) ∈ m) : ownProperty m k = some e := by
  induction m with
  | nil => exact absurd h (by simp)
  | cons p m ih =>
    obtain ⟨a, b⟩ := p
    rw [ownProperty_cons]
    simp only [List.map_cons, List.nodup_cons] at hnd
    rcases List.mem_cons.1 h with heq | hmem
    · simp only [Prod.mk.injEq] at heq
      simp [heq.1, heq.2]
    · have hka : a ≠ k := by
        rintro rfl
        exact hnd.1 (List.mem_map_of_mem Prod.fst hmem)
      rw [if_neg hka]
      exact ih hnd.2 hmem

/-- The loop never raises when no number names a member of `Object.prototype`. -/
theorem groupLoop_isSome (cs : List Customer) (st : AggState)
    (h : ∀ k ∈ validNumbers cs, k ∉ objectPrototypeKeys) :
    ∃ st1, groupLoop st cs = some st1 := by
  induction cs generalizing st with
  | nil => exact ⟨st, rfl⟩
  | cons c cs ih =>
    have hrest : ∀ k ∈ validNumbers cs, k ∉ objectPrototypeKeys := by
      intro k hk
      apply h
      unfold validNumbers at hk ⊢
      rw [List.filterMap_cons]
      cases c.key with
      | none => exact hk
      | some p => exact List.mem_cons_of_mem _ hk
    have hstep : ∃ st2, groupStep st c = some st2 := by
      cases hk : c.key with
      | none => exact ⟨st, groupStep_of_key_none st c hk⟩
      | some phone =>
        have hp : phone ∉ objectPrototypeKeys := by
          apply h
          unfold validNumbers
          rw [List.filterMap_cons, hk]
          exact List.mem_cons_self _ _
        rw [groupStep_of_key_some st c phone hk]
        by_cases hmem : phone ∈ st.phoneMap.map Prod.fst
        · rw [if_pos hmem]; exact ⟨_, rfl⟩
        · rw [if_neg hmem, if_neg hp]; exact ⟨_, rfl⟩
    obtain ⟨st2, hs⟩ := hstep
    obtain ⟨st1, h1⟩ := ih st2 hrest
    exact ⟨st1, by simp only [groupLoop, hs, h1]⟩

/-- The loop raises as soon as a new number names a member of `Object.prototype`. -/
theorem groupLoop_eq_none (cs : List Customer) (st : AggState)
    (hst : ∀ k ∈ st.phoneMap.map Prod.fst, k ∉ objectPrototypeKeys)
    (k : String) (hk : k ∈ validNumbers cs) (hproto : k ∈ objectPrototypeKeys) :
    groupLoop st cs = none := by
  cases hl : groupLoop st cs with
  | none => rfl
  | some st1 =>
    exfalso
    have hkeys := keys_groupLoop cs st st1 hl
    -- every key of the final map is an old key or a non-inherited name
    have hinv : ∀ (cs : List Customer) (st st1 : AggState),
        (∀ k ∈ st.phoneMap.map Prod.fst, k ∉ objectPrototypeKeys) →
        groupLoop st cs = some st1 →
        ∀ k ∈ st1.phoneMap.map Prod.fst, k ∉ objectPrototypeKeys := by
      intro cs
      induction cs with
      | nil =>
        intro st st1 hst h
        simp only [groupLoop, Option.some.injEq] at h
        subst h; exact hst
      | cons c cs ih =>
        intro st st1 hst h
        simp only [groupLoop] at h
        cases hs : groupStep st c with
        | none => rw [hs] at h; exact absurd h (by simp)
        | some st2 =>
          rw [hs] at h
          refine ih st2 st1 ?_ h
          intro k hk2
          rw [keys_groupStep st st2 c hs] at hk2
          cases hkey : c.key with
          | none => rw [hkey] at hk2; exact hst k hk2
          | some phone =>
            rw [hkey] at hk2
            rw [groupStep_of_key_some st c phone hkey] at hs
            by_cases hmem : phone ∈ st.phoneMap.map Prod.fst
            · simp only [setAdd, if_pos hmem] at hk2
              exact hst k hk2
            · rw [if_neg hmem] at hs
              by_cases hp : phone ∈ objectPrototypeKeys
              · rw [if_pos hp] at hs; exact absurd hs (by simp)
              · simp only [setAdd, if_neg hmem, List.mem_append, List.mem_singleton] at hk2
                rcases hk2 with h1 | rfl
                · exact hst k h1
                · exact hp
    have hfinal := hinv cs st st1 hst hl
    apply hfinal k _ hproto
    rw [hkeys, foldl_setAdd]
    by_cases hold : k ∈ st.phoneMap.map Prod.fst
    · exact List.mem_append_left _ hold
    · apply List.mem_append_right
      simp only [List.mem_filter, mem_firstOccurrences, decide_eq_true_eq]
      exact ⟨hk, hold⟩

/-- A number is grouped exactly when some record carries it. -/
theorem recordsOf_ne_nil_iff (k : String) (cs : List Customer) :
    recordsOf k cs ≠ [] ↔ k ∈ validNumbers cs := by
  unfold recordsOf validNumbers
  rw [List.mem_filterMap, ne_eq, List.filter_eq_nil_iff]
  simp only [beq_iff_eq, not_forall, Classical.not_imp, not_not, exists_prop]

/-- The map built from the empty object: one property per distinct truthy number, in
order of first appearance, holding the group object of that number. -/
theorem phoneMap_groupLoop (cs : List Customer) (s0 : List String) (st1 : AggState)
    (h : groupLoop { phoneMap := [], noComplaintsSet := s0 } cs = some st1) :
    st1.phoneMap = (firstOccurrences (validNumbers cs)).map (fun k => (k, entryOf k cs)) := by
  have hkeys := keys_groupLoop cs _ st1 h
  simp only [List.map_nil] at hkeys
  rw [foldl_setAdd_nil] at hkeys
  have hnd : (st1.phoneMap.map Prod.fst).Nodup := hkeys ▸ nodup_firstOccurrences _
  have hentry : ∀ p ∈ st1.phoneMap, p = (p.1, entryOf p.1 cs) := by
    rintro ⟨k, e⟩ hp
    have h1 := ownProperty_of_mem st1.phoneMap hnd k e hp
    have h2 := ownProperty_groupLoop cs _ st1 h k
    simp only [ownProperty, List.find?_nil, Option.map_none'] at h2
    have h3 : ownProperty st1.phoneMap k = some e := h1
    simp only [ownProperty] at h3
    rw [h3] at h2
    by_cases hr : recordsOf k cs = []
    · rw [if_pos hr] at h2; exact absurd h2 (by simp)
    · rw [if_neg hr] at h2
      simp only [Option.some.injEq] at h2
      simp [h2]
  rw [← hkeys, List.map_map]
  conv_lhs => rw [← List.map_id st1.phoneMap]
  apply List.map_congr_left
  intro p hp
  simpa using hentry p hp

/-! ## `Object.values` and `sort` -/

/-- The array `Object.values(phoneMap)` lists every value once. -/
theorem objectValues_perm (m : PhoneMap) : (objectValues m).Perm (m.map Prod.snd) := by
  unfold objectValues
  apply List.Perm.map
  have h2 : m.filter (fun p => (arrayIndex p.1).isNone) =
      m.filter (fun p => !(arrayIndex p.1).isSome) := by
    apply List.filter_congr
    intro p _
    cases arrayIndex p.1 <;> rfl
  rw [h2]
  exact ((List.perm_insertionSort _ _).append_right _).trans (List.filter_append_perm _ m)

/-- The method `sort` permutes. -/
theorem jsSort_perm {α : Type} (cmp : α → α → Int) (l : List α) : (jsSort cmp l).Perm l :=
  List.perm_insertionSort _ l

/-- The groups array is a permutation of the group objects in creation order. -/
theorem groupsOf_perm (cs : List Customer) :
    (groupsOf cs).Perm
      ((firstOccurrences (validNumbers cs)).map (fun k => (entryOf k cs).toGroup)) := by
  unfold groupsOf
  refine (jsSort_perm _ _).trans ?_
  refine ((objectValues_perm _).map _).trans ?_
  rw [List.map_map, List.map_map]
  exact List.Perm.refl _

/-- What `fetchCustomers` stores when no number names a member of `Object.prototype`. -/
theorem fetchCustomers_of_ok (cs : List Customer)
    (h : ∀ k ∈ validNumbers cs, k ∉ objectPrototypeKeys) :
    ∃ st1, groupLoop { phoneMap := [], noComplaintsSet := collectNumbers cs } cs = some st1
      ∧ fetchCustomers cs =
          { phoneGroups := groupsOf cs, filteredGroups := groupsOf cs,
            noComplaintsNumbers := st1.noComplaintsSet, error := "" } := by
  obtain ⟨st1, hl⟩ := groupLoop_isSome cs
    { phoneMap := [], noComplaintsSet := collectNumbers cs } h
  refine ⟨st1, hl, ?_⟩
  have hm := phoneMap_groupLoop cs _ st1 hl
  cases cs with
  | nil =>
    simp only [groupLoop, Option.some.injEq] at hl
    subst hl
    rfl
  | cons c cs =>
    unfold fetchCustomers aggregate
    rw [hl]
    simp only [List.length_cons, gt_iff_lt, Nat.zero_lt_succ, if_true, hm]
    rfl

/-- What `fetchCustomers` stores when a number names a member of `Object.prototype`:
the `catch` branch empties the state. -/
theorem fetchCustomers_of_raise (cs : List Customer) (k : String)
    (hk : k ∈ validNumbers cs) (hproto : k ∈ objectPrototypeKeys) :
    fetchCustomers cs =
      { phoneGroups := [], filteredGroups := [], noComplaintsNumbers := [],
        error := "فشل في جلب البيانات" } := by
  have hl := groupLoop_eq_none cs { phoneMap := [], noComplaintsSet := collectNumbers cs }
    (by simp) k hk hproto
  cases cs with
  | nil => exact absurd hk (by simp [validNumbers])
  | cons c cs =>
    unfold fetchCustomers aggregate
    rw [hl]
    simp

/-- The groups stored by `fetchCustomers`, in both cases. -/
theorem phoneGroups_fetchCustomers (cs : List Customer) :
    (fetchCustomers cs).phoneGroups =
      if ∀ k ∈ validNumbers cs, k ∉ objectPrototypeKeys then groupsOf cs else [] := by
  by_cases h : ∀ k ∈ validNumbers cs, k ∉ objectPrototypeKeys
  · obtain ⟨st1, _, heq⟩ := fetchCustomers_of_ok cs h
    rw [if_pos h, heq]
  · rw [if_neg h]
    push_neg at h
    obtain ⟨k, hk, hproto⟩ := h
    rw [fetchCustomers_of_raise cs k hk hproto]

/-- Every stored group is the joined group object of a truthy number of the input. -/
theorem mem_phoneGroups (cs : List Customer) (g : PhoneGroup)
    (hg : g ∈ (fetchCustomers cs).phoneGroups) :
    ∃ k ∈ validNumbers cs, g = (entryOf k cs).toGroup := by
  rw [phoneGroups_fetchCustomers] at hg
  split at hg
  · have := (groupsOf_perm cs).mem_iff.1 hg
    simp only [List.mem_map, mem_firstOccurrences] at this
    obtain ⟨k, hk, rfl⟩ := this
    exact ⟨k, hk, rfl⟩
  · exact absurd hg (by simp)

/-- A truthy number is a non-empty `number` field of some record. -/
theorem mem_validNumbers (cs : List Customer) (k : String) :
    k ∈ validNumbers cs ↔ k ≠ "" ∧ ∃ c ∈ cs, c.number = some k := by
  unfold validNumbers Customer.key
  rw [List.mem_filterMap]
  constructor
  · rintro ⟨c, hc, hk⟩
    cases hn : c.number with
    | none => rw [hn] at hk; exact absurd hk (by simp)
    | some p =>
      rw [hn] at hk
      by_cases hp : (p == "") = true
      · simp [hp] at hk
      · simp only [hp, if_false, Option.some.injEq, Bool.false_eq_true] at hk
        subst hk
        exact ⟨by simpa using hp, c, hc, hn⟩
  · rintro ⟨hne, c, hc, hn⟩
    refine ⟨c, hc, ?_⟩
    rw [hn]
    simp [hne]

/-- The records grouped under a non-empty number are those whose `number` equals it. -/
theorem recordsOf_eq_filter (cs : List Customer) (k : String) (hk : k ≠ "") :
    recordsOf k cs = cs.filter (fun c => c.number == some k) := by
  unfold recordsOf
  apply List.filter_congr
  intro c _
  unfold Customer.key
  cases hn : c.number with
  | none => simp
  | some p =>
    by_cases hp : (p == "") = true
    · have : p = "" := by simpa using hp
      subst this
      have : ¬ ("" = k) := fun h => hk h.symm
      simp [this]
    · simp [hp]

/-! ## Names of a group -/

/-- The name added for a record is the reporter name of the specification. -/
theorem displayName_eq_reporterName (c : Customer) : c.displayName = reporterName c := by
  unfold Customer.displayName reporterName
  cases c.nom with
  | none => rfl
  | some n => by_cases h : n = "" <;> simp [h]

/-- C10. The names string of every group produced by `fetchCustomers` is the
", "-join of the distinct reporter names of the records with the group's number, in
order of first appearance, where a record without a (non-empty) `nom` contributes the
placeholder name. -/
theorem names_of_group (cs : List Customer) (g : PhoneGroup)
    (hg : g ∈ (fetchCustomers cs).phoneGroups) :
    g.names = ", ".intercalate
      (firstOccurrences
        ((cs.filter (fun c => c.number == some g.number)).map reporterName)) := by
  obtain ⟨k, hk, rfl⟩ := mem_phoneGroups cs g hg
  have hne : k ≠ "" := ((mem_validNumbers cs k).1 hk).1
  have hnum : (entryOf k cs).toGroup.number = k := number_entryOf k cs
  rw [hnum, ← recordsOf_eq_filter cs k hne]
  have hfun : reporterName = Customer.displayName :=
    funext (fun c => (displayName_eq_reporterName c).symm)
  rw [hfun]
  show ", ".intercalate (entryOf k cs).names = _
  rw [names_entryOf]

/-- C10 on three records of "0600" named "Ali", (none), "Ali". -/
theorem names_of_group_witness :
    namedGroup ∈ (fetchCustomers namedCustomers).phoneGroups
    ∧ namedGroup.names = ", ".intercalate
        (firstOccurrences
          ((namedCustomers.filter (fun c => c.number == some namedGroup.number)).map
            reporterName)) :=
  ⟨by decide, names_of_group namedCustomers namedGroup (by decide)⟩

/-! ## Completeness of the grouping -/

/-- The value `Home.totalReports` is the sum of the counts. -/
theorem totalReports_eq_sum (gs : List PhoneGroup) :
    totalReports gs = (gs.map (fun g => g.totalComments)).sum := by
  unfold totalReports
  have h : ∀ (l : List PhoneGroup) (acc : Nat),
      l.foldl (fun sum group => sum + group.totalComments) acc =
        acc + (l.map (fun g => g.totalComments)).sum := by
    intro l
    induction l with
    | nil => intro acc; simp
    | cons g l ih =>
      intro acc
      simp only [List.foldl_cons, List.map_cons, List.sum_cons, ih]
      omega
  simpa using h gs 0

/-- In a list without repetition exactly one item equals a given member. -/
theorem sum_map_ite_eq (K : List String) (k0 : String) (a : Nat) (hnd : K.Nodup)
    (hk : k0 ∈ K) : (K.map (fun k => if k = k0 then a else 0)).sum = a := by
  induction K with
  | nil => exact absurd hk (by simp)
  | cons x K ih =>
    simp only [List.nodup_cons] at hnd
    simp only [List.map_cons, List.sum_cons]
    by_cases hx : x = k0
    · subst hx
      have hz : (K.map (fun k => if k = x then a else 0)).sum = 0 := by
        apply List.sum_eq_zero
        intro n hn
        simp only [List.mem_map] at hn
        obtain ⟨k, hkK, rfl⟩ := hn
        have : k ≠ x := fun h => hnd.1 (h ▸ hkK)
        simp [this]
      simp [hz]
    · have hk' : k0 ∈ K := by
        rcases List.mem_cons.1 hk with h | h
        · exact absurd h.symm hx
        · exact h
      simp [hx, ih hnd.2 hk']

/-- Summing over the numbers and then over the records of each number counts every
record with a truthy number once. -/
theorem sum_recordsOf (f : Customer → Nat) (K : List String) (hnd : K.Nodup)
    (cs : List Customer) (hK : ∀ k ∈ validNumbers cs, k ∈ K) :
    (K.map (fun k => ((recordsOf k cs).map f).sum)).sum =
      ((cs.filter (fun c => c.key.isSome)).map f).sum := by
  induction cs with
  | nil => simp [recordsOf]
  | cons c cs ih =>
    have hK' : ∀ k ∈ validNumbers cs, k ∈ K := by
      intro k hk
      apply hK
      unfold validNumbers at hk ⊢
      rw [List.filterMap_cons]
      cases c.key with
      | none => exact hk
      | some p => exact List.mem_cons_of_mem _ hk
    cases hkey : c.key with
    | none =>
      have h1 : ∀ k, recordsOf k (c :: cs) = recordsOf k cs := by
        intro k; simp [recordsOf, List.filter_cons, hkey]
      simp only [h1, List.filter_cons, hkey, Option.isSome_none, Bool.false_eq_true, if_false]
      exact ih hK'
    | some k0 =>
      have hk0 : k0 ∈ K := by
        apply hK
        unfold validNumbers
        rw [List.filterMap_cons, hkey]
        exact List.mem_cons_self _ _
      have h1 : ∀ k, ((recordsOf k (c :: cs)).map f).sum =
          (if k = k0 then f c else 0) + ((recordsOf k cs).map f).sum := by
        intro k
        by_cases hk : k = k0
        · subst hk; simp [recordsOf, List.filter_cons, hkey]
        · have : ¬ (k0 = k) := fun h => hk h.symm
          simp [recordsOf, List.filter_cons, hkey, hk, this]
      simp only [h1, List.filter_cons, hkey, Option.isSome_some, if_true, List.map_cons,
        List.sum_cons, List.sum_map_add, sum_map_ite_eq K k0 (f c) hnd hk0, ih hK']

/-- The number of reports of a record, as the loop counts them. -/
theorem motifList_length (c : Customer) : c.motifList.length = reportCount c := by
  unfold Customer.motifList reportCount
  cases c.motifs <;> rfl

/-- Grouping is complete as long as no number names a member of `Object.prototype`:
the numbers of the groups are exactly the distinct non-empty numbers of the records,
each once, and the counts add up to the number of reports carried by the records
that have a non-empty number. -/
theorem fetchCustomers_groups_complete (cs : List Customer)
    (hsafe : ∀ c ∈ cs, ∀ n, c.number = some n → n ∉ objectPrototypeKeys) :
    (∀ n, n ∈ (fetchCustomers cs).phoneGroups.map (fun g => g.number) ↔
        n ≠ "" ∧ ∃ c ∈ cs, c.number = some n)
    ∧ ((fetchCustomers cs).phoneGroups.map (fun g => g.number)).Nodup
    ∧ totalReports (fetchCustomers cs).phoneGroups =
        ((cs.filter (fun c => c.number.isSome && c.number != some "")).map reportCount).sum := by
  have hok : ∀ k ∈ validNumbers cs, k ∉ objectPrototypeKeys := by
    intro k hk
    obtain ⟨_, c, hc, hn⟩ := (mem_validNumbers cs k).1 hk
    exact hsafe c hc k hn
  rw [phoneGroups_fetchCustomers, if_pos hok]
  have hperm := groupsOf_perm cs
  have hnum : ((firstOccurrences (validNumbers cs)).map
      (fun k => (entryOf k cs).toGroup)).map (fun g => g.number) =
        firstOccurrences (validNumbers cs) := by
    rw [List.map_map]
    conv_rhs => rw [← List.map_id (firstOccurrences (validNumbers cs))]
    apply List.map_congr_left
    intro k _
    exact number_entryOf k cs
  have hpermN := hperm.map (fun g => g.number)
  rw [hnum] at hpermN
  refine ⟨?_, ?_, ?_⟩
  · intro n
    rw [hpermN.mem_iff, mem_firstOccurrences, mem_validNumbers]
  · exact hpermN.nodup_iff.2 (nodup_firstOccurrences _)
  · rw [totalReports_eq_sum, (hperm.map (fun g => g.totalComments)).sum_eq, List.map_map]
    have h1 : ((fun g : PhoneGroup => g.totalComments) ∘ fun k => (entryOf k cs).toGroup) =
        fun k => ((recordsOf k cs).map (fun c => c.motifList.length)).sum := by
      funext k
      exact totalComments_entryOf k cs
    rw [h1, sum_recordsOf _ _ (nodup_firstOccurrences _) cs
      (fun k hk => (mem_firstOccurrences _ k).2 hk)]
    have h2 : (fun c : Customer => c.motifList.length) = reportCount :=
      funext motifList_length
    rw [h2]
    congr 2
    apply List.filter_congr
    intro c _
    unfold Customer.key
    cases hn : c.number with
    | none => rfl
    | some p =>
      by_cases hp : p = ""
      · subst hp; rfl
      · simp [hp]

/-- The grouping of the three scenario reports is complete: two groups, three reports. -/
theorem fetchCustomers_groups_complete_witness :
    ((fetchCustomers scenarioCustomers).phoneGroups.map (fun g => g.number)).Nodup
    ∧ totalReports (fetchCustomers scenarioCustomers).phoneGroups =
        ((scenarioCustomers.filter
          (fun c => c.number.isSome && c.number != some "")).map reportCount).sum :=
  (fetchCustomers_groups_complete scenarioCustomers (by
    intro c hc n hn
    simp only [scenarioCustomers, List.mem_cons, List.mem_singleton, List.not_mem_nil,
      or_false] at hc
    rcases hc with rfl | rfl | rfl <;>
      · simp only [scenarioReport, Option.some.injEq] at hn
        subst hn
        decide)).2

/-- C1 fails on a record whose number is "constructor": `phoneMap["constructor"]`
reads the inherited `Object` function, `.names.add` raises, and the `catch` branch
stores no group at all, so the number is omitted and the one report is not counted. -/
theorem fetchCustomers_constructor :
    (fetchCustomers constructorCustomers).phoneGroups = []
    ∧ "constructor" ∉ (fetchCustomers constructorCustomers).phoneGroups.map (fun g => g.number)
    ∧ totalReports (fetchCustomers constructorCustomers).phoneGroups = 0
    ∧ ((constructorCustomers.filter
          (fun c => c.number.isSome && c.number != some "")).map reportCount).sum = 1
    ∧ (fetchCustomers constructorCustomers).error = "فشل في جلب البيانات" := by
  decide

/-! ## Order of the groups -/

/-- Inserting into a list keeps a pairwise relation that holds from the new item to
every old item, and from every old item that the new item is moved behind. -/
theorem pairwise_orderedInsert {α : Type} (r : α → α → Prop) [DecidableRel r]
    (P : α → α → Prop) (x : α) (l : List α) (hl : l.Pairwise P)
    (h1 : ∀ b ∈ l, P x b) (h2 : ∀ b ∈ l, ¬ r x b → P b x) :
    (l.orderedInsert r x).Pairwise P := by
  induction l with
  | nil => simp
  | cons b l ih =>
    rw [List.orderedInsert]
    by_cases hr : r x b
    · rw [if_pos hr]
      exact List.Pairwise.cons h1 hl
    · rw [if_neg hr]
      rw [List.pairwise_cons] at hl ⊢
      refine ⟨?_, ih hl.2 (fun y hy => h1 y (List.mem_cons_of_mem _ hy))
        (fun y hy => h2 y (List.mem_cons_of_mem _ hy))⟩
      intro y hy
      rcases (List.mem_orderedInsert r).1 hy with rfl | hyl
      · exact h2 b (List.mem_cons_self _ _) hr
      · exact hl.1 y hyl

/-- Stability of the sort: two items that the comparison does not force apart keep
the relative order they had before. -/
theorem pairwise_insertionSort {α : Type} (r : α → α → Prop) [DecidableRel r]
    (Q : α → α → Prop) (l : List α) (hl : l.Pairwise Q) :
    (l.insertionSort r).Pairwise (fun a b => r b a → Q a b) := by
  induction l with
  | nil => simp
  | cons x l ih =>
    rw [List.pairwise_cons] at hl
    rw [List.insertionSort]
    apply pairwise_orderedInsert r _ x _ (ih hl.2)
    · intro b hb _
      exact hl.1 b ((List.mem_insertionSort r).1 hb)
    · intro b _ hnr hr
      exact absurd hr hnr

/-- The method `sort` with the comparator of `fetchCustomers` orders by non-increasing count. -/
theorem jsSort_compareGroups_sorted (l : List PhoneGroup) :
    (jsSort compareGroups l).Pairwise (fun a b => b.totalComments ≤ a.totalComments) := by
  haveI : IsTotal PhoneGroup (fun a b => compareGroups a b ≤ 0) :=
    ⟨fun a b => by unfold compareGroups; omega⟩
  haveI : IsTrans PhoneGroup (fun a b => compareGroups a b ≤ 0) :=
    ⟨fun a b c => by unfold compareGroups; omega⟩
  have h := List.sorted_insertionSort (fun a b : PhoneGroup => compareGroups a b ≤ 0) l
  unfold jsSort
  refine List.Pairwise.imp ?_ h
  intro a b hab
  unfold compareGroups at hab
  omega

/-- The distinct truthy numbers are ordered by the position of their first record. -/
theorem pairwise_firstIndex (cs : List Customer) :
    (firstOccurrences (validNumbers cs)).Pairwise
      (fun a b => firstIndex cs a < firstIndex cs b) := by
  induction cs with
  | nil => simp [validNumbers, firstOccurrences]
  | cons c cs ih =>
    have hshift : ∀ k, c.number ≠ some k →
        firstIndex (c :: cs) k = firstIndex cs k + 1 := by
      intro k hk
      unfold firstIndex
      rw [List.findIdx_cons]
      have hb : (c.number == some k) = false := by
        rw [beq_eq_false_iff_ne]; exact hk
      rw [hb]
      rfl
    cases hkey : c.key with
    | none =>
      have hV : validNumbers (c :: cs) = validNumbers cs := by
        simp [validNumbers, List.filterMap_cons, hkey]
      rw [hV]
      refine List.Pairwise.imp_of_mem ?_ ih
      intro a b ha hb hab
      have hne : ∀ k ∈ firstOccurrences (validNumbers cs), c.number ≠ some k := by
        intro k hk hn
        have hk' := (mem_validNumbers cs k).1 ((mem_firstOccurrences _ k).1 hk)
        unfold Customer.key at hkey
        rw [hn] at hkey
        simp [hk'.1] at hkey
      rw [hshift a (hne a ha), hshift b (hne b hb)]
      omega
    | some x =>
      have hV : validNumbers (c :: cs) = x :: validNumbers cs := by
        simp [validNumbers, List.filterMap_cons, hkey]
      have hcx : c.number = some x := by
        unfold Customer.key at hkey
        cases hn : c.number with
        | none => rw [hn] at hkey; exact absurd hkey (by simp)
        | some p =>
          rw [hn] at hkey
          by_cases hp : (p == "") = true
          · simp [hp] at hkey
          · simp only [hp, if_false, Option.some.injEq, Bool.false_eq_true] at hkey
            rw [hkey]
      rw [hV, firstOccurrences, List.pairwise_cons]
      have hx0 : firstIndex (c :: cs) x = 0 := by
        unfold firstIndex
        rw [List.findIdx_cons]
        simp [hcx]
      constructor
      · intro b hb
        have hbx : b ≠ x := by
          have := (List.mem_filter.1 hb).2
          simpa using this
        have hcb : c.number ≠ some b := by
          rw [hcx]; intro h; exact hbx (Option.some.inj h).symm
        rw [hx0, hshift b hcb]
        omega
      · refine List.Pairwise.imp_of_mem ?_ (ih.sublist (List.filter_sublist _))
        intro a b ha hb hab
        have hne : ∀ k ∈ (firstOccurrences (validNumbers cs)).filter (fun y => y != x),
            c.number ≠ some k := by
          intro k hk
          have hkx : k ≠ x := by
            have := (List.mem_filter.1 hk).2
            simpa using this
          rw [hcx]; intro h; exact hkx (Option.some.inj h).symm
        rw [hshift a (hne a ha), hshift b (hne b hb)]
        omega

/-- The array `Object.values(phoneMap)` lists the group objects in the object order of their keys. -/
theorem objectValues_pairwise (cs : List Customer) :
    (objectValues ((firstOccurrences (validNumbers cs)).map
        (fun k => (k, entryOf k cs)))).Pairwise
      (fun e1 e2 => objectOrder cs e1.number e2.number) := by
  unfold objectValues
  rw [List.pairwise_map]
  have hkey : ∀ p ∈ (firstOccurrences (validNumbers cs)).map (fun k => (k, entryOf k cs)),
      p.2.number = p.1 := by
    intro p hp
    obtain ⟨k, _, rfl⟩ := List.mem_map.1 hp
    exact number_entryOf k cs
  rw [List.pairwise_append]
  refine ⟨?_, ?_, ?_⟩
  · haveI : IsTotal (String × PhoneEntry)
        (fun p q => (arrayIndex p.1).getD 0 ≤ (arrayIndex q.1).getD 0) :=
      ⟨fun p q => Nat.le_total _ _⟩
    haveI : IsTrans (String × PhoneEntry)
        (fun p q => (arrayIndex p.1).getD 0 ≤ (arrayIndex q.1).getD 0) :=
      ⟨fun p q r h1 h2 => Nat.le_trans h1 h2⟩
    have hs := List.sorted_insertionSort
      (fun p q : String × PhoneEntry => (arrayIndex p.1).getD 0 ≤ (arrayIndex q.1).getD 0)
      (((firstOccurrences (validNumbers cs)).map (fun k => (k, entryOf k cs))).filter
        (fun p => (arrayIndex p.1).isSome))
    refine List.Pairwise.imp_of_mem ?_ hs
    intro p q hp hq hpq
    have hp' := List.mem_filter.1 ((List.mem_insertionSort _).1 hp)
    have hq' := List.mem_filter.1 ((List.mem_insertionSort _).1 hq)
    rw [hkey p hp'.1, hkey q hq'.1]
    unfold objectOrder
    obtain ⟨i, hi⟩ := Option.isSome_iff_exists.1 hp'.2
    obtain ⟨j, hj⟩ := Option.isSome_iff_exists.1 hq'.2
    rw [hi, hj] at hpq
    rw [hi, hj]
    exact hpq
  · have hbase : ((firstOccurrences (validNumbers cs)).map
        (fun k => (k, entryOf k cs))).Pairwise
          (fun p q => firstIndex cs p.1 < firstIndex cs q.1) := by
      rw [List.pairwise_map]
      exact pairwise_firstIndex cs
    refine List.Pairwise.imp_of_mem ?_ (hbase.sublist (List.filter_sublist _))
    intro p q hp hq hpq
    have hp' := List.mem_filter.1 hp
    have hq' := List.mem_filter.1 hq
    rw [hkey p hp'.1, hkey q hq'.1]
    unfold objectOrder
    have hi : arrayIndex p.1 = none := by simpa using hp'.2
    have hj : arrayIndex q.1 = none := by simpa using hq'.2
    rw [hi, hj]
    exact hpq
  · intro p hp q hq
    have hp' := List.mem_filter.1 ((List.mem_insertionSort _).1 hp)
    have hq' := List.mem_filter.1 hq
    rw [hkey p hp'.1, hkey q hq'.1]
    unfold objectOrder
    obtain ⟨i, hi⟩ := Option.isSome_iff_exists.1 hp'.2
    have hj : arrayIndex q.1 = none := by simpa using hq'.2
    rw [hi, hj]
    trivial

/-- C2, as stated, fails: with one report on "0600" followed by one report on "700"
the two groups have equal counts, "0600" occurs first in the input, and yet the
group of "700" comes first, because `Object.values` lists the array-index key "700"
before the key "0600". -/
theorem tie_order_counterexample :
    (fetchCustomers tieCustomers).phoneGroups.map (fun g => (g.number, g.totalComments)) =
      [("700", 1), ("0600", 1)]
    ∧ tieCustomers.map (fun c => c.number) = [some "0600", some "700"] := by
  decide

/-- C2, amended. The groups array is in non-increasing order of `totalComments`, and
two groups with equal `totalComments` appear in the order in which `Object.values`
lists their numbers: numbers that are array indices (decimal integers below
`2^32 - 1` written without a leading zero) first, in ascending numeric order, then
all other numbers in the order in which they first occur in the input list. In
particular two tied groups whose numbers are not array indices appear in the order
of first occurrence. -/
theorem phoneGroups_order (cs : List Customer) :
    (fetchCustomers cs).phoneGroups.Pairwise
        (fun a b => b.totalComments ≤ a.totalComments)
    ∧ (fetchCustomers cs).phoneGroups.Pairwise
        (fun a b => a.totalComments = b.totalComments → objectOrder cs a.number b.number)
    ∧ (fetchCustomers cs).phoneGroups.Pairwise
        (fun a b => a.totalComments = b.totalComments →
          arrayIndex a.number = none → arrayIndex b.number = none →
          firstIndex cs a.number < firstIndex cs b.number) := by
  have h2 : (fetchCustomers cs).phoneGroups.Pairwise
      (fun a b => a.totalComments = b.totalComments → objectOrder cs a.number b.number) := by
    rw [phoneGroups_fetchCustomers]
    split
    · unfold groupsOf jsSort
      have hbase := (List.pairwise_map (f := PhoneEntry.toGroup)
        (R := fun g1 g2 : PhoneGroup => objectOrder cs g1.number g2.number)).2
        (objectValues_pairwise cs)
      refine List.Pairwise.imp ?_
        (pairwise_insertionSort (fun a b => compareGroups a b ≤ 0) _ _ hbase)
      intro a b hab htie
      apply hab
      unfold compareGroups
      omega
    · exact List.Pairwise.nil
  refine ⟨?_, h2, ?_⟩
  · rw [phoneGroups_fetchCustomers]
    split
    · exact jsSort_compareGroups_sorted _
    · exact List.Pairwise.nil
  · refine List.Pairwise.imp ?_ h2
    intro a b hab htie ha hb
    have := hab htie
    unfold objectOrder at this
    rw [ha, hb] at this
    exact this

/-- C2 amended, on the reports "0600" then "700". -/
theorem phoneGroups_order_witness :
    (fetchCustomers tieCustomers).phoneGroups.Pairwise
      (fun a b => b.totalComments ≤ a.totalComments) :=
  (phoneGroups_order tieCustomers).1

/-! ## The clean-number banner -/

/-- The first loop collects the distinct truthy numbers. -/
theorem collectNumbers_eq (cs : List Customer) :
    collectNumbers cs = firstOccurrences (validNumbers cs) := by
  have h : ∀ (cs : List Customer) (acc : List String),
      cs.foldl (fun s customer =>
        match customer.number with
        | some phone => if phone != "" then setAdd s phone else s
        | none => s) acc = (validNumbers cs).foldl setAdd acc := by
    intro cs
    induction cs with
    | nil => intro acc; rfl
    | cons c cs ih =>
      intro acc
      rw [List.foldl_cons, ih]
      unfold validNumbers Customer.key
      rw [List.filterMap_cons]
      cases hn : c.number with
      | none => rfl
      | some p =>
        by_cases hp : p = ""
        · subst hp; rfl
        · simp [hp]
  unfold collectNumbers
  rw [h, foldl_setAdd_nil]

/-- The second loop only removes numbers from `noComplaintsSet`. -/
theorem noComplaintsSet_groupLoop (cs : List Customer) (st st1 : AggState)
    (h : groupLoop st cs = some st1) :
    ∀ n ∈ st1.noComplaintsSet, n ∈ st.noComplaintsSet := by
  induction cs generalizing st with
  | nil =>
    simp only [groupLoop, Option.some.injEq] at h
    subst h
    exact fun n hn => hn
  | cons c cs ih =>
    simp only [groupLoop] at h
    cases hs : groupStep st c with
    | none => rw [hs] at h; exact absurd h (by simp)
    | some st2 =>
      rw [hs] at h
      intro n hn
      have h2 := ih st2 h n hn
      have hstep : ∀ phone, ∀ m ∈ noComplaintsStep st.noComplaintsSet phone c,
          m ∈ st.noComplaintsSet := by
        intro phone m hm
        unfold noComplaintsStep setDelete at hm
        split at hm
        · exact (List.mem_filter.1 hm).1
        · exact hm
      cases hk : c.key with
      | none =>
        rw [groupStep_of_key_none st c hk] at hs
        simp only [Option.some.injEq] at hs
        subst hs; exact h2
      | some phone =>
        rw [groupStep_of_key_some st c phone hk] at hs
        split at hs
        · simp only [Option.some.injEq] at hs
          subst hs; exact hstep phone n h2
        · split at hs
          · exact absurd hs (by simp)
          · simp only [Option.some.injEq] at hs
            subst hs; exact hstep phone n h2

/-- Every number in `noComplaintsNumbers` owns a group in `phoneGroups`. -/
theorem group_of_noComplaints (cs : List Customer) (n : String)
    (hn : n ∈ (fetchCustomers cs).noComplaintsNumbers) :
    ∃ g ∈ (fetchCustomers cs).phoneGroups, g.number = n := by
  by_cases hok : ∀ k ∈ validNumbers cs, k ∉ objectPrototypeKeys
  · obtain ⟨st1, hl, heq⟩ := fetchCustomers_of_ok cs hok
    rw [heq] at hn ⊢
    simp only at hn ⊢
    have h0 := noComplaintsSet_groupLoop cs _ st1 hl n hn
    simp only [collectNumbers_eq] at h0
    refine ⟨(entryOf n cs).toGroup, ?_, number_entryOf n cs⟩
    rw [(groupsOf_perm cs).mem_iff]
    exact List.mem_map.2 ⟨n, h0, rfl⟩
  · push_neg at hok
    obtain ⟨k, hk, hproto⟩ := hok
    rw [fetchCustomers_of_raise cs k hk hproto] at hn
    exact absurd hn (by simp)

/-- The search effect keeps every group whose number contains the term. -/
theorem mem_searchEffect_of_number (toLowerCase : String → String) (term : String)
    (gs : List PhoneGroup) (g : PhoneGroup) (hg : g ∈ gs)
    (hinc : includes (toLowerCase g.number) (toLowerCase term) = true) :
    g ∈ searchEffect toLowerCase term gs := by
  unfold searchEffect
  split
  · exact hg
  · rw [List.mem_filter]
    exact ⟨hg, by simp [matchesSearch, hinc]⟩

/-- The banner condition is false for every search term: a number of
`noComplaintsNumbers` that contains the term still owns a group, which the search
effect keeps, so `filteredGroups` is not empty. -/
theorem cleanNumberBanner_eq_false (toLowerCase : String → String) (cs : List Customer)
    (term : String) :
    cleanNumberBanner toLowerCase term
      (searchEffect toLowerCase term (fetchCustomers cs).phoneGroups)
      (fetchCustomers cs).noComplaintsNumbers = false := by
  cases hb : cleanNumberBanner toLowerCase term
      (searchEffect toLowerCase term (fetchCustomers cs).phoneGroups)
      (fetchCustomers cs).noComplaintsNumbers with
  | false => rfl
  | true =>
    exfalso
    unfold cleanNumberBanner at hb
    simp only [Bool.and_eq_true, beq_iff_eq, List.any_eq_true] at hb
    obtain ⟨⟨_, hlen⟩, num, hnum, hinc⟩ := hb
    obtain ⟨g, hg, hgn⟩ := group_of_noComplaints cs num hnum
    have hmem := mem_searchEffect_of_number toLowerCase term _ g hg (by rw [hgn]; exact hinc)
    rw [List.length_eq_zero] at hlen
    rw [hlen] at hmem
    exact absurd hmem (by simp)

/-- C4 fails. For every customer list and every number `n` of `noComplaintsNumbers`,
searching `n` finds the group of `n` (a group is created for every record with a
number, also when it carries no report), so `filteredGroups` is not empty and the
banner condition is false. -/
theorem cleanNumberBanner_false_of_noComplaints (toLowerCase : String → String)
    (cs : List Customer) (n : String)
    (hn : n ∈ (fetchCustomers cs).noComplaintsNumbers) :
    (∃ g ∈ searchEffect toLowerCase n (fetchCustomers cs).phoneGroups, g.number = n)
    ∧ cleanNumberBanner toLowerCase n
        (searchEffect toLowerCase n (fetchCustomers cs).phoneGroups)
        (fetchCustomers cs).noComplaintsNumbers = false := by
  refine ⟨?_, cleanNumberBanner_eq_false toLowerCase cs n⟩
  obtain ⟨g, hg, hgn⟩ := group_of_noComplaints cs n hn
  exact ⟨g, mem_searchEffect_of_number toLowerCase n _ g hg
    (by rw [hgn]; exact includes_self _), hgn⟩

/-- C4 on the single record "0700" without reports, searched by "0700": the number is
in `noComplaintsNumbers`, the search returns its group, and the banner is off. -/
theorem cleanNumberBanner_false_of_noComplaints_witness :
    "0700" ∈ (fetchCustomers cleanCustomers).noComplaintsNumbers
    ∧ (∃ g ∈ searchEffect asciiToLowerCase "0700" (fetchCustomers cleanCustomers).phoneGroups,
        g.number = "0700")
    ∧ cleanNumberBanner asciiToLowerCase "0700"
        (searchEffect asciiToLowerCase "0700" (fetchCustomers cleanCustomers).phoneGroups)
        (fetchCustomers cleanCustomers).noComplaintsNumbers = false :=
  ⟨by decide,
   cleanNumberBanner_false_of_noComplaints asciiToLowerCase cleanCustomers "0700" (by decide)⟩

/-- C4 at the failing input: one record on "0700" with an empty `motifs` array. The
number is in `noComplaintsNumbers`, but `phoneGroups` holds a group for it with zero
comments; searching "0700" returns that group and the banner condition is false. -/
theorem cleanNumberBanner_off_for_clean_number :
    (fetchCustomers cleanCustomers).noComplaintsNumbers = ["0700"]
    ∧ (fetchCustomers cleanCustomers).phoneGroups.map (fun g => (g.number, g.totalComments)) =
        [("0700", 0)]
    ∧ (searchEffect asciiToLowerCase "0700" (fetchCustomers cleanCustomers).phoneGroups).map
        (fun g => g.number) = ["0700"]
    ∧ cleanNumberBanner asciiToLowerCase "0700"
        (searchEffect asciiToLowerCase "0700" (fetchCustomers cleanCustomers).phoneGroups)
        (fetchCustomers cleanCustomers).noComplaintsNumbers = false := by
  decide

/-! ## Raising and malformed records -/

/-- The `try` block raises exactly when some truthy number names a member of
`Object.prototype`. -/
theorem aggregate_eq_none_iff (cs : List Customer) :
    aggregate cs = none ↔ ∃ k ∈ validNumbers cs, k ∈ objectPrototypeKeys := by
  unfold aggregate
  constructor
  · intro h
    by_contra hno
    push_neg at hno
    obtain ⟨st1, hl⟩ := groupLoop_isSome cs
      { phoneMap := [], noComplaintsSet := collectNumbers cs } hno
    rw [hl] at h
    exact absurd h (by simp)
  · rintro ⟨k, hk, hproto⟩
    rw [groupLoop_eq_none cs _ (by simp) k hk hproto]

/-- Records without a truthy number do not influence the loop. -/
theorem groupLoop_filter_key (cs : List Customer) (st : AggState) :
    groupLoop st (cs.filter (fun c => c.key.isSome)) = groupLoop st cs := by
  induction cs generalizing st with
  | nil => rfl
  | cons c cs ih =>
    cases hk : c.key with
    | none =>
      rw [List.filter_cons]
      simp only [hk, Option.isSome_none, Bool.false_eq_true, if_false]
      rw [ih]
      simp only [groupLoop, groupStep_of_key_none st c hk]
    | some phone =>
      rw [List.filter_cons]
      simp only [hk, Option.isSome_some, if_true]
      simp only [groupLoop]
      cases groupStep st c with
      | none => rfl
      | some st2 => exact ih st2

/-- Records without a truthy number contribute no number. -/
theorem validNumbers_filter_key (cs : List Customer) :
    validNumbers (cs.filter (fun c => c.key.isSome)) = validNumbers cs := by
  unfold validNumbers
  induction cs with
  | nil => rfl
  | cons c cs ih =>
    cases hk : c.key with
    | none => simp [List.filter_cons, List.filterMap_cons, hk, ih]
    | some phone => simp [List.filter_cons, List.filterMap_cons, hk, ih]

/-- Records with an empty or missing number appear in no group and add to no count:
dropping them from the input changes neither the groups nor the clean numbers. -/
theorem fetchCustomers_filter_key (cs : List Customer) :
    (fetchCustomers (cs.filter (fun c => c.key.isSome))).phoneGroups =
        (fetchCustomers cs).phoneGroups
    ∧ (fetchCustomers (cs.filter (fun c => c.key.isSome))).noComplaintsNumbers =
        (fetchCustomers cs).noComplaintsNumbers := by
  have hagg : aggregate (cs.filter (fun c => c.key.isSome)) = aggregate cs := by
    unfold aggregate
    rw [collectNumbers_eq, collectNumbers_eq, validNumbers_filter_key, groupLoop_filter_key]
  by_cases hnil : cs.filter (fun c => c.key.isSome) = []
  · -- only records without a number: nothing is grouped either way
    have hV : validNumbers cs = [] := by
      rw [← validNumbers_filter_key, hnil]; rfl
    have hok : ∀ k ∈ validNumbers cs, k ∉ objectPrototypeKeys := by
      rw [hV]; intro k hk; exact absurd hk (by simp)
    obtain ⟨st1, hl, heq⟩ := fetchCustomers_of_ok cs hok
    have hno := noComplaintsSet_groupLoop cs _ st1 hl
    have hst : st1.noComplaintsSet = [] := by
      apply List.eq_nil_iff_forall_not_mem.2
      intro n hn
      have := hno n hn
      simp only [collectNumbers_eq, hV, firstOccurrences] at this
      exact absurd this (by simp)
    rw [hnil, heq, hst]
    simp only [groupsOf, hV, firstOccurrences]
    constructor <;> rfl
  · have hne : cs ≠ [] := by
      rintro rfl; exact hnil rfl
    have h1 : 0 < (cs.filter (fun c => c.key.isSome)).length :=
      List.length_pos.2 hnil
    have h2 : 0 < cs.length := List.length_pos.2 hne
    unfold fetchCustomers
    simp only [gt_iff_lt, h1, h2, if_true, hagg, and_self]

/-- Replacing `motifs` by the counted array keeps the counted reports. -/
theorem motifList_withMotifArray (c : Customer) :
    c.withMotifArray.motifList = c.motifList := rfl

/-- Replacing `motifs` by the counted array keeps what a record adds to its group. -/
theorem addCustomer_withMotifArray (c : Customer) (e : PhoneEntry) :
    addCustomer c.withMotifArray e = addCustomer c e := by
  unfold addCustomer Customer.withMotifArray Customer.motifList Customer.displayName
  cases hm : c.motifs <;> by_cases h : truthy c.nom = true <;> simp [h]

/-- The loop treats a missing or non-array `motifs` value as the empty array. -/
theorem groupStep_withMotifArray (st : AggState) (c : Customer) :
    groupStep st c.withMotifArray = groupStep st c := by
  have hkey : c.withMotifArray.key = c.key := rfl
  cases hk : c.key with
  | none =>
    rw [groupStep_of_key_none st c hk, groupStep_of_key_none st _ (hkey.trans hk)]
  | some phone =>
    rw [groupStep_of_key_some st c phone hk,
      groupStep_of_key_some st _ phone (hkey.trans hk)]
    have hadd : addCustomer c.withMotifArray = addCustomer c :=
      funext (addCustomer_withMotifArray c)
    have hfresh : freshEntry phone c.withMotifArray = freshEntry phone c := rfl
    have hno : ∀ s, noComplaintsStep s phone c.withMotifArray = noComplaintsStep s phone c :=
      fun s => rfl
    rw [hadd, hfresh, hno]

/-- The loop treats a missing or non-array `motifs` value as the empty array, for
every record of the list. -/
theorem groupLoop_withMotifArray (cs : List Customer) (st : AggState) :
    groupLoop st (cs.map Customer.withMotifArray) = groupLoop st cs := by
  induction cs generalizing st with
  | nil => rfl
  | cons c cs ih =>
    simp only [List.map_cons, groupLoop, groupStep_withMotifArray]
    cases groupStep st c with
    | none => rfl
    | some st2 => exact ih st2

/-- A missing or non-array `motifs` value is treated as an empty list of reports. -/
theorem fetchCustomers_withMotifArray (cs : List Customer) :
    fetchCustomers (cs.map Customer.withMotifArray) = fetchCustomers cs := by
  have hnum : ∀ cs : List Customer, collectNumbers (cs.map Customer.withMotifArray) =
      collectNumbers cs := by
    intro cs
    unfold collectNumbers
    rw [List.foldl_map]
    rfl
  unfold fetchCustomers aggregate
  rw [hnum, groupLoop_withMotifArray, List.length_map]

/-- C11 fails: a single record whose number is any of the twelve member names of
`Object.prototype` ("constructor", "toString", "__proto__", ...) makes the `try` block
of the aggregation raise, and `fetchCustomers` ends in its `catch` branch. -/
theorem aggregate_raises_on_prototype_keys :
    objectPrototypeKeys.map (fun k => aggregate [bareCustomer k]) = List.replicate 12 none
    ∧ objectPrototypeKeys.map (fun k => (fetchCustomers [bareCustomer k]).error) =
        List.replicate 12 "فشل في جلب البيانات"
    ∧ aggregate constructorCustomers = none := by
  decide

/-! ## Clean numbers -/

/-- What one record does to `noComplaintsSet`: its number is removed when the record
carries a report. -/
theorem noComplaintsStep_eq_filter (s : List String) (phone : String) (c : Customer) :
    noComplaintsStep s phone c =
      s.filter (fun k => !(k == phone && decide (0 < c.motifList.length))) := by
  unfold noComplaintsStep setDelete
  by_cases h : 0 < c.motifList.length
  · simp only [gt_iff_lt, h, if_true, decide_True, Bool.and_true]
    apply List.filter_congr
    intro k _
    simp [bne]
  · simp only [gt_iff_lt, h, if_false, decide_False, Bool.and_false, Bool.not_false]
    exact (List.filter_true s).symm

/-- The `noComplaintsSet` after the loop: the numbers of the initial set none of
whose records carries a report. -/
theorem noComplaintsSet_groupLoop_eq (cs : List Customer) (st st1 : AggState)
    (h : groupLoop st cs = some st1) :
    st1.noComplaintsSet =
      st.noComplaintsSet.filter
        (fun k => (recordsOf k cs).all (fun c => decide (c.motifList.length = 0))) := by
  induction cs generalizing st with
  | nil =>
    simp only [groupLoop, Option.some.injEq] at h
    subst h
    simp [recordsOf]
  | cons c cs ih =>
    simp only [groupLoop] at h
    cases hs : groupStep st c with
    | none => rw [hs] at h; exact absurd h (by simp)
    | some st2 =>
      rw [hs] at h
      rw [ih st2 h]
      cases hk : c.key with
      | none =>
        rw [groupStep_of_key_none st c hk] at hs
        simp only [Option.some.injEq] at hs
        subst hs
        apply List.filter_congr
        intro k _
        simp [recordsOf, List.filter_cons, hk]
      | some phone =>
        have hno : st2.noComplaintsSet = noComplaintsStep st.noComplaintsSet phone c := by
          rw [groupStep_of_key_some st c phone hk] at hs
          split at hs
          · simp only [Option.some.injEq] at hs
            subst hs; rfl
          · split at hs
            · exact absurd hs (by simp)
            · simp only [Option.some.injEq] at hs
              subst hs; rfl
        rw [hno, noComplaintsStep_eq_filter, List.filter_filter]
        apply List.filter_congr
        intro k _
        by_cases hkp : k = phone
        · subst hkp
          simp only [recordsOf, List.filter_cons, hk, beq_self_eq_true, if_true,
            List.all_cons, Bool.true_and]
          by_cases hz : c.motifList.length = 0
          · simp [hz]
          · have : 0 < c.motifList.length := Nat.pos_of_ne_zero hz
            simp [hz, this]
        · have hne : ¬ (phone = k) := fun h => hkp h.symm
          simp [recordsOf, List.filter_cons, hk, hkp, hne]

/-- The clean numbers stored by `fetchCustomers` when nothing raises. -/
theorem mem_noComplaintsNumbers_of_ok (cs : List Customer)
    (hok : ∀ k ∈ validNumbers cs, k ∉ objectPrototypeKeys) (n : String) :
    n ∈ (fetchCustomers cs).noComplaintsNumbers ↔
      n ∈ validNumbers cs ∧ ∀ c ∈ recordsOf n cs, c.motifList.length = 0 := by
  obtain ⟨st1, hl, heq⟩ := fetchCustomers_of_ok cs hok
  rw [heq]
  simp only
  rw [noComplaintsSet_groupLoop_eq cs _ st1 hl]
  simp only [collectNumbers_eq, List.mem_filter, mem_firstOccurrences, List.all_eq_true,
    decide_eq_true_eq]

/-- A sum of natural numbers is zero exactly when every summand is. -/
theorem sum_map_eq_zero_iff {α : Type} (l : List α) (f : α → Nat) :
    (l.map f).sum = 0 ↔ ∀ a ∈ l, f a = 0 := by
  induction l with
  | nil => simp
  | cons a l ih => simp [ih]

/-- A number is stored as clean exactly when its group has no comment; this holds on
every input, also when the aggregation raises (then there is neither). -/
theorem mem_noComplaintsNumbers_iff_group (cs : List Customer) (n : String) :
    n ∈ (fetchCustomers cs).noComplaintsNumbers ↔
      ∃ g ∈ (fetchCustomers cs).phoneGroups, g.number = n ∧ g.totalComments = 0 := by
  by_cases hok : ∀ k ∈ validNumbers cs, k ∉ objectPrototypeKeys
  · rw [mem_noComplaintsNumbers_of_ok cs hok, phoneGroups_fetchCustomers, if_pos hok]
    constructor
    · rintro ⟨hn, hz⟩
      refine ⟨(entryOf n cs).toGroup, ?_, number_entryOf n cs, ?_⟩
      · rw [(groupsOf_perm cs).mem_iff]
        exact List.mem_map.2 ⟨n, (mem_firstOccurrences _ n).2 hn, rfl⟩
      · show (entryOf n cs).totalComments = 0
        rw [totalComments_entryOf, sum_map_eq_zero_iff]
        exact hz
    · rintro ⟨g, hg, hgn, hz⟩
      rw [(groupsOf_perm cs).mem_iff] at hg
      obtain ⟨k, hk, rfl⟩ := List.mem_map.1 hg
      have hkn : k = n := (number_entryOf k cs).symm.trans hgn
      subst hkn
      refine ⟨(mem_firstOccurrences _ k).1 hk, ?_⟩
      have hz' : (entryOf k cs).totalComments = 0 := hz
      rw [totalComments_entryOf, sum_map_eq_zero_iff] at hz'
      exact hz'
  · push_neg at hok
    obtain ⟨k, hk, hproto⟩ := hok
    rw [fetchCustomers_of_raise cs k hk hproto]
    simp

/-- As long as no number names a member of `Object.prototype`, a number is stored as
clean exactly when it is the non-empty number of some record and the records with
that number carry no report in total. -/
theorem mem_noComplaintsNumbers_iff (cs : List Customer)
    (hsafe : ∀ c ∈ cs, ∀ n, c.number = some n → n ∉ objectPrototypeKeys) (n : String) :
    n ∈ (fetchCustomers cs).noComplaintsNumbers ↔
      (n ≠ "" ∧ (∃ c ∈ cs, c.number = some n)
        ∧ ((cs.filter (fun c => c.number == some n)).map reportCount).sum = 0) := by
  have hok : ∀ k ∈ validNumbers cs, k ∉ objectPrototypeKeys := by
    intro k hk
    obtain ⟨_, c, hc, hn⟩ := (mem_validNumbers cs k).1 hk
    exact hsafe c hc k hn
  rw [mem_noComplaintsNumbers_of_ok cs hok, mem_validNumbers]
  constructor
  · rintro ⟨⟨hne, hex⟩, hz⟩
    refine ⟨hne, hex, ?_⟩
    rw [← recordsOf_eq_filter cs n hne, sum_map_eq_zero_iff]
    intro c hc
    rw [← motifList_length]
    exact hz c hc
  · rintro ⟨hne, hex, hz⟩
    refine ⟨⟨hne, hex⟩, ?_⟩
    rw [← recordsOf_eq_filter cs n hne, sum_map_eq_zero_iff] at hz
    intro c hc
    rw [motifList_length]
    exact hz c hc

/-- The clean numbers of the scenario with a clean record on "0700". -/
theorem mem_noComplaintsNumbers_iff_witness :
    "0700" ∈ (fetchCustomers cleanCustomers).noComplaintsNumbers ↔
      ("0700" ≠ "" ∧ (∃ c ∈ cleanCustomers, c.number = some "0700")
        ∧ ((cleanCustomers.filter (fun c => c.number == some "0700")).map
            reportCount).sum = 0) :=
  mem_noComplaintsNumbers_iff cleanCustomers (by
    intro c hc n hn
    simp only [cleanCustomers, List.mem_singleton] at hc
    subst hc
    simp only [Option.some.injEq] at hn
    subst hn
    decide) "0700"

/-- C12 fails: in the list of a clean record on "0700" followed by a record on
"constructor" the aggregation raises and the `catch` branch stores no clean number,
although "0700" is the non-empty number of a record and its records carry zero
reports. -/
theorem noComplaintsNumbers_lost_on_raise :
    (fetchCustomers mixedCustomers).noComplaintsNumbers = []
    ∧ mixedCustomers.map (fun c => c.number) = [some "0700", some "constructor"]
    ∧ ((mixedCustomers.filter (fun c => c.number == some "0700")).map reportCount).sum = 0
    ∧ (fetchCustomers mixedCustomers).phoneGroups = [] := by
  decide

/-- C13 fails: the single record on "0700" with an empty `motifs` array is stored as
a group of `phoneGroups` with `totalComments = 0` (and also as a clean number). -/
theorem phoneGroups_has_empty_group :
    (fetchCustomers cleanCustomers).phoneGroups =
      [ { number := "0700", names := "Ali", comments := [], totalComments := 0,
          id := .ofCustomer 1 } ]
    ∧ (fetchCustomers cleanCustomers).noComplaintsNumbers = ["0700"]
    ∧ (fetchCustomers cleanCustomers).phoneGroups.map (fun g => decide (1 ≤ g.totalComments)) =
        [false] := by
  decide

/-! ## `PhoneDetails`: clean-number flag and comment controls -/

/-- The number of comments collected from a list on which the loop does not raise. -/
theorem length_collectComments (now : String) (user : Option SessionUser) (phone : String)
    (cs : List Customer) (l : List DetailsComment)
    (h : collectComments now user phone cs = some l) :
    l.length = ((cs.filter (fun c => c.number == some phone)).map reportCount).sum := by
  induction cs generalizing l with
  | nil =>
    simp only [collectComments, Option.some.injEq] at h
    subst h; rfl
  | cons c cs ih =>
    simp only [collectComments] at h
    cases h1 : commentsOfCustomer now user phone c with
    | none => rw [h1] at h; exact absurd h (by simp)
    | some pushed =>
      rw [h1] at h
      cases h2 : collectComments now user phone cs with
      | none => rw [h2] at h; exact absurd h (by simp)
      | some more =>
        rw [h2] at h
        simp only [Option.some.injEq] at h
        subst h
        rw [List.length_append, ih more h2]
        unfold commentsOfCustomer at h1
        by_cases hn : (c.number == some phone) = true
        · rw [if_pos hn] at h1
          rw [List.filter_cons, if_pos hn, List.map_cons, List.sum_cons]
          congr 1
          unfold reportCount
          cases hm : c.motifs with
          | missing => rw [hm] at h1; simp only [Option.some.injEq] at h1; subst h1; rfl
          | nonArray => rw [hm] at h1; exact absurd h1 (by simp)
          | array ms =>
            rw [hm] at h1
            simp only [Option.some.injEq] at h1
            subst h1
            simp
        · rw [if_neg hn] at h1
          simp only [Option.some.injEq] at h1
          subst h1
          rw [List.filter_cons, if_neg hn]
          simp

/-- The loop of `fetchComments` does not raise when no record of the looked-up number
has a truthy non-array `motifs` value. -/
theorem collectComments_isSome (now : String) (user : Option SessionUser) (phone : String)
    (cs : List Customer)
    (h : ∀ c ∈ cs, c.number = some phone → c.motifs ≠ .nonArray) :
    ∃ l, collectComments now user phone cs = some l := by
  induction cs with
  | nil => exact ⟨[], rfl⟩
  | cons c cs ih =>
    obtain ⟨more, hmore⟩ := ih (fun d hd => h d (List.mem_cons_of_mem _ hd))
    have hc := h c (List.mem_cons_self _ _)
    have h1 : ∃ pushed, commentsOfCustomer now user phone c = some pushed := by
      unfold commentsOfCustomer
      by_cases hn : (c.number == some phone) = true
      · rw [if_pos hn]
        have hne := hc (by simpa using hn)
        cases hm : c.motifs with
        | missing => exact ⟨_, rfl⟩
        | nonArray => exact absurd hm hne
        | array ms => exact ⟨_, rfl⟩
      · rw [if_neg hn]; exact ⟨_, rfl⟩
    obtain ⟨pushed, hp⟩ := h1
    exact ⟨pushed ++ more, by simp only [collectComments, hp, hmore]⟩

/-- C14, as stated, fails: for the number "0999", which appears in no record of the
successfully fetched scenario data, the flag is true; it is also true in the initial
state and after a failed first fetch. -/
theorem hasNoComplaints_unknown_number :
    scenarioCustomers.map (fun c => c.number) = [some "0600", some "0600", some "0611"]
    ∧ hasNoComplaints
        (fetchComments noDate "" none "0999" (some scenarioCustomers) DetailsState.initial) = true
    ∧ hasNoComplaints DetailsState.initial = true
    ∧ hasNoComplaints (fetchComments noDate "" none "0999" none DetailsState.initial) = true := by
  decide

/-- C14, amended. After a successful fetch (the request succeeded and no record of the
looked-up number has a truthy non-array `motifs`), `hasNoComplaints` is true exactly
when the records whose number is the looked-up number carry zero reports in total,
whether or not such a record exists; in particular it is true for a number that does
not appear in the data. -/
theorem hasNoComplaints_after_fetch (parseDate : String → Option Int) (now : String)
    (user : Option SessionUser) (phone : String) (cs : List Customer) (st : DetailsState)
    (hok : ∀ c ∈ cs, c.number = some phone → c.motifs ≠ .nonArray) :
    (hasNoComplaints (fetchComments parseDate now user phone (some cs) st) = true ↔
        ((cs.filter (fun c => c.number == some phone)).map reportCount).sum = 0)
    ∧ ((∀ c ∈ cs, c.number ≠ some phone) →
        hasNoComplaints (fetchComments parseDate now user phone (some cs) st) = true) := by
  obtain ⟨l, hl⟩ := collectComments_isSome now user phone cs hok
  have hlen := length_collectComments now user phone cs l hl
  have hflag : hasNoComplaints (fetchComments parseDate now user phone (some cs) st) = true ↔
      ((cs.filter (fun c => c.number == some phone)).map reportCount).sum = 0 := by
    unfold hasNoComplaints fetchComments
    simp only [hl, beq_iff_eq]
    rw [(jsSort_perm _ l).length_eq, hlen]
  refine ⟨hflag, ?_⟩
  intro hnone
  rw [hflag]
  have : cs.filter (fun c => c.number == some phone) = [] := by
    rw [List.filter_eq_nil_iff]
    intro c hc
    simpa using hnone c hc
  rw [this]; rfl

/-- C14 amended, on the scenario data: "0611" has one report, "0999" none. -/
theorem hasNoComplaints_after_fetch_witness :
    (hasNoComplaints
        (fetchComments noDate "" none "0611" (some scenarioCustomers) DetailsState.initial) = true ↔
      ((scenarioCustomers.filter (fun c => c.number == some "0611")).map reportCount).sum = 0)
    ∧ hasNoComplaints
        (fetchComments noDate "" none "0999" (some scenarioCustomers) DetailsState.initial) = true :=
  ⟨(hasNoComplaints_after_fetch noDate "" none "0611" scenarioCustomers DetailsState.initial
      (by decide)).1,
   (hasNoComplaints_after_fetch noDate "" none "0999" scenarioCustomers DetailsState.initial
      (by decide)).2 (by decide)⟩

/-- C16. `canModifyComment` is truthy exactly when a user is logged in and the user's
id equals the comment's `userId` or the user is an admin; the save, cancel, edit and
delete controls of a comment are rendered only in that case. -/
theorem canModifyComment_iff (user : Option SessionUser) (editingId : Option Nat)
    (comment : DetailsComment) :
    (canModifyComment user comment = true ↔
        ∃ u, user = some u ∧ (u.id = comment.userId ∨ u.isAdmin = true))
    ∧ (commentControls user editingId comment ≠ [] ↔ canModifyComment user comment = true)
    ∧ (∀ control ∈ commentControls user editingId comment,
        ∃ u, user = some u ∧ (u.id = comment.userId ∨ u.isAdmin = true)) := by
  have h1 : canModifyComment user comment = true ↔
      ∃ u, user = some u ∧ (u.id = comment.userId ∨ u.isAdmin = true) := by
    cases user with
    | none => simp [canModifyComment]
    | some u => simp [canModifyComment]
  have h2 : commentControls user editingId comment ≠ [] ↔
      canModifyComment user comment = true := by
    unfold commentControls
    by_cases hc : canModifyComment user comment = true
    · simp only [hc, if_true, iff_true]
      split <;> simp
    · simp [hc]
  refine ⟨h1, h2, ?_⟩
  intro control hcontrol
  apply h1.1
  apply h2.1
  intro hnil
  rw [hnil] at hcontrol
  exact absurd hcontrol (by simp)

/-! ## Report submission -/

/-- C15, as stated, fails: for a verified user with a description and a selected
evidence file, a failed upload (`null`) makes both handlers notify the user, reset
their flags and return; `api.addCustomer` is not called. -/
theorem upload_failure_aborts_example :
    handleAddComment (some verifiedUser) "0600" none .ok filledCommentForm =
      [.setSubmitting true, .setUploadingEvidence true, .uploadImage evidenceFile,
       .alert "فشل تحميل صورة الإثبات. يمكنك الإضافة بدون صورة.",
       .setSubmitting false, .setUploadingEvidence false]
    ∧ AddComment.handleSubmit (some verifiedUser) none .ok filledAddComment =
      [.setError "", .setSuccess "", .setLoading true, .setUploadingEvidence true,
       .uploadImage evidenceFile,
       .setError "فشل تحميل صورة الإثبات. يمكنك الإضافة بدون صورة.",
       .setLoading false, .setUploadingEvidence false] := by
  decide

/-- C15, amended. For a verified user with an id, a non-blank description (and, in
`AddComment`, a non-blank number) and a selected evidence file: when the upload
yields no URL, `handleAddComment` and `handleSubmit` notify the user (that the report
can be added without an image), reset their flags and return without calling
`api.addCustomer`. -/
theorem upload_failure_aborts (u : SessionUser) (phone : String)
    (uploadedUrl : Option String) (network : RequestOutcome) (file : UploadFile)
    (form : CommentForm) (st : AddCommentState)
    (hv : u.verified = true) (hid : truthyId u.id = true)
    (hfail : truthy uploadedUrl = false)
    (hcomment : (trim form.newComment == "") = false)
    (hfile : form.selectedEvidenceFile = some file)
    (hnumber : (trim st.formData.number == "") = false)
    (hdescription : (trim st.formData.description == "") = false)
    (hfile2 : st.selectedEvidenceFile = some file) :
    handleAddComment (some u) phone uploadedUrl network form =
      [.setSubmitting true, .setUploadingEvidence true, .uploadImage file,
       .alert "فشل تحميل صورة الإثبات. يمكنك الإضافة بدون صورة.",
       .setSubmitting false, .setUploadingEvidence false]
    ∧ AddComment.handleSubmit (some u) uploadedUrl network st =
      [.setError "", .setSuccess "", .setLoading true, .setUploadingEvidence true,
       .uploadImage file,
       .setError "فشل تحميل صورة الإثبات. يمكنك الإضافة بدون صورة.",
       .setLoading false, .setUploadingEvidence false]
    ∧ (∀ e ∈ handleAddComment (some u) phone uploadedUrl network form, e.isCreate = false)
    ∧ (∀ e ∈ AddComment.handleSubmit (some u) uploadedUrl network st, e.isCreate = false) := by
  have h1 : handleAddComment (some u) phone uploadedUrl network form =
      [.setSubmitting true, .setUploadingEvidence true, .uploadImage file,
       .alert "فشل تحميل صورة الإثبات. يمكنك الإضافة بدون صورة.",
       .setSubmitting false, .setUploadingEvidence false] := by
    simp [handleAddComment, hv, hid, hfail, hcomment, hfile]
  have h2 : AddComment.handleSubmit (some u) uploadedUrl network st =
      [.setError "", .setSuccess "", .setLoading true, .setUploadingEvidence true,
       .uploadImage file,
       .setError "فشل تحميل صورة الإثبات. يمكنك الإضافة بدون صورة.",
       .setLoading false, .setUploadingEvidence false] := by
    simp [AddComment.handleSubmit, hv, hid, hfail, hnumber, hdescription, hfile2]
  refine ⟨h1, h2, ?_, ?_⟩
  · rw [h1]; intro e he
    simp only [List.mem_cons, List.mem_singleton, List.not_mem_nil, or_false] at he
    rcases he with rfl | rfl | rfl | rfl | rfl | rfl <;> rfl
  · rw [h2]; intro e he
    simp only [List.mem_cons, List.mem_singleton, List.not_mem_nil, or_false] at he
    rcases he with rfl | rfl | rfl | rfl | rfl | rfl | rfl | rfl <;> rfl

/-- C15 amended, on the filled forms with a failed upload. -/
theorem upload_failure_aborts_witness :
    (∀ e ∈ handleAddComment (some verifiedUser) "0600" none .ok filledCommentForm,
      e.isCreate = false)
    ∧ (∀ e ∈ AddComment.handleSubmit (some verifiedUser) none .ok filledAddComment,
      e.isCreate = false) :=
  (upload_failure_aborts verifiedUser "0600" none .ok evidenceFile filledCommentForm
    filledAddComment (by decide) (by decide) (by decide) (by decide) (by decide) (by decide)
    (by decide) (by decide)).2.2

/-- Every create effect of `handleAddComment` comes from a verified user with an id. -/
theorem handleAddComment_create_guard (user : Option SessionUser) (phone : String)
    (uploadedUrl : Option String) (network : RequestOutcome) (form : CommentForm)
    (e : FormEffect) (he : e ∈ handleAddComment user phone uploadedUrl network form)
    (hc : e.isCreate = true ∨ e.isUpload = true) :
    ∃ u, user = some u ∧ u.verified = true ∧ truthyId u.id = true := by
  cases user with
  | none =>
    simp only [handleAddComment, List.mem_cons, List.mem_singleton, List.not_mem_nil,
      or_false] at he
    rcases he with rfl | rfl <;> simp [FormEffect.isCreate, FormEffect.isUpload] at hc
  | some u =>
    by_cases hv : u.verified = true
    · by_cases hid : truthyId u.id = true
      · exact ⟨u, rfl, hv, hid⟩
      · exfalso
        by_cases ht : (trim form.newComment == "") = true
        · simp only [handleAddComment, hv, ht, Bool.not_true, Bool.false_eq_true, if_false,
            if_true, List.mem_singleton] at he
          subst he
          simp [FormEffect.isCreate, FormEffect.isUpload] at hc
        · simp only [handleAddComment, hv, ht, hid, Bool.not_true, Bool.false_eq_true,
            if_false, Bool.not_false, if_true, List.mem_cons, List.mem_singleton,
            List.not_mem_nil, or_false] at he
          rcases he with rfl | rfl <;> simp [FormEffect.isCreate, FormEffect.isUpload] at hc
    · exfalso
      simp only [handleAddComment, hv, Bool.not_false, if_true, List.mem_cons,
        List.mem_singleton, List.not_mem_nil, or_false] at he
      rcases he with rfl | rfl <;> simp [FormEffect.isCreate, FormEffect.isUpload] at hc

/-- Every create effect of `handleSubmit` comes from a verified user with an id. -/
theorem handleSubmit_create_guard (user : Option SessionUser)
    (uploadedUrl : Option String) (network : RequestOutcome) (st : AddCommentState)
    (e : FormEffect) (he : e ∈ AddComment.handleSubmit user uploadedUrl network st)
    (hc : e.isCreate = true ∨ e.isUpload = true) :
    ∃ u, user = some u ∧ u.verified = true ∧ truthyId u.id = true := by
  cases user with
  | none =>
    simp only [AddComment.handleSubmit, List.mem_singleton] at he
    subst he
    simp [FormEffect.isCreate, FormEffect.isUpload] at hc
  | some u =>
    by_cases hv : u.verified = true
    · by_cases hid : truthyId u.id = true
      · exact ⟨u, rfl, hv, hid⟩
      · exfalso
        simp only [AddComment.handleSubmit, hv, hid, Bool.not_true, Bool.false_eq_true,
          if_false, Bool.not_false, if_true, List.mem_cons, List.mem_singleton,
          List.not_mem_nil, or_false] at he
        rcases he with rfl | rfl <;> simp [FormEffect.isCreate, FormEffect.isUpload] at hc
    · exfalso
      simp only [AddComment.handleSubmit, hv, Bool.not_false, if_true, List.mem_cons,
        List.mem_singleton, List.not_mem_nil, or_false] at he
      rcases he with rfl | rfl <;> simp [FormEffect.isCreate, FormEffect.isUpload] at hc

/-- C17. In `handleAddComment` and `handleSubmit` a call of `api.addCustomer` (or
the request it sends) occurs only if the session user is present, verified and has
an id; when the user is absent or unverified there is neither an upload nor a create
call; and `api.addCustomer` throws without sending a request when the payload has no
`user_id`. -/
theorem create_requires_verified_user (user : Option SessionUser) (phone : String)
    (uploadedUrl : Option String) (network : RequestOutcome) (form : CommentForm)
    (st : AddCommentState) (payload : ReportPayload) :
    (∀ e ∈ handleAddComment user phone uploadedUrl network form, e.isCreate = true →
        ∃ u, user = some u ∧ u.verified = true ∧ truthyId u.id = true)
    ∧ (∀ e ∈ AddComment.handleSubmit user uploadedUrl network st, e.isCreate = true →
        ∃ u, user = some u ∧ u.verified = true ∧ truthyId u.id = true)
    ∧ ((user = none ∨ ∃ u, user = some u ∧ u.verified = false) →
        (∀ e ∈ handleAddComment user phone uploadedUrl network form,
          e.isCreate = false ∧ e.isUpload = false)
        ∧ (∀ e ∈ AddComment.handleSubmit user uploadedUrl network st,
          e.isCreate = false ∧ e.isUpload = false))
    ∧ (truthyId payload.user_id = false →
        (apiAddCustomer payload network).2 = .failed "معرف المستخدم مطلوب"
        ∧ ∀ e ∈ (apiAddCustomer payload network).1, e.isCreate = false) := by
  refine ⟨?_, ?_, ?_, ?_⟩
  · intro e he hc
    exact handleAddComment_create_guard user phone uploadedUrl network form e he (Or.inl hc)
  · intro e he hc
    exact handleSubmit_create_guard user uploadedUrl network st e he (Or.inl hc)
  · intro hguest
    have hno : ¬ ∃ u, user = some u ∧ u.verified = true ∧ truthyId u.id = true := by
      rintro ⟨u, hu, hv, _⟩
      rcases hguest with h | ⟨u', hu', hv'⟩
      · rw [h] at hu; exact absurd hu (by simp)
      · rw [hu'] at hu
        simp only [Option.some.injEq] at hu
        subst hu
        rw [hv] at hv'
        exact absurd hv' (by simp)
    constructor
    · intro e he
      constructor
      · by_contra hc
        exact hno (handleAddComment_create_guard user phone uploadedUrl network form e he
          (Or.inl (by simpa using hc)))
      · by_contra hc
        exact hno (handleAddComment_create_guard user phone uploadedUrl network form e he
          (Or.inr (by simpa using hc)))
    · intro e he
      constructor
      · by_contra hc
        exact hno (handleSubmit_create_guard user uploadedUrl network st e he
          (Or.inl (by simpa using hc)))
      · by_contra hc
        exact hno (handleSubmit_create_guard user uploadedUrl network st e he
          (Or.inr (by simpa using hc)))
  · intro hid
    unfold apiAddCustomer
    simp only [hid, Bool.false_eq_true, if_false, List.mem_singleton, true_and]
    intro e he
    subst he
    rfl

/-- C17 at a guest and at a payload without `user_id`. -/
theorem create_requires_verified_user_witness :
    ((∀ e ∈ handleAddComment none "0600" none .ok filledCommentForm,
        e.isCreate = false ∧ e.isUpload = false)
      ∧ (∀ e ∈ AddComment.handleSubmit none none .ok filledAddComment,
        e.isCreate = false ∧ e.isUpload = false))
    ∧ ((apiAddCustomer
          { number := "0600", nom := "Ali", description := "A", evidence_image := "",
            user_id := .undefined } .ok).2 = .failed "معرف المستخدم مطلوب"
      ∧ ∀ e ∈ (apiAddCustomer
          { number := "0600", nom := "Ali", description := "A", evidence_image := "",
            user_id := .undefined } .ok).1, e.isCreate = false) :=
  ⟨(create_requires_verified_user none "0600" none .ok filledCommentForm filledAddComment
      { number := "0600", nom := "Ali", description := "A", evidence_image := "",
        user_id := .undefined }).2.2.1 (Or.inl rfl),
   (create_requires_verified_user none "0600" none .ok filledCommentForm filledAddComment
      { number := "0600", nom := "Ali", description := "A", evidence_image := "",
        user_id := .undefined }).2.2.2 rfl⟩

/-- The flags of `PhoneDetails` after the `try`/`catch`/`finally` block. -/
theorem after_createFromDetails (u : SessionUser) (phone url : String)
    (network : RequestOutcome) (form form0 : CommentForm) :
    (form0.after (createFromDetails u phone url network form)).submitting = false
    ∧ (form0.after (createFromDetails u phone url network form)).uploadingEvidence =
        form0.uploadingEvidence := by
  unfold createFromDetails apiAddCustomer
  by_cases hid : truthyId u.id = true <;> cases network <;>
    simp [hid, CommentForm.after, CommentForm.apply]

/-- The flags of `AddComment` after the `try`/`catch`/`finally` block. -/
theorem after_createFromForm (u : SessionUser) (url : String)
    (network : RequestOutcome) (st st0 : AddCommentState) :
    (st0.after (createFromForm u url network st)).loading = false
    ∧ (st0.after (createFromForm u url network st)).uploadingEvidence =
        st0.uploadingEvidence := by
  unfold createFromForm apiAddCustomer
  by_cases hid : truthyId u.id = true <;> cases network <;>
    simp [hid, AddCommentState.after, AddCommentState.apply]

/-- Applying the effects of a concatenation. -/
theorem commentForm_after_append (form : CommentForm) (l1 l2 : List FormEffect) :
    form.after (l1 ++ l2) = (form.after l1).after l2 := by
  unfold CommentForm.after
  rw [List.foldl_append]

/-- Applying the effects of a concatenation. -/
theorem addCommentState_after_append (st : AddCommentState) (l1 l2 : List FormEffect) :
    st.after (l1 ++ l2) = (st.after l1).after l2 := by
  unfold AddCommentState.after
  rw [List.foldl_append]

/-- C20. For every session user, every outcome of the upload (a URL or none) and every
outcome of the create request (success or failure): when `handleAddComment` or
`handleSubmit` starts with its flags off (the submit control enabled), the flags
`submitting` / `loading` and `uploadingEvidence` are off again once it has finished. -/
theorem flags_reset_after_submit (user : Option SessionUser) (phone : String)
    (uploadedUrl : Option String) (network : RequestOutcome) (form : CommentForm)
    (st : AddCommentState)
    (h1 : form.submitting = false) (h2 : form.uploadingEvidence = false)
    (h3 : st.loading = false) (h4 : st.uploadingEvidence = false) :
    (form.after (handleAddComment user phone uploadedUrl network form)).submitting = false
    ∧ (form.after (handleAddComment user phone uploadedUrl network form)).uploadingEvidence
        = false
    ∧ (st.after (AddComment.handleSubmit user uploadedUrl network st)).loading = false
    ∧ (st.after (AddComment.handleSubmit user uploadedUrl network st)).uploadingEvidence
        = false := by
  have hA : (form.after (handleAddComment user phone uploadedUrl network form)).submitting
        = false
      ∧ (form.after (handleAddComment user phone uploadedUrl network form)).uploadingEvidence
        = false := by
    cases user with
    | none => simp [handleAddComment, CommentForm.after, CommentForm.apply, h1, h2]
    | some u =>
      by_cases hv : u.verified = true
      swap
      · simp [handleAddComment, hv, CommentForm.after, CommentForm.apply, h1, h2]
      by_cases ht : (trim form.newComment == "") = true
      · simp [handleAddComment, hv, ht, CommentForm.after, CommentForm.apply, h1, h2]
      by_cases hid : truthyId u.id = true
      swap
      · simp [handleAddComment, hv, ht, hid, CommentForm.after, CommentForm.apply, h1, h2]
      cases hf : form.selectedEvidenceFile with
      | none =>
        simp only [handleAddComment, hv, ht, hid, hf, Bool.not_true, Bool.false_eq_true,
          if_false]
        rw [commentForm_after_append]
        have := after_createFromDetails u phone "" network form
          (form.after [.setSubmitting true])
        refine ⟨this.1, this.2.trans ?_⟩
        simp [CommentForm.after, CommentForm.apply, h2]
      | some file =>
        by_cases hu : truthy uploadedUrl = true
        · simp only [handleAddComment, hv, ht, hid, hf, hu, Bool.not_true,
            Bool.false_eq_true, if_false, if_true]
          rw [← List.append_assoc, ← List.append_assoc, commentForm_after_append]
          have := after_createFromDetails u phone (uploadedUrl.getD "") network form
            (form.after (([.setSubmitting true] ++ [.setUploadingEvidence true,
              .uploadImage file]) ++ [.setUploadingEvidence false]))
          refine ⟨this.1, this.2.trans ?_⟩
          simp [CommentForm.after, CommentForm.apply]
        · simp [handleAddComment, hv, ht, hid, hf, hu, CommentForm.after,
            CommentForm.apply]
  have hB : (st.after (AddComment.handleSubmit user uploadedUrl network st)).loading = false
      ∧ (st.after (AddComment.handleSubmit user uploadedUrl network st)).uploadingEvidence
        = false := by
    cases user with
    | none =>
      simp [AddComment.handleSubmit, AddCommentState.after, AddCommentState.apply, h3, h4]
    | some u =>
      by_cases hv : u.verified = true
      swap
      · simp [AddComment.handleSubmit, hv, AddCommentState.after, AddCommentState.apply,
          h3, h4]
      by_cases hid : truthyId u.id = true
      swap
      · simp [AddComment.handleSubmit, hv, hid, AddCommentState.after,
          AddCommentState.apply, h3, h4]
      by_cases hn : (trim st.formData.number == "") = true
      · simp [AddComment.handleSubmit, hv, hid, hn, AddCommentState.after,
          AddCommentState.apply, h3, h4]
      by_cases hd : (trim st.formData.description == "") = true
      · simp [AddComment.handleSubmit, hv, hid, hn, hd, AddCommentState.after,
          AddCommentState.apply, h3, h4]
      cases hf : st.selectedEvidenceFile with
      | none =>
        simp only [AddComment.handleSubmit, hv, hid, hn, hd, hf, Bool.not_true,
          Bool.false_eq_true, if_false]
        rw [addCommentState_after_append]
        have := after_createFromForm u st.formData.evidence_image network st
          (st.after [.setError "", .setSuccess "", .setLoading true])
        refine ⟨this.1, this.2.trans ?_⟩
        simp [AddCommentState.after, AddCommentState.apply, h4]
      | some file =>
        by_cases hu : truthy uploadedUrl = true
        · simp only [AddComment.handleSubmit, hv, hid, hn, hd, hf, hu, Bool.not_true,
            Bool.false_eq_true, if_false, if_true]
          rw [← List.append_assoc, ← List.append_assoc, addCommentState_after_append]
          have := after_createFromForm u (uploadedUrl.getD "") network st
            (st.after (([.setError "", .setSuccess "", .setLoading true] ++
              [.setUploadingEvidence true, .uploadImage file]) ++
              [.setUploadingEvidence false]))
          refine ⟨this.1, this.2.trans ?_⟩
          simp [AddCommentState.after, AddCommentState.apply]
        · simp [AddComment.handleSubmit, hv, hid, hn, hd, hf, hu, AddCommentState.after,
            AddCommentState.apply]
  exact ⟨hA.1, hA.2, hB.1, hB.2⟩

/-- C20 on the filled forms, upload succeeded and the create request failed. -/
theorem flags_reset_after_submit_witness :
    (filledCommentForm.after (handleAddComment (some verifiedUser) "0600" (some "u")
        (.failed "x") filledCommentForm)).submitting = false
    ∧ (filledCommentForm.after (handleAddComment (some verifiedUser) "0600" (some "u")
        (.failed "x") filledCommentForm)).uploadingEvidence = false
    ∧ (filledAddComment.after (AddComment.handleSubmit (some verifiedUser) (some "u")
        (.failed "x") filledAddComment)).loading = false
    ∧ (filledAddComment.after (AddComment.handleSubmit (some verifiedUser) (some "u")
        (.failed "x") filledAddComment)).uploadingEvidence = false :=
  flags_reset_after_submit (some verifiedUser) "0600" (some "u") (.failed "x")
    filledCommentForm filledAddComment rfl rfl rfl rfl

/-! ## The `Rating` component -/

/-- C18. Clicking a star button of `Rating` calls `onRate` only with the component's
own `phone` and a star in `{1, 2, 3, 4, 5}`, and never when `readOnly` is set;
pages/Home.js passes `readOnly = true` exactly when there is no current user. -/
theorem rating_calls (props : RatingProps) (currentUser : Option DemoUser)
    (phone : String) (rating : Nat) :
    (∀ calls ∈ Rating.onClick props, ∀ call ∈ calls,
        call.1 = props.phone ∧ call.2 ∈ [1, 2, 3, 4, 5])
    ∧ (props.readOnly = true → ∀ calls ∈ Rating.onClick props, calls = [])
    ∧ (props.readOnly = true → ∀ star, Rating.handleRate props star = [])
    ∧ ((homeRatingProps currentUser phone rating).readOnly = true ↔ currentUser = none)
    ∧ (homeRatingProps currentUser phone rating).phone = phone := by
  refine ⟨?_, ?_, ?_, ?_, rfl⟩
  · intro calls hcalls call hcall
    unfold Rating.onClick at hcalls
    obtain ⟨star, hstar, rfl⟩ := List.mem_map.1 hcalls
    unfold Rating.handleRate at hcall
    split at hcall
    · simp only [List.mem_singleton] at hcall
      subst hcall
      exact ⟨rfl, hstar⟩
    · exact absurd hcall (by simp)
  · intro hro calls hcalls
    unfold Rating.onClick at hcalls
    obtain ⟨star, _, rfl⟩ := List.mem_map.1 hcalls
    simp [Rating.handleRate, hro]
  · intro hro star
    simp [Rating.handleRate, hro]
  · cases currentUser <;> simp [homeRatingProps]

/-- C18 for a read-only card of a guest. -/
theorem rating_calls_witness :
    (∀ calls ∈ Rating.onClick (homeRatingProps none "0600" 3), calls = [])
    ∧ (∀ star, Rating.handleRate (homeRatingProps none "0600" 3) star = []) :=
  ⟨(rating_calls (homeRatingProps none "0600" 3) none "0600" 3).2.1 rfl,
   (rating_calls (homeRatingProps none "0600" 3) none "0600" 3).2.2.1 rfl⟩

/-! ## Password forms -/

/-- C19. `ResetPassword.handleSubmit` sends the reset-password request exactly when
the password has at least 8 characters (UTF-16 code units, as `length` counts) and
equals its confirmation; otherwise it only sets an error. `handleRegister` of
pages/Register.js appends the user exactly when all four fields are non-empty and
the password equals its confirmation; otherwise the users list is unchanged. -/
theorem password_checks (network : RequestOutcome) (form : ResetPasswordForm)
    (users : List DemoUser) (reg : RegisterForm) :
    ((∃ e ∈ ResetPassword.handleSubmit network form, e.isResetRequest = true) ↔
        8 ≤ jsLength form.password ∧ form.password = form.confirmPassword)
    ∧ (¬ (8 ≤ jsLength form.password ∧ form.password = form.confirmPassword) →
        ∃ message, message ≠ "" ∧
          ResetPassword.handleSubmit network form = [.setError message])
    ∧ ((handleRegister users reg).users =
          users ++ [{ name := reg.name, email := reg.email, password := reg.password }] ↔
        reg.name ≠ "" ∧ reg.email ≠ "" ∧ reg.password ≠ "" ∧ reg.confirm ≠ ""
          ∧ reg.password = reg.confirm)
    ∧ (¬ (reg.name ≠ "" ∧ reg.email ≠ "" ∧ reg.password ≠ "" ∧ reg.confirm ≠ ""
          ∧ reg.password = reg.confirm) →
        (handleRegister users reg).users = users ∧ (handleRegister users reg).error ≠ none
          ∧ (handleRegister users reg).navigate = none) := by
  have hne : ∀ (x : DemoUser), users ++ [x] ≠ users := by
    intro x h
    have := congrArg List.length h
    simp at this
  refine ⟨?_, ?_, ?_, ?_⟩
  · by_cases hlen : jsLength form.password < 8
    · constructor
      · rintro ⟨e, he, hreq⟩
        simp only [ResetPassword.handleSubmit, hlen, if_true, List.mem_singleton] at he
        subst he
        exact absurd hreq (by simp [FormEffect.isResetRequest])
      · rintro ⟨h8, _⟩
        omega
    · by_cases heq : form.password = form.confirmPassword
      · constructor
        · intro _
          exact ⟨by omega, heq⟩
        · intro _
          refine ⟨.postResetPassword form.email form.token form.password
            form.confirmPassword, ?_, rfl⟩
          unfold ResetPassword.handleSubmit
          rw [if_neg hlen, if_neg (by simp [heq])]
          simp
      · constructor
        · rintro ⟨e, he, hreq⟩
          simp only [ResetPassword.handleSubmit, hlen, if_false, bne_iff_ne, ne_eq, heq,
            not_false_eq_true, if_true, List.mem_singleton] at he
          subst he
          exact absurd hreq (by simp [FormEffect.isResetRequest])
        · rintro ⟨_, h⟩
          exact absurd h heq
  · intro h
    by_cases hlen : jsLength form.password < 8
    · exact ⟨"كلمة المرور يجب أن تكون 8 أحرف على الأقل", by decide,
        by simp [ResetPassword.handleSubmit, hlen]⟩
    · have heq : form.password ≠ form.confirmPassword := by
        intro heq; exact h ⟨by omega, heq⟩
      exact ⟨"كلمتا المرور غير متطابقتين", by decide,
        by simp [ResetPassword.handleSubmit, hlen, heq]⟩
  · unfold handleRegister
    by_cases hempty : (reg.name == "" || reg.email == "" || reg.password == ""
        || reg.confirm == "") = true
    · rw [if_pos hempty]
      simp only [Bool.or_eq_true, beq_iff_eq] at hempty
      constructor
      · intro h; exact absurd h.symm (hne _)
      · rintro ⟨h1, h2, h3, h4, _⟩
        rcases hempty with ((h | h) | h) | h
        · exact absurd h h1
        · exact absurd h h2
        · exact absurd h h3
        · exact absurd h h4
    · rw [if_neg hempty]
      simp only [Bool.or_eq_true, beq_iff_eq, not_or] at hempty
      by_cases heq : reg.password = reg.confirm
      · constructor
        · intro _
          exact ⟨hempty.1.1.1, hempty.1.1.2, hempty.1.2, hempty.2, heq⟩
        · intro _
          simp [heq]
      · simp only [bne_iff_ne, ne_eq, heq, not_false_eq_true, if_true, and_false, iff_false]
        intro h; exact absurd h.symm (hne _)
  · intro h
    unfold handleRegister
    by_cases hempty : (reg.name == "" || reg.email == "" || reg.password == ""
        || reg.confirm == "") = true
    · rw [if_pos hempty]; simp
    · rw [if_neg hempty]
      simp only [Bool.or_eq_true, beq_iff_eq, not_or] at hempty
      have heq : reg.password ≠ reg.confirm := by
        intro heq
        exact h ⟨hempty.1.1.1, hempty.1.1.2, hempty.1.2, hempty.2, heq⟩
      simp [heq]

/-- C19 at a mismatching confirmation in both forms. -/
theorem password_checks_witness :
    (∃ message, message ≠ "" ∧
        ResetPassword.handleSubmit .ok mismatchReset = [.setError message])
    ∧ ((handleRegister [] mismatchRegister).users = []
        ∧ (handleRegister [] mismatchRegister).error ≠ none
        ∧ (handleRegister [] mismatchRegister).navigate = none) :=
  ⟨(password_checks .ok mismatchReset [] mismatchRegister).2.1 (by decide),
   (password_checks .ok mismatchReset [] mismatchRegister).2.2.2 (by decide)⟩

/-! ## Page-button window: shape -/

/-- The page buttons as a plain map over the button indices. -/
theorem pageButtons_eq_map (totalPages page : Int) :
    pageButtons totalPages page =
      (List.range (min 5 totalPages).toNat).map
        (fun i : Nat => pageNum totalPages page (i : Int)) := by
  unfold pageButtons
  have h : ∀ l : List Nat,
      (Bind.bind l (fun a : Nat => (Pure.pure (a : Int) : List Int))) =
        l.map (fun i : Nat => (i : Int)) := by
    intro l
    induction l with
    | nil => rfl
    | cons a l ih =>
      simp only [List.bind_eq_flatMap, List.pure_def, List.flatMap_cons, List.map_cons,
        List.singleton_append] at ih ⊢
      rw [ih]
  rw [h, List.map_map]
  rfl

/-- C25. For `totalPages >= 1` and `1 <= page <= totalPages` the page-button window
has exactly `min(5, totalPages)` entries, the entries are consecutive increasing
integers `start, start + 1, ...`, every entry lies in `[1, totalPages]`, and the
current page is one of the entries. -/
theorem pageButtons_shape (totalPages page : Int) (h1 : 1 ≤ totalPages) (hp1 : 1 ≤ page)
    (hp2 : page ≤ totalPages) :
    (pageButtons totalPages page).length = (min 5 totalPages).toNat
    ∧ (∃ start : Int, pageButtons totalPages page =
        (List.range (min 5 totalPages).toNat).map (fun i : Nat => start + (i : Int)))
    ∧ (∀ n ∈ pageButtons totalPages page, 1 ≤ n ∧ n ≤ totalPages)
    ∧ page ∈ pageButtons totalPages page := by
  have hmem : ∀ n, n ∈ pageButtons totalPages page ↔
      ∃ i : Nat, i < (min 5 totalPages).toNat ∧ pageNum totalPages page i = n := by
    intro n
    rw [pageButtons_eq_map]
    simp only [List.mem_map, List.mem_range]
  have hlt : ∀ i : Nat, i < (min 5 totalPages).toNat ↔ ((i : Int) < 5 ∧ (i : Int) < totalPages) := by
    intro i
    omega
  refine ⟨by rw [pageButtons_eq_map]; simp, ?_, ?_, ?_⟩
  · refine ⟨if totalPages ≤ 5 then 1 else if page ≤ 3 then 1
      else if page ≥ totalPages - 2 then totalPages - 4 else page - 2, ?_⟩
    rw [pageButtons_eq_map]
    apply List.map_congr_left
    intro i _
    unfold pageNum
    split_ifs <;> omega
  · intro n hn
    obtain ⟨i, hi, rfl⟩ := (hmem n).1 hn
    rw [hlt] at hi
    unfold pageNum
    split_ifs <;> omega
  · rw [hmem]
    by_cases h5 : totalPages ≤ 5
    · refine ⟨(page - 1).toNat, by omega, ?_⟩
      unfold pageNum
      rw [if_pos h5]
      omega
    · by_cases h3 : page ≤ 3
      · refine ⟨(page - 1).toNat, by omega, ?_⟩
        unfold pageNum
        rw [if_neg h5, if_pos h3]
        omega
      · by_cases hl : page ≥ totalPages - 2
        · refine ⟨(page - (totalPages - 4)).toNat, by omega, ?_⟩
          unfold pageNum
          rw [if_neg h5, if_neg h3, if_pos hl]
          omega
        · refine ⟨2, by omega, ?_⟩
          unfold pageNum
          rw [if_neg h5, if_neg h3, if_neg hl]
          omega

/-- C25 at 12 pages, page 11. -/
theorem pageButtons_shape_witness :
    (pageButtons 12 11).length = (min 5 (12 : Int)).toNat
    ∧ (∃ start : Int, pageButtons 12 11 =
        (List.range (min 5 (12 : Int)).toNat).map (fun i : Nat => start + (i : Int)))
    ∧ (∀ n ∈ pageButtons 12 11, 1 ≤ n ∧ n ≤ 12)
    ∧ (11 : Int) ∈ pageButtons 12 11 :=
  pageButtons_shape 12 11 (by decide) (by decide) (by decide)

/-! ## Demo login -/

/-- C30. After `handleRegister` has appended an account with non-empty name, email and
password (confirmation equal to the password), `handleLogin` with that email and
password succeeds: no error is set and the current user becomes a record of the list
with exactly that email and password. For every users list, `handleLogin` with
credentials that no record matches sets an error and leaves the current user as it
was. -/
theorem register_then_login (users : List DemoUser) (name email password : String)
    (currentUser : Option DemoUser) (hn : name ≠ "") (he : email ≠ "") (hp : password ≠ "") :
    (handleRegister users
        { name := name, email := email, password := password, confirm := password }).users =
      users ++ [{ name := name, email := email, password := password }]
    ∧ (∃ u, (handleLogin
          (handleRegister users
            { name := name, email := email, password := password,
              confirm := password }).users
          email password currentUser).currentUser = some u
        ∧ u.email = email ∧ u.password = password)
    ∧ (handleLogin
          (handleRegister users
            { name := name, email := email, password := password,
              confirm := password }).users
          email password currentUser).error = none
    ∧ (∀ (others : List DemoUser) (e p : String),
        (∀ u ∈ others, ¬ (u.email = e ∧ u.password = p)) →
        (handleLogin others e p currentUser).currentUser = currentUser
        ∧ (handleLogin others e p currentUser).error ≠ none) := by
  have hreg : (handleRegister users
        { name := name, email := email, password := password, confirm := password }).users =
      users ++ [{ name := name, email := email, password := password }] := by
    simp [handleRegister, hn, he, hp]
  have hfind : ∃ u, (users ++ [({ name := name, email := email, password := password } :
      DemoUser)]).find? (fun u => u.email == email && u.password == password) = some u := by
    cases hf : (users ++ [({ name := name, email := email, password := password } :
      DemoUser)]).find? (fun u => u.email == email && u.password == password) with
    | some u => exact ⟨u, rfl⟩
    | none =>
      rw [List.find?_eq_none] at hf
      have := hf { name := name, email := email, password := password } (by simp)
      simp at this
  obtain ⟨u, hu⟩ := hfind
  have hprop := List.find?_some hu
  simp only [Bool.and_eq_true, beq_iff_eq] at hprop
  refine ⟨hreg, ?_, ?_, ?_⟩
  · refine ⟨u, ?_, hprop.1, hprop.2⟩
    rw [hreg]
    simp [handleLogin, hu]
  · rw [hreg]
    simp [handleLogin, hu]
  · intro others e p hnone
    have hf : others.find? (fun u => u.email == e && u.password == p) = none := by
      rw [List.find?_eq_none]
      intro u hu
      simpa using hnone u hu
    simp [handleLogin, hf]

/-- C30 for the account of "Ali" on an empty users list. -/
theorem register_then_login_witness :
    (handleLogin (handleRegister []
        { name := "Ali", email := "a@b.c", password := "pw", confirm := "pw" }).users
      "a@b.c" "pw" none).error = none :=
  (register_then_login [] "Ali" "a@b.c" "pw" none (by decide) (by decide) (by decide)).2.2.1

/-! ## Image validators -/

/-- The validator accepts a file exactly when the word "image" occurs in its type and
its size is at most 5 MB; a rejected file (and no file) changes neither the selected
file nor the preview. -/
theorem handleFileSelect_accepts (f : UploadFile) (dataUrl : String) (st : FilePicker) :
    (handleFileSelect (some f) dataUrl = [.setSelected f, .readAsDataURL f, .setPreview dataUrl]
        ↔ (includes f.type "image" = true ∧ f.size ≤ 5 * 1024 * 1024))
    ∧ (¬ (includes f.type "image" = true ∧ f.size ≤ 5 * 1024 * 1024) →
        st.after (handleFileSelect (some f) dataUrl) = st)
    ∧ st.after (handleFileSelect none dataUrl) = st := by
  unfold handleFileSelect matchesImagePattern
  by_cases ht : includes f.type "image" = true
  · by_cases hs : f.size > 5 * 1024 * 1024
    · have : ¬ f.size ≤ 5 * 1024 * 1024 := by omega
      simp [ht, hs, this, FilePicker.after, FilePicker.apply]
    · have : f.size ≤ 5 * 1024 * 1024 := by omega
      simp [ht, hs, this, FilePicker.after]
  · simp [ht, FilePicker.after, FilePicker.apply]

/-- C23 fails at the boundary: a PNG of exactly `5 * 1024 * 1024` bytes is not less
than 5 MB, and the validators accept it; they also accept the type
"application/x-imagemap", which is not an image type. -/
theorem validator_accepts_five_megabytes :
    fiveMegabyteImage.size = 5 * 1024 * 1024
    ∧ isImageType fiveMegabyteImage.type = true
    ∧ handleFileSelect (some fiveMegabyteImage) "data:" =
        [.setSelected fiveMegabyteImage, .readAsDataURL fiveMegabyteImage, .setPreview "data:"]
    ∧ handleEvidenceFileSelect (some fiveMegabyteImage) "data:" =
        [.setSelected fiveMegabyteImage, .readAsDataURL fiveMegabyteImage, .setPreview "data:"]
    ∧ isImageType imageMapFile.type = false
    ∧ handleEvidenceFileSelect (some imageMapFile) "data:" =
        [.setSelected imageMapFile, .readAsDataURL imageMapFile, .setPreview "data:"] := by
  decide

/-! ## pages/Home.js: the page stays in range -/

/-- One user action keeps the page within `[1, max(1, totalPages)]`. -/
theorem homeStep_page_in_range (data : List DemoItem) (st : HomePage) (a : HomeAction)
    (h : 1 ≤ st.page ∧
      st.page ≤ max 1 (totalPages (homeFiltered data st.search) : Int)) :
    1 ≤ (homeStep data st a).page ∧
      (homeStep data st a).page ≤
        max 1 (totalPages (homeFiltered data (homeStep data st a).search) : Int) := by
  cases a with
  | setSearch value =>
    simp only [homeStep]
    omega
  | previous =>
    simp only [homeStep]
    split
    · simp only
      omega
    · exact h
  | next =>
    simp only [homeStep]
    split
    · simp only
      omega
    · exact h
  | pageButton i =>
    simp only [homeStep]
    split
    · next hc =>
      simp only
      have hi := hc.2
      have ht := hc.1
      unfold pageNum
      split_ifs <;> omega
    · exact h

/-- C21. In every state of pages/Home.js reached from the initial state (empty search,
page 1) by any sequence of search changes, previous/next presses and page-button
clicks, the current page satisfies `1 <= page <= max(1, totalPages)` for the
`totalPages` of the currently filtered list. -/
theorem home_page_in_range (data : List DemoItem) (actions : List HomeAction) :
    1 ≤ (actions.foldl (homeStep data) HomePage.initial).page
    ∧ (actions.foldl (homeStep data) HomePage.initial).page ≤
        max 1 (totalPages (homeFiltered data
          (actions.foldl (homeStep data) HomePage.initial).search) : Int) := by
  have hgen : ∀ (actions : List HomeAction) (st : HomePage),
      (1 ≤ st.page ∧ st.page ≤ max 1 (totalPages (homeFiltered data st.search) : Int)) →
      1 ≤ (actions.foldl (homeStep data) st).page
      ∧ (actions.foldl (homeStep data) st).page ≤
          max 1 (totalPages (homeFiltered data
            (actions.foldl (homeStep data) st).search) : Int) := by
    intro actions
    induction actions with
    | nil => intro st h; exact h
    | cons a rest ih =>
      intro st h
      exact ih (homeStep data st a) (homeStep_page_in_range data st a h)
  apply hgen
  simp only [HomePage.initial]
  omega

/-! ## pages/TroubleList.js: a search leaves the page where it was -/

/-- C22. In pages/TroubleList.js, after twenty reports on "0700" are added, page 2 is
opened and "0600000000" is searched, the state has `page = 2` while the filtered list
has one element and `pages = 1`: the page is out of range and the one match is not
shown. -/
theorem troubleList_page_out_of_range :
    (troubleTrace.foldl troubleStep TroubleState.initial).page = 2
    ∧ troublePages (troubleTrace.foldl troubleStep TroubleState.initial) = 1
    ∧ (troubleFiltered (troubleTrace.foldl troubleStep TroubleState.initial)).length = 1
    ∧ troubleCurrent (troubleTrace.foldl troubleStep TroubleState.initial) = [] := by
  decide

/-! ## pages/Home.js: last activity of a group -/

/-- The array `Object.values(object)` lists every value once. -/
theorem objectValuesOf_perm {α : Type} (m : List (String × α)) :
    (objectValuesOf m).Perm (m.map Prod.snd) := by
  unfold objectValuesOf
  apply List.Perm.map
  have h2 : m.filter (fun p => (arrayIndex p.1).isNone) =
      m.filter (fun p => !(arrayIndex p.1).isSome) := by
    apply List.filter_congr
    intro p _
    cases arrayIndex p.1 <;> rfl
  rw [h2]
  exact ((List.perm_insertionSort _ _).append_right _).trans (List.filter_append_perm _ m)

/-- Every group object of pages/Home.js is stored under its own phone. -/
theorem demoGroupStep_phone (m : List (String × DemoGroup)) (item : DemoItem)
    (h : ∀ e ∈ m, e.2.phone = e.1) : ∀ e ∈ demoGroupStep m item, e.2.phone = e.1 := by
  intro e he
  unfold demoGroupStep at he
  simp only [List.mem_map] at he
  obtain ⟨p, hp, rfl⟩ := he
  have hp2 : p.2.phone = p.1 := by
    split at hp
    · exact h p hp
    · split at hp
      · exact h p hp
      · rcases List.mem_append.1 hp with hp | hp
        · exact h p hp
        · simp only [List.mem_singleton] at hp
          subst hp
          rfl
  split
  · exact hp2
  · exact hp2

/-- The invariant of `demoGroupStep_phone` along the whole loop. -/
theorem foldl_demoGroupStep_phone (data : List DemoItem) (m : List (String × DemoGroup))
    (h : ∀ e ∈ m, e.2.phone = e.1) : ∀ e ∈ data.foldl demoGroupStep m, e.2.phone = e.1 := by
  induction data generalizing m with
  | nil => exact h
  | cons item rest ih => exact ih _ (demoGroupStep_phone m item h)

/-- After an item with an ordinary phone is processed, its group exists and carries
the date of that item. -/
theorem demoGroupStep_lastDate (m : List (String × DemoGroup)) (item : DemoItem)
    (hp : item.phone ∉ objectPrototypeKeys) :
    (∃ e ∈ demoGroupStep m item, e.1 = item.phone)
    ∧ ∀ e ∈ demoGroupStep m item, e.1 = item.phone →
        e.2.lastDate = if truthy item.date then item.date.getD "" else "" := by
  constructor
  · unfold demoGroupStep
    by_cases hany : m.any (fun p => p.1 == item.phone) = true
    · simp only [hany, if_true]
      obtain ⟨p, hpm, hpk⟩ := List.any_eq_true.1 hany
      refine ⟨_, List.mem_map.2 ⟨p, hpm, rfl⟩, ?_⟩
      simp only [hpk, if_true]
      exact beq_iff_eq.1 hpk
    · simp only [hany, hp, if_false]
      refine ⟨_, List.mem_map.2 ⟨(item.phone, DemoGroup.fresh item),
        List.mem_append_right _ (List.mem_singleton_self _), rfl⟩, ?_⟩
      simp
  · intro e he hk
    unfold demoGroupStep at he
    simp only [List.mem_map] at he
    obtain ⟨p, _, rfl⟩ := he
    by_cases hpk : (p.1 == item.phone) = true
    · simp only [hpk, if_true]
    · simp only [hpk, if_false] at hk
      simp only [Bool.not_eq_true, beq_eq_false_iff_ne] at hpk
      exact absurd hk hpk

/-- The report appended by `CommentsPage.addComment` sets the last activity of its
group: for an ordinary phone `p`, the group of `p` exists and its `lastDate` is the
date of the new report. -/
theorem addComment_sets_lastDate (data newData : List DemoItem) (user : Option DemoUser)
    (p text commentStatus nowString : String) (now : Nat)
    (hp : p ∉ objectPrototypeKeys)
    (h : addComment data user p text commentStatus nowString now = .setData newData) :
    (∃ g ∈ uniquePhones newData, g.phone = p)
    ∧ ∀ g ∈ uniquePhones newData, g.phone = p → g.lastDate = nowString := by
  unfold addComment at h
  split at h
  · exact absurd h (by simp)
  · cases user with
    | none => exact absurd h (by simp)
    | some u =>
      simp only [DataUpdate.setData.injEq] at h
      subst h
      have hmem : ∀ g, g ∈ uniquePhones
          (data ++ [{ phone := p, description := text, name := u.name,
                      status := commentStatus, priority := none, date := some nowString,
                      city := none, rating := none, ratingCount := none, id := now }]) ↔
          ∃ e ∈ demoGroupStep (data.foldl demoGroupStep [])
            { phone := p, description := text, name := u.name,
              status := commentStatus, priority := none, date := some nowString,
              city := none, rating := none, ratingCount := none, id := now }, e.2 = g := by
        intro g
        unfold uniquePhones
        rw [(objectValuesOf_perm _).mem_iff, List.foldl_append]
        simp only [List.foldl_cons, List.foldl_nil, List.mem_map]
      have hinv := demoGroupStep_phone (data.foldl demoGroupStep [])
        { phone := p, description := text, name := u.name,
          status := commentStatus, priority := none, date := some nowString,
          city := none, rating := none, ratingCount := none, id := now }
        (foldl_demoGroupStep_phone data [] (by simp))
      obtain ⟨hex, hall⟩ := demoGroupStep_lastDate (data.foldl demoGroupStep [])
        { phone := p, description := text, name := u.name,
          status := commentStatus, priority := none, date := some nowString,
          city := none, rating := none, ratingCount := none, id := now } hp
      constructor
      · obtain ⟨e, he, hk⟩ := hex
        exact ⟨e.2, (hmem _).2 ⟨e, he, rfl⟩, (hinv e he).trans hk⟩
      · intro g hg hgp
        obtain ⟨e, he, rfl⟩ := (hmem g).1 hg
        have := hall e he ((hinv e he).symm.trans hgp)
        rw [this]
        simp only [truthy, Option.getD_some]
        by_cases hn : nowString = ""
        · simp [hn]
        · simp [hn]

/-- C24. A report on "0600" saved through `AddProblem.handleSave` on 2/2/2024, when
the data already holds a report on "0600" dated 1/1/2024, is put in front of the data,
and the group of "0600" computed by pages/Home.js has two reports and still shows
1/1/2024 as its `lastDate`; the same report added through `CommentsPage.addComment`
gives 2/2/2024. -/
theorem handleSave_keeps_old_lastDate :
    handleSave olderData (some demoAli) "0600" "B" "medium" "2/2/2024" 2 =
      .setData (newerItem :: olderData)
    ∧ (uniquePhones (newerItem :: olderData)).map (fun g => (g.phone, g.count, g.lastDate)) =
        [("0600", 2, "1/1/2024")]
    ∧ (uniquePhones (olderData ++ [newerItem])).map (fun g => (g.phone, g.count, g.lastDate)) =
        [("0600", 2, "2/2/2024")] := by
  decide

/-! ## Search narrows monotonically -/

/-- C27. The search of `Home` in App.js narrows monotonically: for a `toLowerCase`
that keeps blank strings blank and other strings non-blank (as the case mapping of
ECMAScript does), every list of groups and all terms `T1`, `T2` such that lower-cased
`T1` is a substring of lower-cased `T2`, every group kept by the search effect for
`T2` is also kept for `T1`. -/
theorem searchEffect_narrows (toLowerCase : String → String)
    (hblank : ∀ s : String, (∀ c ∈ (toLowerCase s).data, isWhiteSpace c = true) ↔
      (∀ c ∈ s.data, isWhiteSpace c = true))
    (T1 T2 : String) (phoneGroups : List PhoneGroup)
    (hsub : (toLowerCase T1).data <:+: (toLowerCase T2).data) :
    ∀ g ∈ searchEffect toLowerCase T2 phoneGroups, g ∈ searchEffect toLowerCase T1 phoneGroups := by
  intro g hg
  have hmem : g ∈ phoneGroups := by
    unfold searchEffect at hg
    split at hg
    · exact hg
    · exact (List.mem_filter.1 hg).1
  by_cases h1 : (trim T1 == "") = true
  · simp only [searchEffect, h1, if_true]
    exact hmem
  · simp only [searchEffect, h1]
    refine List.mem_filter.2 ⟨hmem, ?_⟩
    by_cases h2 : (trim T2 == "") = true
    · exfalso
      apply h1
      rw [trim_eq_empty_iff] at h2 ⊢
      rw [← hblank] at h2 ⊢
      intro c hc
      exact h2 c (hsub.subset hc)
    · simp only [searchEffect, h2] at hg
      have hm := (List.mem_filter.1 hg).2
      rw [matchesSearch_iff] at hm ⊢
      rcases hm with h | h | ⟨comment, hc, h⟩
      · exact Or.inl (hsub.trans h)
      · exact Or.inr (Or.inl (hsub.trans h))
      · exact Or.inr (Or.inr ⟨comment, hc, hsub.trans h⟩)

/-- The ASCII case mapping moves no character into or out of the white space. -/
theorem isWhiteSpace_toLower (c : Char) : isWhiteSpace c.toLower = isWhiteSpace c := by
  have hup : ∀ n : Nat, 65 ≤ n → n ≤ 90 → isWhiteSpace (Char.ofNat (n + 32)) = false := by
    intro n h1 h2
    interval_cases n <;> rfl
  unfold Char.toLower
  simp only
  split
  · next h =>
    rw [hup c.toNat h.1 h.2]
    symm
    simp only [isWhiteSpace, decide_eq_false_iff_not, List.mem_cons, List.mem_singleton,
      List.not_mem_nil, or_false]
    omega
  · rfl

/-- C27 with the ASCII case mapping: what "060" keeps of three groups is among what
"06" keeps. -/
theorem searchEffect_narrows_witness :
    (asciiToLowerCase "06").data <:+: (asciiToLowerCase "060").data
    ∧ ∀ g ∈ searchEffect asciiToLowerCase "060" searchGroups,
        g ∈ searchEffect asciiToLowerCase "06" searchGroups :=
  ⟨⟨[], ['0'], rfl⟩,
    searchEffect_narrows asciiToLowerCase
      (fun s => by
        simp only [asciiToLowerCase, List.mem_map, forall_exists_index, and_imp,
          forall_apply_eq_imp_iff₂, isWhiteSpace_toLower])
      "06" "060" searchGroups ⟨[], ['0'], rfl⟩⟩

/-! ## `PhoneDetails.fetchComments`: content and order -/

/-- Insertion into a sorted list keeps it sorted, for a relation that is total and
transitive on the items at hand. -/
theorem sorted_orderedInsert_on {α : Type} (r : α → α → Prop) [DecidableRel r]
    (S : α → Prop) (htot : ∀ a b, S a → S b → r a b ∨ r b a)
    (htrans : ∀ a b c, S a → S b → S c → r a b → r b c → r a c)
    (x : α) (hx : S x) (l : List α) (hS : ∀ y ∈ l, S y) (hl : l.Pairwise r) :
    (l.orderedInsert r x).Pairwise r := by
  induction l with
  | nil => simp
  | cons b l ih =>
    rw [List.orderedInsert]
    rw [List.pairwise_cons] at hl
    have hb : S b := hS b (List.mem_cons_self _ _)
    have hSl : ∀ y ∈ l, S y := fun y hy => hS y (List.mem_cons_of_mem _ hy)
    by_cases hr : r x b
    · rw [if_pos hr]
      refine List.Pairwise.cons ?_ (List.pairwise_cons.2 hl)
      intro y hy
      rcases List.mem_cons.1 hy with rfl | hy
      · exact hr
      · exact htrans x b y hx hb (hSl y hy) hr (hl.1 y hy)
    · rw [if_neg hr]
      refine List.Pairwise.cons ?_ (ih hSl hl.2)
      intro y hy
      rcases (List.mem_orderedInsert r).1 hy with rfl | hy
      · exact (htot y b hx hb).resolve_left hr
      · exact hl.1 y hy

/-- Insertion sort sorts, for a relation that is total and transitive on the items of
the list. -/
theorem sorted_insertionSort_on {α : Type} (r : α → α → Prop) [DecidableRel r]
    (S : α → Prop) (htot : ∀ a b, S a → S b → r a b ∨ r b a)
    (htrans : ∀ a b c, S a → S b → S c → r a b → r b c → r a c)
    (l : List α) (hS : ∀ y ∈ l, S y) : (l.insertionSort r).Pairwise r := by
  induction l with
  | nil => simp
  | cons x l ih =>
    rw [List.insertionSort]
    have hSl : ∀ y ∈ l, S y := fun y hy => hS y (List.mem_cons_of_mem _ hy)
    apply sorted_orderedInsert_on r S htot htrans x (hS x (List.mem_cons_self _ _)) _ _ (ih hSl)
    intro y hy
    exact hSl y ((List.mem_insertionSort r).1 hy)

/-- The loop of `fetchComments` concatenates what each matching record pushes. -/
theorem collectComments_eq_flatMap (now : String) (user : Option SessionUser) (phone : String)
    (cs : List Customer) (l : List DetailsComment)
    (h : collectComments now user phone cs = some l) :
    l = (cs.filter (fun c => c.number == some phone)).flatMap
          (fun c => (commentsOfCustomer now user phone c).getD []) := by
  induction cs generalizing l with
  | nil =>
    simp only [collectComments, Option.some.injEq] at h
    simp [← h]
  | cons c rest ih =>
    rw [collectComments] at h
    cases hc : commentsOfCustomer now user phone c with
    | none => simp [hc] at h
    | some pushed =>
      cases hr : collectComments now user phone rest with
      | none => simp [hc, hr] at h
      | some more =>
        simp only [hc, hr, Option.some.injEq] at h
        subst h
        rw [ih more hr]
        by_cases hn : (c.number == some phone) = true
        · simp [List.filter_cons, hn, hc]
        · have hp : pushed = [] := by
            unfold commentsOfCustomer at hc
            simp only [hn] at hc
            simpa using hc.symm
          simp [List.filter_cons, hn, hp]

/-- What a record with an array of reports pushes: one comment per report, with the
id, description and evidence of the report. -/
theorem commentsOfCustomer_motifs (now : String) (user : Option SessionUser) (phone : String)
    (c : Customer) (hn : c.number = some phone) (hm : c.motifs ≠ .nonArray) :
    ((commentsOfCustomer now user phone c).getD []).map
        (fun x => (x.id, x.description, x.evidence_image, x.userId)) =
      c.motifList.map (fun m => (m.id, m.description, m.evidence_image, m.user_id)) := by
  unfold commentsOfCustomer Customer.motifList
  simp only [hn, beq_self_eq_true, if_true]
  cases hmm : c.motifs with
  | missing => simp
  | nonArray => exact absurd hmm hm
  | array ms => simp [List.map_map, Function.comp_def]

/-- C29, amended. When the request succeeds, no record with the looked-up number
carries a truthy `motifs` that is not an array, and every `createdAt` collected is a
valid date, the comments list of `PhoneDetails.fetchComments` is a permutation of the
comments pushed for the records whose number equals the looked-up number, one per
report of those records, and is ordered from newest to oldest. -/
theorem fetchComments_content_and_order (parseDate : String → Option Int) (now : String)
    (user : Option SessionUser) (phone : String) (cs : List Customer) (st : DetailsState)
    (harr : ∀ c ∈ cs, c.number = some phone → c.motifs ≠ .nonArray)
    (hdates : ∀ c ∈ cs, c.number = some phone →
      ∀ x ∈ (commentsOfCustomer now user phone c).getD [],
        (parseDate x.createdAt).isSome = true) :
    (fetchComments parseDate now user phone (some cs) st).comments.Perm
        ((cs.filter (fun c => c.number == some phone)).flatMap
          (fun c => (commentsOfCustomer now user phone c).getD []))
    ∧ ((fetchComments parseDate now user phone (some cs) st).comments.map
          (fun x => (x.id, x.description, x.evidence_image, x.userId))).Perm
        ((cs.filter (fun c => c.number == some phone)).flatMap
          (fun c => c.motifList.map (fun m => (m.id, m.description, m.evidence_image, m.user_id))))
    ∧ (fetchComments parseDate now user phone (some cs) st).comments.Pairwise
        (fun a b => ∀ ta tb : Int, parseDate a.createdAt = some ta →
          parseDate b.createdAt = some tb → tb ≤ ta) := by
  obtain ⟨l, hl⟩ := collectComments_isSome now user phone cs harr
  have hflat := collectComments_eq_flatMap now user phone cs l hl
  have hperm : (fetchComments parseDate now user phone (some cs) st).comments.Perm l := by
    simp only [fetchComments, hl]
    exact jsSort_perm _ l
  refine ⟨hflat ▸ hperm, ?_, ?_⟩
  · refine (hperm.map _).trans ?_
    rw [hflat, List.map_flatMap]
    have hfm : ∀ rs : List Customer, (∀ c ∈ rs, c ∈ cs ∧ c.number = some phone) →
        rs.flatMap (fun c => ((commentsOfCustomer now user phone c).getD []).map
          (fun x => (x.id, x.description, x.evidence_image, x.userId))) =
        rs.flatMap (fun c => c.motifList.map
          (fun m => (m.id, m.description, m.evidence_image, m.user_id))) := by
      intro rs
      induction rs with
      | nil => intro _; rfl
      | cons c rest ih =>
        intro h
        have hc := h c (List.mem_cons_self _ _)
        simp only [List.flatMap_cons]
        rw [commentsOfCustomer_motifs now user phone c hc.2 (harr c hc.1 hc.2),
          ih (fun d hd => h d (List.mem_cons_of_mem _ hd))]
    rw [hfm]
    intro c hc
    have := List.mem_filter.1 hc
    exact ⟨this.1, by simpa using this.2⟩
  · have hS : ∀ x ∈ l, (parseDate x.createdAt).isSome = true := by
      intro x hx
      rw [hflat] at hx
      obtain ⟨c, hc, hxc⟩ := List.mem_flatMap.1 hx
      have := List.mem_filter.1 hc
      exact hdates c this.1 (by simpa using this.2) x hxc
    have hsorted := sorted_insertionSort_on (fun a b => compareByDate parseDate a b ≤ 0)
      (fun x => (parseDate x.createdAt).isSome = true)
      (by
        intro a b ha hb
        obtain ⟨ta, hta⟩ := Option.isSome_iff_exists.1 ha
        obtain ⟨tb, htb⟩ := Option.isSome_iff_exists.1 hb
        simp only [compareByDate, hta, htb]
        omega)
      (by
        intro a b c ha hb hc
        obtain ⟨ta, hta⟩ := Option.isSome_iff_exists.1 ha
        obtain ⟨tb, htb⟩ := Option.isSome_iff_exists.1 hb
        obtain ⟨tc, htc⟩ := Option.isSome_iff_exists.1 hc
        simp only [compareByDate, hta, htb, htc]
        omega)
      l hS
    simp only [fetchComments, hl, jsSort]
    refine hsorted.imp ?_
    intro a b hab ta tb hta htb
    simp only [compareByDate, hta, htb] at hab
    omega

/-- C29, amended, at three reports with valid dates given oldest, newest, middle. -/
theorem fetchComments_content_and_order_witness :
    ((fetchComments exampleParseDate "2024-01-01T00:00:00.000Z" none "0600"
        (some datedCustomers) DetailsState.initial).comments.map (fun x => x.id)) = [2, 3, 1]
    ∧ (fetchComments exampleParseDate "2024-01-01T00:00:00.000Z" none "0600"
        (some datedCustomers) DetailsState.initial).comments.Pairwise
        (fun a b => ∀ ta tb : Int, exampleParseDate a.createdAt = some ta →
          exampleParseDate b.createdAt = some tb → tb ≤ ta) :=
  ⟨by decide,
    (fetchComments_content_and_order exampleParseDate "2024-01-01T00:00:00.000Z" none "0600"
      datedCustomers DetailsState.initial (by decide) (by decide)).2.2⟩

/-- C29 as stated fails twice. With a `created_at` that is no date between two valid
ones, the comparator answers `NaN` and the list stays in input order, the report of
1 January before the report of 2 January. With a record of the looked-up number whose
`motifs` is truthy but no array, the loop raises and the comments state stays empty
although the number has a report. -/
theorem fetchComments_unsorted_or_lost :
    (fetchComments exampleParseDate "2024-01-01T00:00:00.000Z" none "0600"
        (some invalidDateCustomers) DetailsState.initial).comments.map
        (fun x => (x.id, exampleParseDate x.createdAt)) =
      [(1, some 1704067200000), (2, none), (3, some 1704153600000)]
    ∧ (fetchComments exampleParseDate "2024-01-01T00:00:00.000Z" none "0600"
        (some nonArrayCustomers) DetailsState.initial).comments = []
    ∧ (fetchComments exampleParseDate "2024-01-01T00:00:00.000Z" none "0600"
        (some nonArrayCustomers) DetailsState.initial).apiError = "فشل في جلب البلاغات"
    ∧ (nonArrayCustomers.filter (fun c => c.number == some "0600")).flatMap
        (fun c => c.motifList.map (fun m => m.id)) = [1] := by
  decide

/-! ## `ProtectedRoute` after a logout -/

/-- C28. A guest who opens the application sees the children of a `ProtectedRoute`
without flags; after a login whose verification check has settled and a logout, the
state has no user, no check in flight, `loading = false` and
`verificationChecked = false`, and the same route renders the spinner; a further
logout or a late response changes nothing. -/
theorem protectedRoute_spinner_after_logout :
    protectedRoute false false (mountEffect (AuthState.initial none)) = .children
    ∧ afterLogout.user = none
    ∧ afterLogout.pendingChecks = 0
    ∧ afterLogout.loading = false
    ∧ afterLogout.verificationChecked = false
    ∧ protectedRoute false false afterLogout = .spinner
    ∧ authStep afterLogout .logout = afterLogout
    ∧ authStep afterLogout (.checkResponse (some true)) = afterLogout := by
  decide

/-! ## The card count and the details count -/

/-- Evaluation of the route functions. -/
theorem route_examples :
    encodeURIComponent "%2541" = "%252541"
    ∧ encodeURIComponent "+212 6/é٠€😀" = "%2B212%206%2F%C3%A9%D9%A0%E2%82%AC%F0%9F%98%80"
    ∧ decodeURIComponent "%2B212%206%2F%C3%A9%D9%A0%E2%82%AC%F0%9F%98%80" = some "+212 6/é٠€😀"
    ∧ decodeURIComponent "%2541" = some "%41"
    ∧ decodeURIComponent "100%" = none
    ∧ decodeURIComponent "%C0%80" = none
    ∧ decodeURIComponent "%ED%A0%80" = none
    ∧ decodeURIComponent "%e2%82%ac" = some "€" := by
  decide

/-- A hexadecimal digit is read back as its value. -/
theorem hexValue_hexDigit (n : Nat) (h : n < 16) : hexValue (hexDigit n) = some n := by
  interval_cases n <;> rfl

/-- An escape is read back as its octet. -/
theorem readEscapes_percentEscape (b : Nat) (h : b < 256) (l : List Char) :
    readEscapes (percentEscape b ++ l) =
      match readEscapes l with
      | some items => some (.octet b :: items)
      | none => none := by
  have h1 : b / 16 < 16 := by omega
  have h2 : b % 16 < 16 := by omega
  have h3 : 16 * (b / 16) + b % 16 = b := by omega
  have e : percentEscape b ++ l = '%' :: hexDigit (b / 16) :: hexDigit (b % 16) :: l := rfl
  rw [e, readEscapes]
  simp only [if_true, hexValue_hexDigit _ h1, hexValue_hexDigit _ h2]
  cases readEscapes l with
  | none => rfl
  | some items => simp only [h3]

/-- The octets of a code point are below 256. -/
theorem utf8Octets_lt (c : Char) : ∀ b ∈ utf8Octets c, b < 256 := by
  have hv := c.valid
  have hn : c.toNat < 0x110000 := by
    rcases hv with h | h
    · have : c.toNat = c.val.toNat := rfl
      omega
    · have : c.toNat = c.val.toNat := rfl
      omega
  intro b hb
  unfold utf8Octets at hb
  split_ifs at hb <;> simp only [List.mem_cons, List.mem_singleton, List.not_mem_nil, or_false] at hb <;> omega

/-- A character other than `%` is read as itself. -/
theorem readEscapes_literal (c : Char) (hc : c ≠ '%') (l : List Char) :
    readEscapes (c :: l) =
      match readEscapes l with
      | some items => some (.literal c :: items)
      | none => none := by
  have e : readEscapes (c :: l) =
      if c = '%' then
        match l with
        | a :: b :: rest2 =>
          match hexValue a, hexValue b, readEscapes rest2 with
          | some x, some y, some items => some (.octet (16 * x + y) :: items)
          | _, _, _ => none
        | _ => none
      else
        match readEscapes l with
        | some items => some (.literal c :: items)
        | none => none := by
    rcases l with _ | ⟨a, _ | ⟨b, l⟩⟩ <;> rfl
  rw [e, if_neg hc]

/-- The first step of `decodeOctets` on an octet. -/
theorem decodeOctets_octet (b0 : Nat) (rest : List UriItem) :
    decodeOctets (.octet b0 :: rest) =
    if b0 < 0x80 then
      match decodeOctets rest with
      | some cs => some (Char.ofNat b0 :: cs)
      | none => none
    else if b0 < 0xC0 then none
    else if b0 < 0xE0 then
      match rest with
      | .octet b1 :: rest1 =>
        if isContinuation b1 then
          match codePoint 0x80 ((b0 - 0xC0) * 64 + (b1 - 0x80)), decodeOctets rest1 with
          | some c, some cs => some (c :: cs)
          | _, _ => none
        else none
      | _ => none
    else if b0 < 0xF0 then
      match rest with
      | .octet b1 :: .octet b2 :: rest2 =>
        if isContinuation b1 && isContinuation b2 then
          match codePoint 0x800 ((b0 - 0xE0) * 4096 + (b1 - 0x80) * 64 + (b2 - 0x80)),
            decodeOctets rest2 with
          | some c, some cs => some (c :: cs)
          | _, _ => none
        else none
      | _ => none
    else if b0 < 0xF8 then
      match rest with
      | .octet b1 :: .octet b2 :: .octet b3 :: rest3 =>
        if isContinuation b1 && isContinuation b2 && isContinuation b3 then
          match codePoint 0x10000
              ((b0 - 0xF0) * 262144 + (b1 - 0x80) * 4096 + (b2 - 0x80) * 64 + (b3 - 0x80)),
            decodeOctets rest3 with
          | some c, some cs => some (c :: cs)
          | _, _ => none
        else none
      | _ => none
    else none := by
  rcases rest with _ | ⟨_ | b1, _ | ⟨_ | b2, _ | ⟨_ | b3, rest⟩⟩⟩ <;> rfl

/-- The escapes of a list of octets are read back as these octets. -/
theorem readEscapes_octets (bs : List Nat) (hbs : ∀ b ∈ bs, b < 256) (l : List Char) :
    readEscapes (bs.flatMap percentEscape ++ l) =
      match readEscapes l with
      | some items => some (bs.map UriItem.octet ++ items)
      | none => none := by
  induction bs with
  | nil =>
    simp only [List.flatMap_nil, List.nil_append, List.map_nil]
    cases readEscapes l <;> rfl
  | cons b bs ih =>
    rw [List.flatMap_cons, List.append_assoc,
      readEscapes_percentEscape b (hbs b (List.mem_cons_self _ _)),
      ih (fun x hx => hbs x (List.mem_cons_of_mem _ hx))]
    cases readEscapes l <;> simp

/-- The character `%` is not unreserved. -/
theorem ne_percent_of_unreserved (c : Char) (h : isUriUnreserved c = true) : c ≠ '%' := by
  rintro rfl
  exact absurd h (by decide)

/-- The octets of a code point decode to that code point. -/
theorem decodeOctets_utf8Octets (c : Char) (rest : List UriItem) :
    decodeOctets ((utf8Octets c).map UriItem.octet ++ rest) =
      match decodeOctets rest with
      | some cs => some (c :: cs)
      | none => none := by
  have hto : c.toNat = c.val.toNat := rfl
  have hv : c.toNat < 0xD800 ∨ (0xDFFF < c.toNat ∧ c.toNat < 0x110000) := by
    rcases c.valid with h | h
    · left; omega
    · right; omega
  have hof : Char.ofNat c.toNat = c := Char.ofNat_toNat c
  unfold utf8Octets
  by_cases h1 : c.toNat < 0x80
  · simp only [h1, if_true, List.map_cons, List.map_nil, List.cons_append, List.nil_append]
    rw [decodeOctets_octet]
    simp only [h1, if_true, hof]
  · by_cases h2 : c.toNat < 0x800
    · simp only [h1, h2, if_true, if_false, List.map_cons, List.map_nil, List.cons_append,
        List.nil_append]
      rw [decodeOctets_octet]
      have a1 : ¬ (0xC0 + c.toNat / 64 < 0x80) := by omega
      have a2 : ¬ (0xC0 + c.toNat / 64 < 0xC0) := by omega
      have a3 : 0xC0 + c.toNat / 64 < 0xE0 := by omega
      have a4 : isContinuation (0x80 + c.toNat % 64) = true := by
        simp only [isContinuation, Bool.and_eq_true, decide_eq_true_eq]
        omega
      have a5 : (0xC0 + c.toNat / 64 - 0xC0) * 64 + (0x80 + c.toNat % 64 - 0x80) = c.toNat := by
        omega
      have a6 : codePoint 0x80 c.toNat = some c := by
        unfold codePoint
        rw [if_pos ⟨by omega, hv⟩, hof]
      simp only [a1, a2, a3, a4, a5, a6, if_true, if_false]
      cases decodeOctets rest <;> rfl
    · by_cases h3 : c.toNat < 0x10000
      · simp only [h1, h2, h3, if_true, if_false, List.map_cons, List.map_nil,
          List.cons_append, List.nil_append]
        rw [decodeOctets_octet]
        have a1 : ¬ (0xE0 + c.toNat / 4096 < 0x80) := by omega
        have a2 : ¬ (0xE0 + c.toNat / 4096 < 0xC0) := by omega
        have a3 : ¬ (0xE0 + c.toNat / 4096 < 0xE0) := by omega
        have a3b : 0xE0 + c.toNat / 4096 < 0xF0 := by omega
        have a4 : isContinuation (0x80 + c.toNat / 64 % 64) = true := by
          simp only [isContinuation, Bool.and_eq_true, decide_eq_true_eq]
          omega
        have a4b : isContinuation (0x80 + c.toNat % 64) = true := by
          simp only [isContinuation, Bool.and_eq_true, decide_eq_true_eq]
          omega
        have a5 : (0xE0 + c.toNat / 4096 - 0xE0) * 4096 + (0x80 + c.toNat / 64 % 64 - 0x80) * 64
            + (0x80 + c.toNat % 64 - 0x80) = c.toNat := by
          omega
        have a6 : codePoint 0x800 c.toNat = some c := by
          unfold codePoint
          rw [if_pos ⟨by omega, hv⟩, hof]
        simp only [a1, a2, a3, a3b, a4, a4b, a5, a6, if_true, if_false, Bool.and_self]
        cases decodeOctets rest <;> rfl
      · simp only [h1, h2, h3, if_false, List.map_cons, List.map_nil,
          List.cons_append, List.nil_append]
        rw [decodeOctets_octet]
        have hlt : c.toNat < 0x110000 := by omega
        have a1 : ¬ (0xF0 + c.toNat / 262144 < 0x80) := by omega
        have a2 : ¬ (0xF0 + c.toNat / 262144 < 0xC0) := by omega
        have a3 : ¬ (0xF0 + c.toNat / 262144 < 0xE0) := by omega
        have a3b : ¬ (0xF0 + c.toNat / 262144 < 0xF0) := by omega
        have a3c : 0xF0 + c.toNat / 262144 < 0xF8 := by omega
        have a4 : isContinuation (0x80 + c.toNat / 4096 % 64) = true := by
          simp only [isContinuation, Bool.and_eq_true, decide_eq_true_eq]
          omega
        have a4b : isContinuation (0x80 + c.toNat / 64 % 64) = true := by
          simp only [isContinuation, Bool.and_eq_true, decide_eq_true_eq]
          omega
        have a4c : isContinuation (0x80 + c.toNat % 64) = true := by
          simp only [isContinuation, Bool.and_eq_true, decide_eq_true_eq]
          omega
        have a5 : (0xF0 + c.toNat / 262144 - 0xF0) * 262144
            + (0x80 + c.toNat / 4096 % 64 - 0x80) * 4096
            + (0x80 + c.toNat / 64 % 64 - 0x80) * 64
            + (0x80 + c.toNat % 64 - 0x80) = c.toNat := by
          omega
        have a6 : codePoint 0x10000 c.toNat = some c := by
          unfold codePoint
          rw [if_pos ⟨by omega, hv⟩, hof]
        simp only [a1, a2, a3, a3b, a3c, a4, a4b, a4c, a5, a6, if_true, if_false, Bool.and_self]
        cases decodeOctets rest <;> rfl

/-- The escapes of an encoded string are read back as the characters that were kept
and the octets that were escaped. -/
theorem readEscapes_encode (l : List Char) :
    readEscapes (l.flatMap (fun c =>
        if isUriUnreserved c then [c] else (utf8Octets c).flatMap percentEscape)) =
      some (l.flatMap (fun c =>
        if isUriUnreserved c then [UriItem.literal c]
        else (utf8Octets c).map UriItem.octet)) := by
  induction l with
  | nil => rfl
  | cons c l ih =>
    rw [List.flatMap_cons, List.flatMap_cons]
    by_cases hu : isUriUnreserved c = true
    · simp only [hu, if_true, List.singleton_append]
      rw [readEscapes_literal c (ne_percent_of_unreserved c hu), ih]
    · rw [if_neg hu, if_neg hu, readEscapes_octets _ (utf8Octets_lt c), ih]

/-- The first step of `decodeOctets` on a literal character. -/
theorem decodeOctets_literal (c : Char) (rest : List UriItem) :
    decodeOctets (.literal c :: rest) =
      match decodeOctets rest with
      | some cs => some (c :: cs)
      | none => none := by
  rcases rest with _ | ⟨_ | b1, rest⟩ <;> rfl

/-- The items of an encoded string decode to the string. -/
theorem decodeOctets_encode (l : List Char) :
    decodeOctets (l.flatMap (fun c =>
        if isUriUnreserved c then [UriItem.literal c]
        else (utf8Octets c).map UriItem.octet)) = some l := by
  induction l with
  | nil => rfl
  | cons c l ih =>
    rw [List.flatMap_cons]
    by_cases hu : isUriUnreserved c = true
    · simp only [hu, if_true, List.singleton_append]
      rw [decodeOctets_literal, ih]
    · rw [if_neg hu, decodeOctets_utf8Octets, ih]

/-- Decoding undoes encoding: `decodeURIComponent(encodeURIComponent(s))` is `s`. -/
theorem decodeURIComponent_encodeURIComponent (s : String) :
    decodeURIComponent (encodeURIComponent s) = some s := by
  unfold decodeURIComponent encodeURIComponent
  simp only [readEscapes_encode, decodeOctets_encode]

/-- The param of the details page opened from a card is the number of the card. -/
theorem cardPhoneNumber_eq (number : String) : cardPhoneNumber number = number := by
  unfold cardPhoneNumber routeParam
  rw [decodeURIComponent_encodeURIComponent]
  rfl

/-- A string without `%` is its own decoding. -/
theorem decodeURIComponent_of_no_percent (s : String) (h : '%' ∉ s.data) :
    decodeURIComponent s = some s := by
  have h1 : ∀ l : List Char, '%' ∉ l → readEscapes l = some (l.map UriItem.literal) := by
    intro l
    induction l with
    | nil => intro _; rfl
    | cons c l ih =>
      intro hl
      rw [readEscapes_literal c (fun hc => hl (hc ▸ List.mem_cons_self _ _)),
        ih (fun hm => hl (List.mem_cons_of_mem _ hm))]
      rfl
  have h2 : ∀ l : List Char, decodeOctets (l.map UriItem.literal) = some l := by
    intro l
    induction l with
    | nil => rfl
    | cons c l ih => rw [List.map_cons, decodeOctets_literal, ih]
  unfold decodeURIComponent
  simp only [h1 s.data h, h2]

/-- The comments list of a group object has `totalComments` elements. -/
theorem length_comments_entryOf (k : String) (cs : List Customer) :
    (entryOf k cs).comments.length = (entryOf k cs).totalComments := by
  rw [comments_entryOf, totalComments_entryOf]
  induction recordsOf k cs with
  | nil => rfl
  | cons c rest ih =>
    simp only [List.flatMap_cons, List.length_append, List.map_cons, List.sum_cons, ih]
    simp [Customer.commentList]

/-- When every `motifs` field is an array, `fetchComments` called with the number of a
group of `Home.fetchCustomers` collects `totalComments` comments, which is also the
length of the `comments` list of the group. -/
theorem fetchComments_length_eq_totalComments (parseDate : String → Option Int) (now : String)
    (user : Option SessionUser) (cs : List Customer) (st : DetailsState) (g : PhoneGroup)
    (harr : ∀ c ∈ cs, c.motifs = .array c.motifList)
    (hg : g ∈ (fetchCustomers cs).phoneGroups) :
    (fetchComments parseDate now user g.number (some cs) st).comments.length = g.totalComments
    ∧ g.comments.length = g.totalComments := by
  obtain ⟨k, hk, rfl⟩ := mem_phoneGroups cs g hg
  have hk0 : k ≠ "" := ((mem_validNumbers cs k).1 hk).1
  constructor
  · simp only [PhoneEntry.toGroup, number_entryOf]
    obtain ⟨l, hl⟩ := collectComments_isSome now user k cs (by
      intro c hc _ hn
      have := harr c hc
      rw [hn] at this
      exact absurd this (by simp))
    have hlen := length_collectComments now user k cs l hl
    simp only [fetchComments, hl]
    rw [(jsSort_perm _ l).length_eq, hlen, totalComments_entryOf, recordsOf_eq_filter cs k hk0]
    congr 1
    apply List.map_congr_left
    intro c _
    exact (motifList_length c).symm
  · simp only [PhoneEntry.toGroup]
    exact length_comments_entryOf k cs

/-- The details page opened from the card of a group whose number has no `%` shows as
many comments as the card counts, when every `motifs` field is an array. -/
theorem details_count_eq_card_count (parseDate : String → Option Int) (now : String)
    (user : Option SessionUser) (cs : List Customer) (st : DetailsState) (g : PhoneGroup)
    (harr : ∀ c ∈ cs, c.motifs = .array c.motifList)
    (hg : g ∈ (fetchCustomers cs).phoneGroups)
    (hpercent : '%' ∉ g.number.data) :
    (detailsFromCard parseDate now user g.number (some cs) st).map
        (fun details => details.comments.length) = some g.totalComments
    ∧ g.comments.length = g.totalComments := by
  have h := fetchComments_length_eq_totalComments parseDate now user cs st g harr hg
  refine ⟨?_, h.2⟩
  unfold detailsFromCard
  rw [cardPhoneNumber_eq, decodeURIComponent_of_no_percent g.number hpercent]
  simp only [Option.map_some', h.1]

/-- The details page at the end-to-end scenario: the group of "0600" has two reports
on both pages. -/
theorem details_count_eq_card_count_example :
    (detailsFromCard noDate "" none scenarioGroup.number (some scenarioCustomers)
        DetailsState.initial).map (fun details => details.comments.length) =
      some scenarioGroup.totalComments
    ∧ scenarioGroup.comments.length = scenarioGroup.totalComments :=
  details_count_eq_card_count noDate "" none scenarioCustomers DetailsState.initial
    scenarioGroup (by decide) (by decide) (by decide)

/-- C26. For the single report on the number "%2541" the card of `Home` counts one
report, while the details page opened from that card decodes its param once more,
looks up "%41" and has no comment; for the single report on "100%" the card counts
one report and `decodeURIComponent` raises a `URIError` when the details page is
rendered. -/
theorem details_page_count_differs :
    (fetchCustomers percentCustomers).phoneGroups.map
        (fun g => (g.number, g.totalComments, g.comments.length)) = [("%2541", 1, 1)]
    ∧ encodeURIComponent "%2541" = "%252541"
    ∧ cardPhoneNumber "%2541" = "%2541"
    ∧ decodeURIComponent (cardPhoneNumber "%2541") = some "%41"
    ∧ (detailsFromCard noDate "" none "%2541" (some percentCustomers)
        DetailsState.initial).map (fun details => details.comments.length) = some 0
    ∧ (fetchCustomers barePercentCustomers).phoneGroups.map
        (fun g => (g.number, g.totalComments, g.comments.length)) = [("100%", 1, 1)]
    ∧ cardPhoneNumber "100%" = "100%"
    ∧ detailsFromCard noDate "" none "100%" (some barePercentCustomers)
        DetailsState.initial = none := by
  decide

/-- A user without an id may not modify a comment whose `user_id` is `null`, and may
modify one whose `user_id` is absent as well. -/
theorem canModifyComment_undefined_null :
    canModifyComment (some userWithoutId) commentOfNull = false
    ∧ commentControls (some userWithoutId) none commentOfNull = []
    ∧ canModifyComment (some userWithoutId) { commentOfNull with userId := .undefined } = true := by
  decide

end Minassa
